import Mathlib

/-!
# Nexus Weaver kernel: process manager and cgroup manager

A shallow embedding of `services/kernel/src/process_manager.c` and
`services/kernel/src/cgroup_manager.c`, with `nw_error_string` of `utils.c` and the list
response of `handle_message` of `grpc_server.c`.

* C strings are Lean strings, `strcmp(a, b) == 0` is `a = b`.
* A pointer argument that the code tests against `NULL` is an `Option`.
* The linked list of `process_entry_t` is a `List`; a `process_entry_t *` into it is
  the position of the entry in the list.
* Every call into the operating system (and into the registered event callback) goes
  through `sys`: the environment `World.env` answers the call as a function of the
  call and of the history, and the call and its answer are appended to `World.trace`.
* The code is read sequentially: mutex operations, `free` and `nw_log` have no
  influence on the registry or on control flow and are not represented.
-/

namespace NexusWeaver

/-! ## kernel.h -/

/-- Error codes (`nw_error_t`). -/
inductive nw_error_t where
  | NW_SUCCESS
  | NW_ERROR_GENERAL
  | NW_ERROR_INVALID_PARAM
  | NW_ERROR_NO_MEMORY
  | NW_ERROR_PROCESS_FAILED
  | NW_ERROR_CGROUP_FAILED
  | NW_ERROR_NOT_FOUND
  | NW_ERROR_PERMISSION_DENIED
  | NW_ERROR_ALREADY_EXISTS
  | NW_ERROR_TIMEOUT
  | NW_ERROR_IO
  deriving DecidableEq, Repr, Inhabited

/-- Process states (`process_state_t`). -/
inductive process_state_t where
  | PROCESS_STATE_INIT
  | PROCESS_STATE_RUNNING
  | PROCESS_STATE_STOPPED
  | PROCESS_STATE_FAILED
  | PROCESS_STATE_TERMINATED
  deriving DecidableEq, Repr, Inhabited

open nw_error_t process_state_t

def MAX_PATH_LENGTH : Nat := 4096
def PATH_MAX : Nat := 4096

/-- Resource limits (`resource_limits_t`). -/
structure resource_limits_t where
  memory_bytes : Nat
  cpu_shares : Nat
  cpu_quota_us : Nat
  cpu_period_us : Nat
  pids_limit : Nat
  deriving DecidableEq, Repr, Inhabited

/-- Process information (`process_info_t`). -/
structure process_info_t where
  id : String
  name : String
  pid : Int
  state : process_state_t
  command : String
  working_dir : String
  limits : resource_limits_t
  start_time : Int
  uid : Nat
  gid : Nat
  deriving DecidableEq, Repr, Inhabited

/-- Process statistics (`process_stats_t`, process_manager.h). -/
structure process_stats_t where
  memory_current : Nat
  memory_peak : Nat
  cpu_usage_percent : Int
  io_read_bytes : Nat
  io_write_bytes : Nat
  deriving DecidableEq, Repr, Inhabited

/-! ## System interface -/

def SIGKILL : Int := 9
def SIGTERM : Int := 15
def EPERM : Int := 1
def ESRCH : Int := 3
def ECHILD : Int := 10
def EEXIST : Int := 17
def WNOHANG : Int := 1
def O_RDONLY : Int := 0
def O_WRONLY : Int := 1
def EXIT_FAILURE : Int := 1

/-- The calls the kernel makes into its environment. -/
inductive Call where
  | calloc
  | malloc (size : Nat)
  | fork
  | kill (pid : Int) (sig : Int)
  | waitpid (pid : Int) (options : Int)
  | sleep (seconds : Nat)
  | time
  | mkdir (path : String) (mode : Nat)
  | rmdir (path : String)
  | stat (path : String)
  | open_file (path : String) (flags : Int)
  | read (fd : Int) (count : Nat)
  | write (fd : Int) (value : String)
  | close (fd : Int)
  | fopen (path : String) (mode : String)
  | fclose (fp : Int)
  | chdir (path : String)
  | setgid (gid : Nat)
  | setuid (uid : Nat)
  | execvp (file : Option String) (args : List String)
  | event_cb (cb : Nat) (process_id : String) (old_state new_state : process_state_t)
      (user_data : Nat)
  deriving DecidableEq, Repr, Inhabited

/-- The answer to a call: return value (for `calloc`, `malloc` and `fopen`, zero is
`NULL`), `errno`, wait status, bytes delivered (for `fopen`, the content of the file, which
the caller then reads through `fgets`). -/
structure Resp where
  ret : Int
  err : Int
  status : Int
  data : String
  deriving DecidableEq, Repr, Inhabited

abbrev Event := Call × Resp

/-- The environment and the history of calls made so far. -/
structure World where
  env : Call → List Event → Resp
  trace : List Event

/-- Perform one call: ask the environment, log call and answer. -/
def sys (c : Call) (w : World) : Resp × World :=
  (w.env c w.trace, { w with trace := w.trace ++ [(c, w.env c w.trace)] })

/-- The C library `WIFEXITED(status)` on Linux: the low seven bits are zero. -/
def WIFEXITED (status : Int) : Bool := status % 128 == 0

/-- The C library `WIFSIGNALED(status)` on Linux: the low seven bits are in `1 .. 126`. -/
def WIFSIGNALED (status : Int) : Bool := 1 ≤ status % 128 && status % 128 ≤ 126

/-- The C library `snprintf(buf, size, ...)`: at most `size - 1` characters are stored. -/
def snprintf (size : Nat) (s : String) : String := ⟨s.data.take (size - 1)⟩

/-- One `strtok` step on the not yet consumed input: skip delimiters, cut the token at
the next delimiter (which is overwritten), or `none` when no token is left. -/
def strtok (delim : List Char) (s : List Char) : Option (List Char × List Char) :=
  let s1 := s.dropWhile (fun c => delim.contains c)
  if s1.isEmpty then none
  else some (s1.takeWhile (fun c => !delim.contains c),
             (s1.dropWhile (fun c => !delim.contains c)).drop 1)

/-! ## cgroup_manager.c -/

/-- The cgroup manager (`struct cgroup_manager`). -/
structure cgroup_manager where
  root_path : String
  nexus_path : String
  v2_available : Bool
  deriving DecidableEq, Repr, Inhabited

def CGROUP_PROCS : String := "cgroup.procs"
def CGROUP_CONTROLLERS : String := "cgroup.controllers"
def CGROUP_SUBTREE_CONTROL : String := "cgroup.subtree_control"

/-- Source function `write_file`: open for writing, one `write`, close; `0` iff
everything was written. -/
def write_file (path : String) (value : String) (w : World) : Int × World :=
  let o := sys (.open_file path O_WRONLY) w
  if o.1.ret < 0 then (-1, o.2)
  else
    let wr := sys (.write o.1.ret value) o.2
    let cl := sys (.close o.1.ret) wr.2
    (if wr.1.ret = (value.length : Int) then 0 else -1, cl.2)

/-- Source function `read_file`: returns the status and the buffer content (trailing
newline removed). -/
def read_file (path : String) (size : Nat) (w : World) : Int × String × World :=
  let o := sys (.open_file path O_RDONLY) w
  if o.1.ret < 0 then (-1, "", o.2)
  else
    let rd := sys (.read o.1.ret (size - 1)) o.2
    let cl := sys (.close o.1.ret) rd.2
    if rd.1.ret > 0 then
      let buf := rd.1.data.data.take (min rd.1.ret.toNat (size - 1))
      let buf := if buf.getLast? = some '\n' then buf.dropLast else buf
      (0, ⟨buf⟩, cl.2)
    else (-1, "", cl.2)

/-- Source function `path_exists`. -/
def path_exists (path : String) (w : World) : Bool × World :=
  let s := sys (.stat path) w
  (s.1.ret == 0, s.2)

/-- The `while (controller)` loop of `enable_controllers`. -/
def enable_controllers_loop (subtree_path : String) :
    Nat → List Char → World → World
  | 0, _, w => w
  | fuel + 1, buffer, w =>
    match strtok [' ', '\n'] buffer with
    | none => w
    | some (controller, rest) =>
      let enable_cmd := snprintf 64 ("+" ++ String.mk controller)
      let wf := write_file subtree_path enable_cmd w
      enable_controllers_loop subtree_path fuel rest wf.2

/-- Source function `enable_controllers`. -/
def enable_controllers (cgroup_path : String) (w : World) : nw_error_t × World :=
  let controllers_path := snprintf PATH_MAX (cgroup_path ++ "/" ++ CGROUP_CONTROLLERS)
  let rf := read_file controllers_path 256 w
  if rf.1 < 0 then (NW_ERROR_CGROUP_FAILED, rf.2.2)
  else
    let subtree_path := snprintf PATH_MAX (cgroup_path ++ "/" ++ CGROUP_SUBTREE_CONTROL)
    (NW_SUCCESS, enable_controllers_loop subtree_path 256 rf.2.1.data rf.2.2)

/-- Source function `cg_create_group`. -/
def cg_create_group (cg : Option cgroup_manager) (group_name : Option String) (w : World) :
    nw_error_t × World :=
  match cg, group_name with
  | some cg, some group_name =>
    let group_path := snprintf PATH_MAX (cg.nexus_path ++ "/" ++ group_name)
    let mk := sys (.mkdir group_path 0o755) w
    if mk.1.ret < 0 then
      if mk.1.err = EEXIST then (NW_ERROR_ALREADY_EXISTS, mk.2)
      else (NW_ERROR_CGROUP_FAILED, mk.2)
    else
      let en := enable_controllers cg.nexus_path mk.2
      (NW_SUCCESS, en.2)
  | _, _ => (NW_ERROR_INVALID_PARAM, w)

/-- Source function `cg_remove_group`. -/
def cg_remove_group (cg : Option cgroup_manager) (group_name : Option String) (w : World) :
    nw_error_t × World :=
  match cg, group_name with
  | some cg, some group_name =>
    let group_path := snprintf PATH_MAX (cg.nexus_path ++ "/" ++ group_name)
    let ex := path_exists group_path w
    if !ex.1 then (NW_ERROR_NOT_FOUND, ex.2)
    else
      let rm := sys (.rmdir group_path) ex.2
      if rm.1.ret < 0 then (NW_ERROR_CGROUP_FAILED, rm.2)
      else (NW_SUCCESS, rm.2)
  | _, _ => (NW_ERROR_INVALID_PARAM, w)

/-- Source function `cg_apply_limits`. -/
def cg_apply_limits (cg : Option cgroup_manager) (group_name : Option String)
    (limits : Option resource_limits_t) (w : World) : nw_error_t × World :=
  match cg, group_name, limits with
  | some cg, some group_name, some limits =>
    let group_path := snprintf PATH_MAX (cg.nexus_path ++ "/" ++ group_name)
    let w1 :=
      if limits.memory_bytes > 0 then
        (write_file (snprintf PATH_MAX (group_path ++ "/memory.max"))
          (snprintf 64 (toString limits.memory_bytes)) w).2
      else w
    let w2 :=
      if limits.cpu_quota_us > 0 ∧ limits.cpu_period_us > 0 then
        (write_file (snprintf PATH_MAX (group_path ++ "/cpu.max"))
          (snprintf 64 (toString limits.cpu_quota_us ++ " " ++ toString limits.cpu_period_us))
          w1).2
      else w1
    let w3 :=
      if limits.pids_limit > 0 then
        (write_file (snprintf PATH_MAX (group_path ++ "/pids.max"))
          (snprintf 64 (toString limits.pids_limit)) w2).2
      else w2
    (NW_SUCCESS, w3)
  | _, _, _ => (NW_ERROR_INVALID_PARAM, w)

/-- Source function `cg_add_process`. -/
def cg_add_process (cg : Option cgroup_manager) (group_name : Option String) (pid : Int)
    (w : World) : nw_error_t × World :=
  match cg, group_name with
  | some cg, some group_name =>
    if pid ≤ 0 then (NW_ERROR_INVALID_PARAM, w)
    else
      let procs_path :=
        snprintf PATH_MAX (cg.nexus_path ++ "/" ++ group_name ++ "/" ++ CGROUP_PROCS)
      let pid_str := snprintf 32 (toString pid)
      let wf := write_file procs_path pid_str w
      if wf.1 < 0 then (NW_ERROR_CGROUP_FAILED, wf.2)
      else (NW_SUCCESS, wf.2)
  | _, _ => (NW_ERROR_INVALID_PARAM, w)

/-! ## process_manager.c -/

/-- Process entry in the manager (`process_entry_t`). -/
structure process_entry where
  info : process_info_t
  stats : process_stats_t
  deriving DecidableEq, Repr, Inhabited

/-- Process manager structure (`struct process_manager`). -/
structure process_manager where
  processes : List process_entry
  cgroup_mgr : Option cgroup_manager
  event_cb : Option Nat
  event_cb_data : Nat
  running : Bool
  deriving DecidableEq, Repr, Inhabited

/-- The `while (entry)` loop of `find_process_entry`. -/
def find_entry_loop : List process_entry → String → Option Nat
  | [], _ => none
  | entry :: next, process_id =>
    if entry.info.id = process_id then some 0
    else (find_entry_loop next process_id).map (fun i => i + 1)

/-- Source function `find_process_entry`: the position of the first entry with this id. -/
def find_process_entry (pm : process_manager) (process_id : String) : Option Nat :=
  find_entry_loop pm.processes process_id

/-- Read through an entry pointer. -/
def entry_at (pm : process_manager) (i : Nat) : process_entry :=
  pm.processes.getD i default

/-- Write through an entry pointer. -/
def store_entry (pm : process_manager) (i : Nat) (entry : process_entry) : process_manager :=
  { pm with processes := pm.processes.set i entry }

/-- Source function `update_process_state`. -/
def update_process_state (pm : process_manager) (entry : process_entry)
    (new_state : process_state_t) (w : World) : process_entry × World :=
  let old_state := entry.info.state
  let entry1 : process_entry := { entry with info := { entry.info with state := new_state } }
  match pm.event_cb with
  | some cb =>
    if old_state ≠ new_state then
      (entry1, (sys (.event_cb cb entry1.info.id old_state new_state pm.event_cb_data) w).2)
    else (entry1, w)
  | none => (entry1, w)

/-- The answer standing for a step that was skipped. -/
def no_call : Resp := ⟨0, 0, 0, ""⟩

/-- Source function `setup_process_environment` (runs in the child). -/
def setup_process_environment (info : process_info_t) (w : World) : nw_error_t × World :=
  let cd := if info.working_dir ≠ "" then sys (.chdir info.working_dir) w else (no_call, w)
  if cd.1.ret < 0 then ( NW_ERROR_IO, cd.2)
  else
    let sg := if info.gid ≠ 0 then sys (.setgid info.gid) cd.2 else (no_call, cd.2)
    if sg.1.ret < 0 then (NW_ERROR_PERMISSION_DENIED, sg.2)
    else
      let su := if info.uid ≠ 0 then sys (.setuid info.uid) sg.2 else (no_call, sg.2)
      if su.1.ret < 0 then (NW_ERROR_PERMISSION_DENIED, su.2)
      else (NW_SUCCESS, su.2)

/-- The command parsing loop of the child: `while (token && argc < 63)`; the first
argument is the number of slots still free in `args`. -/
def parse_command : Nat → List Char → List String
  | 0, _ => []
  | slots + 1, cmd =>
    match strtok [' '] cmd with
    | none => []
    | some (token, rest) => String.mk token :: parse_command slots rest

/-- How a call of `pm_start_process` ends: it returns to its caller, or (in the child
created by `fork`) the process image is replaced by `execvp` or the child `_exit`s. -/
inductive start_result where
  | returned (err : nw_error_t)
  | child_exec
  | child_exit (code : Int)
  deriving DecidableEq, Repr, Inhabited

/-- An entry as `calloc` delivers it, with `info` copied in. -/
def new_entry (info : process_info_t) : process_entry :=
  { info := info, stats := ⟨0, 0, 0, 0, 0⟩ }

/-- Part of `pm_start_process`, "Create cgroup for the process": the error that aborts the
start (`NW_SUCCESS` when the start goes on). -/
def start_create_cgroup (pm : process_manager) (info : process_info_t) (w : World) :
    nw_error_t × World :=
  match pm.cgroup_mgr with
  | some cg =>
    let cr := cg_create_group (some cg) (some info.id) w
    if cr.1 ≠ NW_SUCCESS then (cr.1, cr.2)
    else (NW_SUCCESS, (cg_apply_limits (some cg) (some info.id) (some info.limits) cr.2).2)
  | none => (NW_SUCCESS, w)

/-- Part of `pm_start_process`, the cleanup after a failed `fork`. -/
def start_fork_failed (pm : process_manager) (info : process_info_t) (w : World) : World :=
  match pm.cgroup_mgr with
  | some cg => (cg_remove_group (some cg) (some info.id) w).2
  | none => w

/-- Part of `pm_start_process`, "Child process". -/
def start_child (info : process_info_t) (w : World) : start_result × World :=
  let se := setup_process_environment info w
  if se.1 ≠ NW_SUCCESS then (.child_exit EXIT_FAILURE, se.2)
  else
    let cmd_copy := info.command.data.take (MAX_PATH_LENGTH - 1)
    let args := parse_command 63 cmd_copy
    let ex := sys (.execvp args.head? args) se.2
    if ex.1.ret < 0 then (.child_exit EXIT_FAILURE, ex.2)
    else (.child_exec, ex.2)

/-- Part of `pm_start_process`, "Parent process": fill in the entry, attach the child to the
cgroup, link the entry at the head of the list. -/
def start_parent (pm : process_manager) (info : process_info_t) (pid : Int) (w : World) :
    process_manager × World :=
  let tm := sys .time w
  let entry : process_entry :=
    { new_entry info with info := { info with
        pid := pid, start_time := tm.1.ret, state := PROCESS_STATE_RUNNING } }
  let w1 :=
    match pm.cgroup_mgr with
    | some cg => (cg_add_process (some cg) (some info.id) pid tm.2).2
    | none => tm.2
  ({ pm with processes := entry :: pm.processes }, w1)

/-- Source function `pm_start_process`. -/
def pm_start_process (pm : Option process_manager) (info : Option process_info_t)
    (w : World) : start_result × Option process_manager × World :=
  match pm, info with
  | some pm, some info =>
    if (find_process_entry pm info.id).isSome then
      (.returned NW_ERROR_ALREADY_EXISTS, some pm, w)
    else
      let al := sys .calloc w
      if al.1.ret = 0 then (.returned NW_ERROR_NO_MEMORY, some pm, al.2)
      else
        let cgr := start_create_cgroup pm info al.2
        if cgr.1 ≠ NW_SUCCESS then (.returned cgr.1, some pm, cgr.2)
        else
          let fk := sys .fork cgr.2
          let pid := fk.1.ret
          if pid < 0 then
            (.returned NW_ERROR_PROCESS_FAILED, some pm, start_fork_failed pm info fk.2)
          else if pid = 0 then
            let ch := start_child info fk.2
            (ch.1, some pm, ch.2)
          else
            let pa := start_parent pm info pid fk.2
            (.returned NW_SUCCESS, some pa.1, pa.2)
  | _, _ => (.returned NW_ERROR_INVALID_PARAM, pm, w)

/-- Source function `pm_stop_process`. -/
def pm_stop_process (pm : Option process_manager) (process_id : Option String) (w : World) :
    nw_error_t × Option process_manager × World :=
  match pm, process_id with
  | some pm, some process_id =>
    match find_process_entry pm process_id with
    | none => (NW_ERROR_NOT_FOUND, some pm, w)
    | some i =>
      let entry := entry_at pm i
      if entry.info.state ≠ PROCESS_STATE_RUNNING then (NW_SUCCESS, some pm, w)
      else
        let term := sys (.kill entry.info.pid SIGTERM) w
        if term.1.ret < 0 ∧ term.1.err ≠ ESRCH then
          (NW_ERROR_PROCESS_FAILED, some pm, term.2)
        else
          let sl := sys (.sleep 2) term.2
          let probe := sys (.kill entry.info.pid 0) sl.2
          let w1 :=
            if probe.1.ret = 0 then (sys (.kill entry.info.pid SIGKILL) probe.2).2
            else probe.2
          let up := update_process_state pm entry PROCESS_STATE_STOPPED w1
          (NW_SUCCESS, some (store_entry pm i up.1), up.2)
  | _, _ => (NW_ERROR_INVALID_PARAM, pm, w)

/-- Source function `pm_get_process`; `info` is the caller's buffer, returned as it is
after the call. -/
def pm_get_process (pm : Option process_manager) (process_id : Option String)
    (info : Option process_info_t) (w : World) :
    nw_error_t × Option process_info_t × World :=
  match pm, process_id, info with
  | some pm, some process_id, some info =>
    match find_process_entry pm process_id with
    | none => (NW_ERROR_NOT_FOUND, some info, w)
    | some i => (NW_SUCCESS, some (entry_at pm i).info, w)
  | _, _, _ => (NW_ERROR_INVALID_PARAM, info, w)

/-- Source function `pm_update_limits`. -/
def pm_update_limits (pm : Option process_manager) (process_id : Option String)
    (limits : Option resource_limits_t) (w : World) :
    nw_error_t × Option process_manager × World :=
  match pm, process_id, limits with
  | some pm, some process_id, some limits =>
    match find_process_entry pm process_id with
    | none => (NW_ERROR_NOT_FOUND, some pm, w)
    | some i =>
      let entry := entry_at pm i
      let ap : nw_error_t × World :=
        match pm.cgroup_mgr with
        | some cg => cg_apply_limits (some cg) (some process_id) (some limits) w
        | none => (NW_SUCCESS, w)
      if ap.1 ≠ NW_SUCCESS then (ap.1, some pm, ap.2)
      else
        (NW_SUCCESS,
         some (store_entry pm i { entry with info := { entry.info with limits := limits } }),
         ap.2)
  | _, _, _ => (NW_ERROR_INVALID_PARAM, pm, w)

/-- One pass of `pm_stop_all_processes` over the list: signal every running entry. -/
def signal_running (sig : Int) : List process_entry → World → World
  | [], w => w
  | entry :: next, w =>
    if entry.info.state = PROCESS_STATE_RUNNING then
      signal_running sig next (sys (.kill entry.info.pid sig) w).2
    else signal_running sig next w

/-- Source function `pm_stop_all_processes`. -/
def pm_stop_all_processes (pm : Option process_manager) (w : World) :
    nw_error_t × Option process_manager × World :=
  match pm with
  | none => (NW_ERROR_INVALID_PARAM, none, w)
  | some pm =>
    let w1 := signal_running SIGTERM pm.processes w
    let sl := sys (.sleep 2) w1
    let w2 := signal_running SIGKILL pm.processes sl.2
    (NW_SUCCESS, some pm, w2)

/-- The body of the `while (entry)` loop of `pm_check_processes`. -/
def check_entry (pm : process_manager) (entry : process_entry) (w : World) :
    process_entry × World :=
  if entry.info.state = PROCESS_STATE_RUNNING then
    let wp := sys (.waitpid entry.info.pid WNOHANG) w
    if wp.1.ret > 0 then
      let up : process_entry × World :=
        if WIFEXITED wp.1.status then
          update_process_state pm entry PROCESS_STATE_TERMINATED wp.2
        else if WIFSIGNALED wp.1.status then
          update_process_state pm entry PROCESS_STATE_FAILED wp.2
        else (entry, wp.2)
      match pm.cgroup_mgr with
      | some cg => (up.1, (cg_remove_group (some cg) (some up.1.info.id) up.2).2)
      | none => up
    else if wp.1.ret < 0 ∧ wp.1.err = ECHILD then
      update_process_state pm entry PROCESS_STATE_TERMINATED wp.2
    else (entry, wp.2)
  else (entry, w)

/-- The `while (entry)` loop of `pm_check_processes`. -/
def check_loop (pm : process_manager) : List process_entry → World →
    List process_entry × World
  | [], w => ([], w)
  | entry :: next, w =>
    let hd := check_entry pm entry w
    let tl := check_loop pm next hd.2
    (hd.1 :: tl.1, tl.2)

/-- Source function `pm_check_processes`. -/
def pm_check_processes (pm : Option process_manager) (w : World) :
    Option process_manager × World :=
  match pm with
  | none => (none, w)
  | some pm =>
    let r := check_loop pm pm.processes w
    (some { pm with processes := r.1 }, r.2)

/-- The world in which the loop of `pm_check_processes` reaches the record at position
`i` (the world it leaves the record at position `i - 1` in). -/
def reaper_world (pm : process_manager) (w : World) (i : Nat) : World :=
  (check_loop pm (pm.processes.take i) w).2

/-- Source function `pm_get_process_stats`; `stats` is the caller's buffer, returned as it is after the
call. -/
def pm_get_process_stats (pm : Option process_manager) (process_id : Option String)
    (stats : Option process_stats_t) (w : World) :
    nw_error_t × Option process_stats_t × World :=
  match pm, process_id, stats with
  | some pm, some process_id, some stats =>
    match find_process_entry pm process_id with
    | none => (NW_ERROR_NOT_FOUND, some stats, w)
    | some i =>
      match pm.cgroup_mgr with
      | some _ => (NW_SUCCESS, some ⟨0, 0, 0, 0, 0⟩, w)
      | none => (NW_SUCCESS, some (entry_at pm i).stats, w)
  | _, _, _ => (NW_ERROR_INVALID_PARAM, stats, w)

/-- Source function `pm_set_cgroup_manager`. -/
def pm_set_cgroup_manager (pm : Option process_manager) (cg : Option cgroup_manager) :
    Option process_manager :=
  pm.map (fun m => { m with cgroup_mgr := cg })

/-- Source function `pm_register_event_callback`. -/
def pm_register_event_callback (pm : Option process_manager) (callback : Option Nat)
    (user_data : Nat) : Option process_manager :=
  pm.map (fun m => { m with event_cb := callback, event_cb_data := user_data })

/-! ## cgroup_manager.c: statistics -/

/-- The cgroup statistics (`cgroup_stats_t`). -/
structure cgroup_stats_t where
  memory_current : Nat
  memory_max : Nat
  cpu_usage_usec : Nat
  nr_periods : Nat
  nr_throttled : Nat
  throttled_usec : Nat
  deriving DecidableEq, Repr, Inhabited

/-- The C library `isspace` in the C locale. -/
def isspace (c : Char) : Bool :=
  c == ' ' || c == '\t' || c == '\n' || c == '\x0b' || c == '\x0c' || c == '\r'

/-- The number a string of decimal digits denotes. -/
def decimal_value (ds : List Char) : Nat :=
  ds.foldl (fun n c => 10 * n + (c.toNat - '0'.toNat)) 0

/-- The C library conversion of an unsigned long at the start of `s` (as in `strtoul`
with base 10, white space already skipped): an optional sign, then at least one digit;
the value saturates at `2^64 - 1` and is negated modulo `2^64` after a minus sign. -/
def scan_unsigned (s : List Char) : Option Nat :=
  let neg := s.head? == some '-'
  let s1 := if s.head? == some '-' || s.head? == some '+' then s.tail else s
  let ds := s1.takeWhile Char.isDigit
  if ds.isEmpty then none
  else
    let v := min (decimal_value ds) (2 ^ 64 - 1)
    some (if neg then (2 ^ 64 - v) % 2 ^ 64 else v)

/-- The C library `strtoull(s, NULL, 10)`: zero when no digits are found. -/
def strtoull (s : List Char) : Nat :=
  (scan_unsigned (s.dropWhile isspace)).getD 0

/-- The C library `sscanf(line, "<key> %lu", &v) == 1` (`bits = 64`) or
`sscanf(line, "<key> %u", &v) == 1` (`bits = 32`): the line starts with the key, then,
after any white space, comes a number; the result is the value stored. -/
def sscanf_key (key : String) (bits : Nat) (line : List Char) : Option Nat :=
  if key.data.isPrefixOf line then
    (scan_unsigned ((line.drop key.data.length).dropWhile isspace)).map
      (fun v => v % 2 ^ bits)
  else none

/-- The characters one `fgets` call stores: up to `n`, stopping after a newline. -/
def fgets_take : Nat → List Char → List Char
  | 0, _ => []
  | _, [] => []
  | n + 1, c :: cs => if c = '\n' then [c] else c :: fgets_take n cs

/-- The C library `fgets(buffer, size, fp)` on the unread part of the stream: the line
stored and the rest of the stream, or `none` at the end of the file. -/
def fgets (size : Nat) (stream : List Char) : Option (List Char × List Char) :=
  if stream.isEmpty then none
  else some (fgets_take (size - 1) stream,
             stream.drop (fgets_take (size - 1) stream).length)

/-- The body of the `while (fgets(...))` loop of `cg_get_stats`. -/
def cpu_stat_line (buffer : List Char) (stats : cgroup_stats_t) : cgroup_stats_t :=
  match sscanf_key "usage_usec" 64 buffer with
  | some value => { stats with cpu_usage_usec := value }
  | none =>
    match sscanf_key "nr_periods" 32 buffer with
    | some value => { stats with nr_periods := value }
    | none =>
      match sscanf_key "nr_throttled" 32 buffer with
      | some value => { stats with nr_throttled := value }
      | none =>
        match sscanf_key "throttled_usec" 64 buffer with
        | some value => { stats with throttled_usec := value }
        | none => stats

/-- The `while (fgets(...))` loop of `cg_get_stats`; the first argument bounds the number
of lines. -/
def cpu_stat_loop : Nat → List Char → cgroup_stats_t → cgroup_stats_t
  | 0, _, stats => stats
  | fuel + 1, stream, stats =>
    match fgets 256 stream with
    | none => stats
    | some (buffer, rest) => cpu_stat_loop fuel rest (cpu_stat_line buffer stats)

/-- Source function `cg_get_stats`; `stats` is the caller's buffer, returned as it is
after the call. -/
def cg_get_stats (cg : Option cgroup_manager) (group_name : Option String)
    (stats : Option cgroup_stats_t) (w : World) :
    nw_error_t × Option cgroup_stats_t × World :=
  match cg, group_name, stats with
  | some cg, some group_name, some _ =>
    let group_path := snprintf PATH_MAX (cg.nexus_path ++ "/" ++ group_name)
    let st0 : cgroup_stats_t := ⟨0, 0, 0, 0, 0, 0⟩
    let cur := read_file (snprintf PATH_MAX (group_path ++ "/memory.current")) 256 w
    let st1 :=
      if cur.1 ≥ 0 then { st0 with memory_current := strtoull cur.2.1.data } else st0
    let peak := read_file (snprintf PATH_MAX (group_path ++ "/memory.peak")) 256 cur.2.2
    let st2 :=
      if peak.1 ≥ 0 then { st1 with memory_max := strtoull peak.2.1.data } else st1
    let fp := sys (.fopen (snprintf PATH_MAX (group_path ++ "/cpu.stat")) "r") peak.2.2
    if fp.1.ret ≠ 0 then
      let st3 := cpu_stat_loop (fp.1.data.data.length + 1) fp.1.data.data st2
      let cl := sys (.fclose fp.1.ret) fp.2
      (NW_SUCCESS, some st3, cl.2)
    else (NW_SUCCESS, some st2, fp.2)
  | _, _, _ => (NW_ERROR_INVALID_PARAM, stats, w)

/-! ## process_manager.c: listing -/

/-- The size of `process_info_t` in bytes (x86-64 Linux). -/
def sizeof_process_info_t : Nat := 8560

/-- The copy loop of `pm_list_processes`. -/
def list_copy_loop : List process_entry → Nat → Nat → List process_info_t
  | [], _, _ => []
  | entry :: next, i, count =>
    if i < count then entry.info :: list_copy_loop next (i + 1) count else []

/-- Source function `pm_list_processes`; `list` and `count` are the caller's variables
(`none` for a `NULL` pointer), returned as they are after the call; the array `*list` is
`none` when it is `NULL`. -/
def pm_list_processes (pm : Option process_manager)
    (list : Option (Option (List process_info_t))) (count : Option Nat) (w : World) :
    nw_error_t × Option (Option (List process_info_t)) × Option Nat × World :=
  match pm, list, count with
  | some pm, some _, some _ =>
    let count := pm.processes.length
    if count = 0 then (NW_SUCCESS, some none, some count, w)
    else
      let al := sys (.malloc (count * sizeof_process_info_t)) w
      if al.1.ret = 0 then (NW_ERROR_NO_MEMORY, some none, some count, al.2)
      else (NW_SUCCESS, some (some (list_copy_loop pm.processes 0 count)), some count, al.2)
  | _, _, _ => (NW_ERROR_INVALID_PARAM, list, count, w)

/-! ## cgroup_manager.c: initialisation -/

/-- Source function `cg_is_v2_available`. -/
def cg_is_v2_available (w : World) : Bool × World :=
  let st := sys (.stat "/sys/fs/cgroup") w
  if st.1.ret ≠ 0 then (false, st.2)
  else path_exists "/sys/fs/cgroup/cgroup.controllers" st.2

/-- Source function `cg_init`; `cg` is the caller's variable (`none` for a `NULL`
pointer), returned as it is after the call. -/
def cg_init (cg : Option (Option cgroup_manager)) (cgroup_root : Option String) (w : World) :
    nw_error_t × Option (Option cgroup_manager) × World :=
  match cg, cgroup_root with
  | some _, some cgroup_root =>
    let al := sys .calloc w
    if al.1.ret = 0 then (NW_ERROR_NO_MEMORY, some none, al.2)
    else
      let root_path : String := ⟨cgroup_root.data.take (PATH_MAX - 1)⟩
      let av := cg_is_v2_available al.2
      if !av.1 then (NW_ERROR_CGROUP_FAILED, some none, av.2)
      else
        let nexus_path := snprintf PATH_MAX (root_path ++ "/nexus_weaver")
        let mk := sys (.mkdir nexus_path 0o755) av.2
        if mk.1.ret < 0 ∧ mk.1.err ≠ EEXIST then (NW_ERROR_CGROUP_FAILED, some none, mk.2)
        else
          let en := enable_controllers root_path mk.2
          (NW_SUCCESS, some (some ⟨root_path, nexus_path, true⟩), en.2)
  | _, _ => (NW_ERROR_INVALID_PARAM, cg, w)

/-! ## utils.c -/

/-- The values of the enumeration `nw_error_t` (kernel.h). -/
def error_code : nw_error_t → Int
  | NW_SUCCESS => 0
  | NW_ERROR_GENERAL => -1
  | NW_ERROR_INVALID_PARAM => -2
  | NW_ERROR_NO_MEMORY => -3
  | NW_ERROR_PROCESS_FAILED => -4
  | NW_ERROR_CGROUP_FAILED => -5
  | NW_ERROR_NOT_FOUND => -6
  | NW_ERROR_PERMISSION_DENIED => -7
  | NW_ERROR_ALREADY_EXISTS => -8
  | NW_ERROR_TIMEOUT => -9
  | NW_ERROR_IO => -10

/-- The table `error_strings`: the designated initialisers `[0]`, `[-NW_ERROR_GENERAL]`,
..., `[-NW_ERROR_IO]` fill the positions 0 to 10, in this order. -/
def error_strings : List String :=
  ["Success", "General error", "Invalid parameter", "Out of memory",
   "Process operation failed", "cgroup operation failed", "Not found",
   "Permission denied", "Already exists", "Operation timed out", "I/O error"]

/-- A value as an `int` holds it: reduced to the 32-bit two's complement range. -/
def to_int (x : Int) : Int := (x + 2 ^ 31) % 2 ^ 32 - 2 ^ 31

/-- Source function `nw_error_string`, on the integer value of its argument; `none`
stands for a read outside the table. -/
def nw_error_string (error : Int) : Option String :=
  let index := to_int (-error)
  if index ≥ 0 ∧ index < (error_strings.length : Int) then error_strings[index.toNat]?
  else some "Unknown error"

/-! ## grpc_server.c -/

def MSG_LIST_PROCESSES : Int := 4

/-- The message of the test protocol (`message_t`): `data` holds the characters stored
in the 4096-byte array before the first zero byte. -/
structure message_t where
  type : Int
  length : Nat
  data : String
  deriving DecidableEq, Repr, Inhabited

/-- The size of the array `data` of `message_t`. -/
def sizeof_data : Nat := 4096

/-- The size of `message_t`: two 4-byte fields and the array. -/
def sizeof_message_t : Nat := 4 + 4 + sizeof_data

/-- The values of the enumeration `process_state_t` (kernel.h). -/
def state_code : process_state_t → Int
  | PROCESS_STATE_INIT => 0
  | PROCESS_STATE_RUNNING => 1
  | PROCESS_STATE_STOPPED => 2
  | PROCESS_STATE_FAILED => 3
  | PROCESS_STATE_TERMINATED => 4

/-- The text the format `"- %s (PID: %d, State: %d)\n"` produces for a list entry. -/
def list_line (info : process_info_t) : String :=
  "- " ++ info.name ++ " (PID: " ++ toString info.pid ++ ", State: " ++
    toString (state_code info.state) ++ ")\n"

/-- The `for` loop of the case `MSG_LIST_PROCESSES` of `handle_message`: `snprintf`
stores what fits the rest of the array and returns the length of the whole text, which is
added to `response.length` (a `uint32_t`). -/
def list_response_loop : List process_info_t → Nat → Nat → message_t → message_t
  | [], _, _, response => response
  | info :: rest, i, count, response =>
    if i < count ∧ response.length < sizeof_data - 100 then
      list_response_loop rest (i + 1) count
        { response with
          length := (response.length + (list_line info).length) % 2 ^ 32,
          data := response.data ++
            snprintf (sizeof_data - response.length) (list_line info) }
    else response

/-- The case `MSG_LIST_PROCESSES` of `handle_message`, with the `send` that ends the
function: the response and the number of bytes handed to `send`. The locals `list` and
`count` are passed as they are before `pm_list_processes` sets them. -/
def handle_message_list (pm : Option process_manager) (list : Option (List process_info_t))
    (count : Nat) (w : World) : message_t × Nat × World :=
  let zeroed : message_t := { type := 0, length := 0, data := "" }
  let r := pm_list_processes pm (some list) (some count) w
  let response :=
    if r.1 = NW_SUCCESS then
      let count := r.2.2.1.getD count
      let list := (r.2.1.getD list).getD []
      let header := "Process count: " ++ toString count ++ "\n"
      list_response_loop list 0 count
        { type := MSG_LIST_PROCESSES, length := header.length % 2 ^ 32,
          data := snprintf sizeof_data header }
    else zeroed
  (response, 4 + 4 + response.length, r.2.2.2)

/-! ## The lifecycle of the specification -/

/-- The lifecycle states of the specification (section 4.3). -/
inductive lifecycle where
  | Init
  | Running
  | Stopping
  | Stopped
  | Failed
  | Terminated
  deriving DecidableEq, Repr, Inhabited

/-- The lifecycle state a `process_state_t` value stands for. -/
def lifecycle_of : process_state_t → lifecycle
  | PROCESS_STATE_INIT => .Init
  | PROCESS_STATE_RUNNING => .Running
  | PROCESS_STATE_STOPPED => .Stopped
  | PROCESS_STATE_FAILED => .Failed
  | PROCESS_STATE_TERMINATED => .Terminated

/-- The edges of the lifecycle state machine of section 4.3. -/
def lifecycle_edge : lifecycle → lifecycle → Bool
  | .Init, .Running => true
  | .Init, .Failed => true
  | .Running, .Stopping => true
  | .Stopping, .Stopped => true
  | .Running, .Terminated => true
  | .Stopping, .Terminated => true
  | .Running, .Failed => true
  | .Stopping, .Failed => true
  | _, _ => false

/-- The state changes the code makes on a record that is in the registry. -/
def observed_edge : process_state_t → process_state_t → Bool
  | PROCESS_STATE_RUNNING, PROCESS_STATE_STOPPED => true
  | PROCESS_STATE_RUNNING, PROCESS_STATE_TERMINATED => true
  | PROCESS_STATE_RUNNING, PROCESS_STATE_FAILED => true
  | _, _ => false

/-- One registry entry before and after an operation: nothing but the state differs, and
the state is the same or has moved along an observed edge. -/
def state_step (a b : process_entry) : Prop :=
  b = { a with info := { a.info with state := b.info.state } } ∧
  (b.info.state = a.info.state ∨ observed_edge a.info.state b.info.state = true)

/-- The `kill` calls of a history, as pairs (pid, signal), in order. -/
def signals_of (tr : List Event) : List (Int × Int) :=
  tr.filterMap (fun e =>
    match e.1 with
    | .kill pid sig => some (pid, sig)
    | _ => none)

/-! ## Sample inputs -/

/-- An environment in which every call succeeds; `fork` answers in the parent. -/
def calm_env : Call → List Event → Resp
  | .calloc, _ => ⟨1, 0, 0, ""⟩
  | .fork, _ => ⟨4242, 0, 0, ""⟩
  | .time, _ => ⟨1700000000, 0, 0, ""⟩
  | _, _ => ⟨0, 0, 0, ""⟩

def calm_world : World := { env := calm_env, trace := [] }

def sample_limits : resource_limits_t :=
  { memory_bytes := 268435456, cpu_shares := 0, cpu_quota_us := 0, cpu_period_us := 0,
    pids_limit := 0 }

/-- A start request `{id: "a", cmd: "/bin/sleep 60"}`. -/
def sample_info : process_info_t :=
  { id := "a", name := "sleeper", pid := 0, state := PROCESS_STATE_INIT,
    command := "/bin/sleep 60", working_dir := "", limits := sample_limits,
    start_time := 0, uid := 0, gid := 0 }

/-- A registry entry for `sample_info` in the given state, with pid 4242. -/
def sample_entry (st : process_state_t) : process_entry :=
  { info := { sample_info with pid := 4242, state := st, start_time := 1700000000 },
    stats := ⟨0, 0, 0, 0, 0⟩ }

/-- A manager without cgroup manager and without callback. -/
def bare_pm (l : List process_entry) : process_manager :=
  { processes := l, cgroup_mgr := none, event_cb := none, event_cb_data := 0,
    running := true }

/-- A registry holding the one running workload `a`. -/
def running_pm : process_manager := bare_pm [sample_entry PROCESS_STATE_RUNNING]

/-- The limits of the "limit update" scenario: 128 MB. -/
def doubled_limits : resource_limits_t :=
  { sample_limits with memory_bytes := 134217728 }

def sample_cg : cgroup_manager :=
  { root_path := "/sys/fs/cgroup", nexus_path := "/sys/fs/cgroup/nexus_weaver",
    v2_available := true }

/-- A manager with a cgroup manager set and no callback. -/
def confined_pm (l : List process_entry) : process_manager :=
  { bare_pm l with cgroup_mgr := some sample_cg }

/-- An environment in which the child 4242 exits normally (code 0) during the first
`sleep(2)`: before it a wait finds it running, from then on a wait reports the exit;
until it is reaped, signals still reach it. -/
def grace_exit_env : Call → List Event → Resp
  | .waitpid pid _, tr =>
    if pid = 4242 ∧ tr.any (fun e => e.1 == Call.sleep 2) then ⟨4242, 0, 0, ""⟩
    else ⟨0, 0, 0, ""⟩
  | c, tr => calm_env c tr

/-- An environment in which the kernel may not signal its children: every `kill`
fails with `EPERM` (the target exists). -/
def denying_env : Call → List Event → Resp
  | .kill _ _, _ => ⟨-1, EPERM, 0, ""⟩
  | c, tr => calm_env c tr

/-- An environment in which a wait on the child 4242 reaps a normal exit (code 0). -/
def reaped_env : Call → List Event → Resp
  | .waitpid pid _, _ => if pid = 4242 then ⟨4242, 0, 0, ""⟩ else ⟨-1, ECHILD, 0, ""⟩
  | c, tr => calm_env c tr

/-- An environment in which a wait on the child 4242 reaps a death by signal 9. -/
def killed_env : Call → List Event → Resp
  | .waitpid pid _, _ => if pid = 4242 then ⟨4242, 0, 9, ""⟩ else ⟨-1, ECHILD, 0, ""⟩
  | c, tr => calm_env c tr

/-! ## Sequences of calls, directories, files -/

/-- One call of the process manager interface, with its arguments. -/
inductive pm_call where
  | start (info : Option process_info_t)
  | stop (process_id : Option String)
  | update_limits (process_id : Option String) (limits : Option resource_limits_t)
  | stop_all
  | check
  deriving DecidableEq, Repr, Inhabited

/-- Run one call on a manager and a world. -/
def run_call (c : pm_call) (s : Option process_manager × World) :
    Option process_manager × World :=
  match c with
  | .start info => (pm_start_process s.1 info s.2).2
  | .stop process_id => (pm_stop_process s.1 process_id s.2).2
  | .update_limits process_id limits => (pm_update_limits s.1 process_id limits s.2).2
  | .stop_all => (pm_stop_all_processes s.1 s.2).2
  | .check => pm_check_processes s.1 s.2

/-- Run a sequence of calls, one after the other. -/
def run_calls : List pm_call → Option process_manager × World →
    Option process_manager × World
  | [], s => s
  | c :: cs, s => run_calls cs (run_call c s)

/-- A manager with an empty registry. -/
def fresh_pm (cg : Option cgroup_manager) (cb : Option Nat) (user_data : Nat) :
    process_manager :=
  { processes := [], cgroup_mgr := cg, event_cb := cb, event_cb_data := user_data,
    running := true }

/-- The directory `cg_create_group` and `cg_remove_group` use for a group. -/
def group_path (cg : cgroup_manager) (group_name : String) : String :=
  snprintf PATH_MAX (cg.nexus_path ++ "/" ++ group_name)

/-- The effect of one event of a history on the existence of the directory `p`. -/
def dir_step (p : String) (b : Bool) (ev : Event) : Bool :=
  match ev.1 with
  | .mkdir q _ => if q = p ∧ 0 ≤ ev.2.ret then true else b
  | .rmdir q => if q = p ∧ 0 ≤ ev.2.ret then false else b
  | _ => b

/-- Whether the directory `p` exists after a history, when nothing but the calls of the
history changes the file system: it was made by a `mkdir` that succeeded and no `rmdir`
has succeeded on it since. -/
def dir_exists (tr : List Event) (p : String) : Bool :=
  tr.foldl (dir_step p) false

/-- An environment whose `mkdir` fails on a directory that exists. -/
def fs_sane (env : Call → List Event → Resp) : Prop :=
  ∀ tr p mode, dir_exists tr p = true → (env (.mkdir p mode) tr).ret < 0

/-- An environment whose `waitpid`, when it reaps a child, reports a normal exit or a
death by signal (as it does without `WUNTRACED` and `WCONTINUED`). -/
def wait_sane (env : Call → List Event → Resp) : Prop :=
  ∀ tr pid options, 0 < (env (.waitpid pid options) tr).ret →
    WIFEXITED (env (.waitpid pid options) tr).status = true ∨
    WIFSIGNALED (env (.waitpid pid options) tr).status = true

/-- The paths of the `open` calls of a history, in order. -/
def opened_paths (tr : List Event) : List String :=
  tr.filterMap (fun e =>
    match e.1 with
    | .open_file path _ => some path
    | _ => none)

/-- The paths of the `rmdir` calls of a history, in order. -/
def removals_of (tr : List Event) : List String :=
  tr.filterMap (fun e =>
    match e.1 with
    | .rmdir path => some path
    | _ => none)

/-- The number of `fork` calls of a history. -/
def forks_of (tr : List Event) : Nat :=
  tr.countP (fun e => e.1 == Call.fork)

/-- Call `write_file` on each pair (path, value) in turn, whatever the outcomes. -/
def write_files : List (String × String) → World → World
  | [], w => w
  | pv :: rest, w => write_files rest (write_file pv.1 pv.2 w).2

/-- The `write_file` calls of `cg_apply_limits`, with the paths and values as the code
formats them. -/
def issued_limit_writes (cg : cgroup_manager) (group_name : String)
    (limits : resource_limits_t) : List (String × String) :=
  (if limits.memory_bytes > 0 then
    [(snprintf PATH_MAX (group_path cg group_name ++ "/memory.max"),
      snprintf 64 (toString limits.memory_bytes))] else []) ++
  (if limits.cpu_quota_us > 0 ∧ limits.cpu_period_us > 0 then
    [(snprintf PATH_MAX (group_path cg group_name ++ "/cpu.max"),
      snprintf 64 (toString limits.cpu_quota_us ++ " " ++ toString limits.cpu_period_us))]
    else []) ++
  (if limits.pids_limit > 0 then
    [(snprintf PATH_MAX (group_path cg group_name ++ "/pids.max"),
      snprintf 64 (toString limits.pids_limit))] else [])

/-- The limit files of a group and their contents, as the specification describes them:
`memory.max` with the decimal `memory_bytes` when it is set, `cpu.max` with quota and
period when both are set, `pids.max` with the decimal `pids_limit` when it is set. -/
def limit_writes (cg : cgroup_manager) (group_name : String)
    (limits : resource_limits_t) : List (String × String) :=
  (if limits.memory_bytes > 0 then
    [(cg.nexus_path ++ "/" ++ group_name ++ "/memory.max",
      toString limits.memory_bytes)] else []) ++
  (if limits.cpu_quota_us > 0 ∧ limits.cpu_period_us > 0 then
    [(cg.nexus_path ++ "/" ++ group_name ++ "/cpu.max",
      toString limits.cpu_quota_us ++ " " ++ toString limits.cpu_period_us)] else []) ++
  (if limits.pids_limit > 0 then
    [(cg.nexus_path ++ "/" ++ group_name ++ "/pids.max",
      toString limits.pids_limit)] else [])

/-- The world in which `pm_start_process` calls `fork`, when it gets that far. -/
def fork_world (pm : process_manager) (info : process_info_t) (w : World) : World :=
  (start_create_cgroup pm info (sys .calloc w).2).2

/-- An environment in which a wait on a child fails with `ECHILD`. -/
def orphan_env : Call → List Event → Resp
  | .waitpid _ _, _ => ⟨-1, ECHILD, 0, ""⟩
  | c, tr => calm_env c tr

/-- An environment in which `cgroup.procs` of the group `a` cannot be opened. -/
def no_attach_env : Call → List Event → Resp
  | .open_file path _, _ =>
    if path = "/sys/fs/cgroup/nexus_weaver/a/cgroup.procs" then ⟨-1, 13, 0, ""⟩
    else ⟨3, 0, 0, ""⟩
  | c, tr => calm_env c tr

/-- An environment in which no file can be opened. -/
def no_open_env : Call → List Event → Resp
  | .open_file _ _, _ => ⟨-1, 13, 0, ""⟩
  | c, tr => calm_env c tr

/-- An environment in which `fork` fails. -/
def no_fork_env : Call → List Event → Resp
  | .fork, _ => ⟨-1, 11, 0, ""⟩
  | c, tr => calm_env c tr

/-- An environment in which every `mkdir` fails with `EEXIST`. -/
def dir_taken_env : Call → List Event → Resp
  | .mkdir _ _, _ => ⟨-1, EEXIST, 0, ""⟩
  | c, tr => calm_env c tr

/-- An environment that keeps a file system: `mkdir` fails with `EEXIST` on a directory
that exists and succeeds otherwise; a wait reaps a normal exit. -/
def tidy_env : Call → List Event → Resp
  | .mkdir path _, tr => if dir_exists tr path then ⟨-1, EEXIST, 0, ""⟩ else ⟨0, 0, 0, ""⟩
  | .waitpid pid _, _ => ⟨pid, 0, 0, ""⟩
  | c, tr => calm_env c tr

/-- One registry entry before and after a call: id and pid are kept, and the state is
kept or is no longer Running. -/
def record_step (a b : process_entry) : Prop :=
  b.info.id = a.info.id ∧ b.info.pid = a.info.pid ∧
  (b.info.state = a.info.state ∨ b.info.state ≠ PROCESS_STATE_RUNNING)

/-- A start request with an empty id and an empty command. -/
def shapeless_info : process_info_t :=
  { sample_info with id := "", command := "" }

/-- A start request whose id contains a path separator. -/
def slash_info : process_info_t :=
  { sample_info with id := "x/y" }

/-- The calls of `write_file` and `read_file`. -/
def file_call : Call → Bool
  | .open_file _ _ => true
  | .read _ _ => true
  | .write _ _ => true
  | .close _ => true
  | _ => false

/-- The calls that neither signal a process nor remove a directory. -/
def gentle_call : Call → Bool
  | .kill _ _ => false
  | .rmdir _ => false
  | _ => true

/-- The calls that neither make nor remove a directory. -/
def dir_neutral_call : Call → Bool
  | .mkdir _ _ => false
  | .rmdir _ => false
  | _ => true

/-- The world `w'` comes from `w` by calls of the class `P`: same environment, and the
history has grown by events whose calls are all in `P`. -/
def extends_by (P : Call → Bool) (w w' : World) : Prop :=
  w'.env = w.env ∧ ∃ evs, w'.trace = w.trace ++ evs ∧ ∀ e ∈ evs, P e.1 = true

/-- Limits with every field set. -/
def full_limits : resource_limits_t :=
  { memory_bytes := 268435456, cpu_shares := 1024, cpu_quota_us := 50000,
    cpu_period_us := 100000, pids_limit := 64 }

/-- A start request for the workload `a` with every limit set. -/
def limited_info : process_info_t :=
  { sample_info with limits := full_limits }

/-- A file of a group as `cg_get_stats` names it. -/
def stats_file (cg : cgroup_manager) (group_name : String) (name : String) : String :=
  snprintf PATH_MAX (group_path cg group_name ++ name)

/-- The lines `fgets` delivers from a stream, one call after the other; the first
argument bounds their number. -/
def fgets_lines : Nat → List Char → List (List Char)
  | 0, _ => []
  | fuel + 1, stream =>
    match fgets 256 stream with
    | none => []
    | some (buffer, rest) => buffer :: fgets_lines fuel rest

/-- The value following a key in a list of lines: that of the last line that has the key
followed by a number, and zero when there is none. -/
def last_value (key : String) (bits : Nat) (lines : List (List Char)) : Nat :=
  ((lines.filterMap (sscanf_key key bits)).getLast?).getD 0

/-- An environment with the statistics files of a group: `memory.current` holds
`52428800`, `memory.peak` cannot be opened, `cpu.stat` has five lines. -/
def stats_env : Call → List Event → Resp
  | .open_file path _, _ =>
    if path = "/sys/fs/cgroup/nexus_weaver/a/memory.current" then ⟨7, 0, 0, ""⟩
    else ⟨-1, 2, 0, ""⟩
  | .read _ _, _ => ⟨9, 0, 0, "52428800\n"⟩
  | .fopen _ _, _ =>
    ⟨1, 0, 0, "usage_usec 1500\nuser_usec 1000\nnr_periods 12\nnr_throttled 3\nthrottled_usec 250\n"⟩
  | c, tr => calm_env c tr

/-- An environment in which no file of the group exists. -/
def no_files_env : Call → List Event → Resp
  | .open_file _ _, _ => ⟨-1, 2, 0, ""⟩
  | .fopen _ _, _ => ⟨0, 2, 0, ""⟩
  | c, tr => calm_env c tr

/-- The first read of `cg_get_stats`: `memory.current`. -/
def stats_current (cg : cgroup_manager) (group_name : String) (w : World) :
    Int × String × World :=
  read_file (stats_file cg group_name "/memory.current") 256 w

/-- The second read of `cg_get_stats`: `memory.peak`. -/
def stats_peak (cg : cgroup_manager) (group_name : String) (w : World) :
    Int × String × World :=
  read_file (stats_file cg group_name "/memory.peak") 256
    (stats_current cg group_name w).2.2

/-- The third read of `cg_get_stats`: the `fopen` of `cpu.stat`. -/
def stats_cpu (cg : cgroup_manager) (group_name : String) (w : World) : Resp × World :=
  sys (.fopen (stats_file cg group_name "/cpu.stat") "r") (stats_peak cg group_name w).2.2

/-- The lines the loop of `cg_get_stats` gets from a file with the given content. -/
def cpu_lines (content : String) : List (List Char) :=
  fgets_lines (content.data.length + 1) content.data

/-- The statistics of `cg_get_stats` after its two memory reads, before `cpu.stat`. -/
def stats_memory (cg : cgroup_manager) (group_name : String) (w : World) : cgroup_stats_t :=
  ⟨if (stats_current cg group_name w).1 ≥ 0 then
      strtoull (stats_current cg group_name w).2.1.data else 0,
    if (stats_peak cg group_name w).1 ≥ 0 then
      strtoull (stats_peak cg group_name w).2.1.data else 0,
    0, 0, 0, 0⟩

/-- The group directories of the records that are Running, in registry order. -/
def running_paths (cg : cgroup_manager) (l : List process_entry) : List String :=
  (l.filter (fun e => e.info.state == PROCESS_STATE_RUNNING)).map
    (fun e => group_path cg e.info.id)

/-- The confinement invariant of a registry with respect to a history: every Running
record has a positive pid and its group directory exists, and the Running records have
pairwise different group directories. -/
def confined (cg : cgroup_manager) (l : List process_entry) (tr : List Event) : Prop :=
  (∀ e ∈ l, e.info.state = PROCESS_STATE_RUNNING →
    0 < e.info.pid ∧ dir_exists tr (group_path cg e.info.id) = true) ∧
  (running_paths cg l).Nodup

/-- The calls of a history, in order, without their answers. -/
def calls_of (tr : List Event) : List Call := tr.map Prod.fst

/-- The pids of the records in state Running, in registry order. -/
def running_pids (l : List process_entry) : List Int :=
  (l.filter (fun e => e.info.state == PROCESS_STATE_RUNNING)).map (fun e => e.info.pid)

/-- An environment in which cgroup v2 is mounted at `/sys/fs/cgroup` and `/srv/plain` is
an ordinary directory: it exists, but has no `cgroup.controllers`, and no file in it can
be opened. -/
def plain_root_env : Call → List Event → Resp
  | .stat path, _ =>
    if path = "/sys/fs/cgroup" ∨ path = "/sys/fs/cgroup/cgroup.controllers" ∨
        path = "/srv/plain" then ⟨0, 0, 0, ""⟩
    else ⟨-1, 2, 0, ""⟩
  | .open_file _ _, _ => ⟨-1, 2, 0, ""⟩
  | c, tr => calm_env c tr

/-- An environment in which cgroup v2 is mounted at `/mnt/cg2` (the directory exists and
has `cgroup.controllers`) and nothing is at `/sys/fs/cgroup`. -/
def mounted_elsewhere_env : Call → List Event → Resp
  | .stat path, _ =>
    if path = "/mnt/cg2" ∨ path = "/mnt/cg2/cgroup.controllers" then ⟨0, 0, 0, ""⟩
    else ⟨-1, 2, 0, ""⟩
  | c, tr => calm_env c tr

/-- The `stat` calls of a history: their paths, in order. -/
def stats_of (tr : List Event) : List String :=
  tr.filterMap (fun e =>
    match e.1 with
    | .stat path => some path
    | _ => none)

/-- An environment in which every call succeeds and `malloc` delivers memory. -/
def roomy_env : Call → List Event → Resp
  | .malloc _, _ => ⟨1, 0, 0, ""⟩
  | c, tr => calm_env c tr

/-- A name of 255 characters, the longest `name[MAX_PROCESS_NAME]` holds. -/
def long_name : String := ⟨List.replicate 255 'x'⟩

/-- A registry of fifteen running workloads `0` to `14`, each with a name of 255
characters, with the pids 1000 to 1014. -/
def crowded_pm : process_manager :=
  bare_pm ((List.range 15).map (fun i =>
    { info := { sample_info with
        id := toString i, name := long_name, pid := 1000 + i,
        state := PROCESS_STATE_RUNNING },
      stats := ⟨0, 0, 0, 0, 0⟩ }))

/-- The maximal non-empty runs of characters that are no separators, in order. -/
def token_runs (sep : Char → Bool) (s : List Char) : List String :=
  ((s.splitOnP sep).filter (fun t => !t.isEmpty)).map String.mk

/-- The argument vector as the specification describes it: the tokens of the command
that white space separates, truncated to the first 63. -/
def whitespace_argv (command : String) : List String :=
  (token_runs isspace command.data).take 63

/-- The `execvp` calls of a history: file and argument vector, in order. -/
def execs_of (tr : List Event) : List (Option String × List String) :=
  tr.filterMap (fun e =>
    match e.1 with
    | .execvp file args => some (file, args)
    | _ => none)

/-- A start request whose command has a tab between its first two words. -/
def tabbed_info : process_info_t :=
  { sample_info with command := "ls\t-l /tmp" }

/-- The steps of the child's setup as the specification lists them: change directory
when one is given, set the gid when it is not 0, then the uid when it is not 0. -/
def setup_steps (info : process_info_t) : List Call :=
  (if info.working_dir ≠ "" then [Call.chdir info.working_dir] else []) ++
  (if info.gid ≠ 0 then [Call.setgid info.gid] else []) ++
  (if info.uid ≠ 0 then [Call.setuid info.uid] else [])

/-- Perform steps in order up to the first that fails; whether none failed. -/
def run_steps : List Call → World → Bool × World
  | [], w => (true, w)
  | c :: rest, w =>
    if (sys c w).1.ret < 0 then (false, (sys c w).2) else run_steps rest (sys c w).2

/-- A start request with a working directory, a gid and a uid. -/
def identity_info : process_info_t :=
  { sample_info with working_dir := "/srv", gid := 1000, uid := 1001 }

/-- The environment of a child (`fork` answers 0) that may not change its gid. -/
def child_env : Call → List Event → Resp
  | .fork, _ => ⟨0, 0, 0, ""⟩
  | .setgid _, _ => ⟨-1, EPERM, 0, ""⟩
  | c, tr => calm_env c tr

/-- A step in the life of a registry: one of the calls that change it, or a query. -/
inductive pm_step where
  | call (c : pm_call)
  | get (process_id : Option String) (info : Option process_info_t)
  | list (list : Option (Option (List process_info_t))) (count : Option Nat)
  deriving DecidableEq, Repr, Inhabited

/-- Run one step on a manager and a world. -/
def run_step (c : pm_step) (s : Option process_manager × World) :
    Option process_manager × World :=
  match c with
  | .call c => run_call c s
  | .get process_id info => (s.1, (pm_get_process s.1 process_id info s.2).2.2)
  | .list list count => (s.1, (pm_list_processes s.1 list count s.2).2.2.2)

/-- Run a sequence of steps, one after the other. -/
def run_steps_of : List pm_step → Option process_manager × World →
    Option process_manager × World
  | [], s => s
  | c :: cs, s => run_steps_of cs (run_step c s)

/-- Whether a step is no `pm_start_process`. -/
def no_start : pm_step → Bool
  | .call (.start _) => false
  | _ => true

/-- One registry entry before and after a sequence of steps: id and pid are kept, and the
state is kept unless it was Running. -/
def settled_step (a b : process_entry) : Prop :=
  b.info.id = a.info.id ∧ b.info.pid = a.info.pid ∧
  (b.info.state = a.info.state ∨ a.info.state = PROCESS_STATE_RUNNING)

/-- The calls that act on a process or on a group only when it belongs to a record of
the registry `l` that is in state Running: a `kill` or a wait names the pid of such a
record, an `rmdir` names the directory of the group of such a record. -/
def on_running (cg : Option cgroup_manager) (l : List process_entry) : Call → Bool
  | .kill pid _ => decide (pid ∈ running_pids l)
  | .waitpid pid _ => decide (pid ∈ running_pids l)
  | .rmdir path =>
    match cg with
    | some cg => decide (path ∈ running_paths cg l)
    | none => false
  | _ => true

/-- A registry with a Terminated and a Stopped record besides the running `a`. -/
def mixed_pm : process_manager :=
  confined_pm
    [{ info := { sample_info with id := "t", pid := 11, state := PROCESS_STATE_TERMINATED },
       stats := ⟨0, 0, 0, 0, 0⟩ },
     sample_entry PROCESS_STATE_RUNNING,
     { info := { sample_info with id := "s", pid := 12, state := PROCESS_STATE_STOPPED },
       stats := ⟨0, 0, 0, 0, 0⟩ }]

/-! ## Lemmas on the registry -/

theorem find_entry_loop_none (l : List process_entry) (id : String) :
    find_entry_loop l id = none ↔ ∀ e ∈ l, e.info.id ≠ id := by
  induction l with
  | nil => simp [find_entry_loop]
  | cons a t ih =>
    by_cases h : a.info.id = id
    · simp [find_entry_loop, h]
    · simp [find_entry_loop, h, ih]

theorem find_entry_loop_some (l : List process_entry) (id : String) (i : Nat)
    (h : find_entry_loop l id = some i) :
    i < l.length ∧ (l.getD i default).info.id = id := by
  induction l generalizing i with
  | nil => simp [find_entry_loop] at h
  | cons a t ih =>
    by_cases ha : a.info.id = id
    · simp [find_entry_loop, ha] at h
      subst h
      simp [ha]
    · simp [find_entry_loop, ha] at h
      obtain ⟨j, hj, rfl⟩ := h
      have := ih j hj
      exact ⟨by simpa using this.1, by rw [List.getD_cons_succ]; exact this.2⟩

theorem find_entry_loop_set (l : List process_entry) (id : String) (i : Nat)
    (e : process_entry) (he : e.info.id = (l.getD i default).info.id) (hi : i < l.length) :
    find_entry_loop (l.set i e) id = find_entry_loop l id := by
  induction l generalizing i with
  | nil => simp at hi
  | cons a t ih =>
    cases i with
    | zero =>
      rw [List.getD_cons_zero] at he
      simp [find_entry_loop, he]
    | succ j =>
      rw [List.getD_cons_succ] at he
      have hj : j < t.length := by simpa using hi
      simp [find_entry_loop, ih j he hj]

/-- What a successful `pm_start_process` leaves behind. -/
theorem start_success_shape (pm : process_manager) (info : process_info_t) (w : World)
    (h : (pm_start_process (some pm) (some info) w).1 = .returned NW_SUCCESS) :
    ∃ pid t, 0 < pid ∧
      (pm_start_process (some pm) (some info) w).2.1 =
        some { pm with processes :=
          { info := { info with pid := pid, start_time := t, state := PROCESS_STATE_RUNNING },
            stats := ⟨0, 0, 0, 0, 0⟩ } :: pm.processes } := by
  generalize hr : pm_start_process (some pm) (some info) w = r at h ⊢
  simp only [pm_start_process] at hr
  split_ifs at hr with h1 h2 h3 h4 h5
  · subst hr; simp at h
  · subst hr; simp at h
  · subst hr; simp at h; exact absurd h h3
  · subst hr; simp at h
  · subst hr
    simp only [start_child] at h
    split_ifs at h
  · subst hr; exact ⟨_, _, by omega, rfl⟩

/-- Looking up the id of the head entry. -/
theorem get_head (pm : process_manager) (i : process_info_t) (st : process_stats_t)
    (l : List process_entry) (buf : process_info_t) (w : World)
    (hp : pm.processes = ⟨i, st⟩ :: l) (id : String) (hid : i.id = id) :
    pm_get_process (some pm) (some id) (some buf) w = (NW_SUCCESS, some i, w) := by
  simp [pm_get_process, find_process_entry, hp, find_entry_loop, entry_at, hid]

/-- C1: a start whose id is already in the registry returns `NW_ERROR_ALREADY_EXISTS`
before any side effect: no call is made (no cgroup, no fork) and the registry is unchanged. -/
theorem start_duplicate_id_rejected (pm : process_manager) (info : process_info_t)
    (w : World) (h : ∃ e ∈ pm.processes, e.info.id = info.id) :
    pm_start_process (some pm) (some info) w =
      (.returned NW_ERROR_ALREADY_EXISTS, some pm, w) := by
  have hf : (find_process_entry pm info.id).isSome = true := by
    rw [Option.isSome_iff_ne_none, find_process_entry, Ne, find_entry_loop_none]
    obtain ⟨e, he, hid⟩ := h
    exact fun hall => hall e he hid
  simp [pm_start_process, hf]

theorem start_duplicate_id_rejected_witness :
    pm_start_process (some (bare_pm [sample_entry PROCESS_STATE_RUNNING])) (some sample_info)
        calm_world =
      (.returned NW_ERROR_ALREADY_EXISTS, some (bare_pm [sample_entry PROCESS_STATE_RUNNING]),
        calm_world) :=
  start_duplicate_id_rejected _ _ _ ⟨sample_entry PROCESS_STATE_RUNNING, by simp [bare_pm], rfl⟩

/-- C2: after a `pm_start_process` that returned `NW_SUCCESS`, `pm_get_process` on the
same id returns `NW_SUCCESS` with a positive pid and a state among Running, Stopping,
Terminated, Failed (it is `PROCESS_STATE_RUNNING`), never Init. -/
theorem start_then_get_running (pm : process_manager) (info buf : process_info_t)
    (w : World) (h : (pm_start_process (some pm) (some info) w).1 = .returned NW_SUCCESS) :
    ∃ out, pm_get_process (pm_start_process (some pm) (some info) w).2.1 (some info.id)
          (some buf) (pm_start_process (some pm) (some info) w).2.2 =
        (NW_SUCCESS, some out, (pm_start_process (some pm) (some info) w).2.2) ∧
      0 < out.pid ∧
      lifecycle_of out.state ∈
        [lifecycle.Running, lifecycle.Stopping, lifecycle.Terminated, lifecycle.Failed] ∧
      out.state ≠ PROCESS_STATE_INIT := by
  obtain ⟨pid, t, hpid, hpm⟩ := start_success_shape pm info w h
  rw [hpm]
  exact ⟨{ info with pid := pid, start_time := t, state := PROCESS_STATE_RUNNING },
    get_head _ _ _ _ buf _ rfl _ rfl, hpid, by simp [lifecycle_of], by simp⟩

theorem start_then_get_running_witness :
    ∃ out, pm_get_process (pm_start_process (some (bare_pm [])) (some sample_info)
            calm_world).2.1 (some sample_info.id) (some sample_info)
          (pm_start_process (some (bare_pm [])) (some sample_info) calm_world).2.2 =
        (NW_SUCCESS, some out,
          (pm_start_process (some (bare_pm [])) (some sample_info) calm_world).2.2) ∧
      0 < out.pid ∧
      lifecycle_of out.state ∈
        [lifecycle.Running, lifecycle.Stopping, lifecycle.Terminated, lifecycle.Failed] ∧
      out.state ≠ PROCESS_STATE_INIT :=
  start_then_get_running (bare_pm []) sample_info sample_info calm_world (by decide)

/-- C3: after a `pm_start_process` that returned `NW_SUCCESS`, the record returned by
`pm_get_process` for the same id equals the request on id, name, command, working_dir,
uid, gid and limits; only pid, start_time and state may differ. -/
theorem start_get_round_trip (pm : process_manager) (info buf : process_info_t)
    (w : World) (h : (pm_start_process (some pm) (some info) w).1 = .returned NW_SUCCESS) :
    ∃ out, pm_get_process (pm_start_process (some pm) (some info) w).2.1 (some info.id)
          (some buf) (pm_start_process (some pm) (some info) w).2.2 =
        (NW_SUCCESS, some out, (pm_start_process (some pm) (some info) w).2.2) ∧
      out = { info with pid := out.pid, start_time := out.start_time, state := out.state } ∧
      out.id = info.id ∧ out.name = info.name ∧ out.command = info.command ∧
      out.working_dir = info.working_dir ∧ out.uid = info.uid ∧ out.gid = info.gid ∧
      out.limits = info.limits := by
  obtain ⟨pid, t, _, hpm⟩ := start_success_shape pm info w h
  rw [hpm]
  exact ⟨{ info with pid := pid, start_time := t, state := PROCESS_STATE_RUNNING },
    get_head _ _ _ _ buf _ rfl _ rfl, rfl, rfl, rfl, rfl, rfl, rfl, rfl, rfl⟩

theorem start_get_round_trip_witness :
    ∃ out, pm_get_process (pm_start_process (some (bare_pm [])) (some sample_info)
            calm_world).2.1 (some sample_info.id) (some sample_info)
          (pm_start_process (some (bare_pm [])) (some sample_info) calm_world).2.2 =
        (NW_SUCCESS, some out,
          (pm_start_process (some (bare_pm [])) (some sample_info) calm_world).2.2) ∧
      out = { sample_info with
        pid := out.pid, start_time := out.start_time, state := out.state } ∧
      out.id = sample_info.id ∧ out.name = sample_info.name ∧
      out.command = sample_info.command ∧ out.working_dir = sample_info.working_dir ∧
      out.uid = sample_info.uid ∧ out.gid = sample_info.gid ∧
      out.limits = sample_info.limits :=
  start_get_round_trip (bare_pm []) sample_info sample_info calm_world (by decide)

/-- The function `cg_apply_limits` with all three arguments present returns `NW_SUCCESS`. -/
theorem cg_apply_limits_fst (cg : cgroup_manager) (g : String) (L : resource_limits_t)
    (w : World) : (cg_apply_limits (some cg) (some g) (some L) w).1 = NW_SUCCESS := by
  simp [cg_apply_limits]

/-- C4: when `pm_update_limits` on a present id returns `NW_SUCCESS`, a following
`pm_get_process` returns the record found before with its limits replaced by the new
limits, every other field as before; the registry differs only in that record. -/
theorem update_get_round_trip (pm : process_manager) (id : String) (L : resource_limits_t)
    (buf : process_info_t) (w : World) (hid : ∃ e ∈ pm.processes, e.info.id = id)
    (h : (pm_update_limits (some pm) (some id) (some L) w).1 = NW_SUCCESS) :
    ∃ i old,
      pm.processes[i]? = some old ∧
      pm_get_process (some pm) (some id) (some buf) w = (NW_SUCCESS, some old.info, w) ∧
      (pm_update_limits (some pm) (some id) (some L) w).2.1 =
        some { pm with processes :=
          pm.processes.set i { old with info := { old.info with limits := L } } } ∧
      pm_get_process (pm_update_limits (some pm) (some id) (some L) w).2.1 (some id)
          (some buf) (pm_update_limits (some pm) (some id) (some L) w).2.2 =
        (NW_SUCCESS, some { old.info with limits := L },
          (pm_update_limits (some pm) (some id) (some L) w).2.2) ∧
      ({ old.info with limits := L } : process_info_t).limits = L := by
  obtain ⟨i, hi⟩ : ∃ i, find_entry_loop pm.processes id = some i := by
    rw [← Option.isSome_iff_exists, Option.isSome_iff_ne_none, Ne, find_entry_loop_none]
    obtain ⟨e, he, hid⟩ := hid
    exact fun hall => hall e he hid
  obtain ⟨hlt, hid'⟩ := find_entry_loop_some _ _ _ hi
  have hget : pm.processes.getD i default = pm.processes[i] := List.getD_eq_getElem _ _ hlt
  have hget' : pm.processes[i]?.getD default = pm.processes[i] := by simp [hlt]
  refine ⟨i, pm.processes[i], by simp [hlt], ?_, ?_, ?_, rfl⟩
  · simp [pm_get_process, find_process_entry, hi, entry_at, hget']
  · generalize hr : pm_update_limits (some pm) (some id) (some L) w = r at h ⊢
    simp only [pm_update_limits, find_process_entry, hi] at hr
    split_ifs at hr with h1
    · subst hr; exact absurd h h1
    · subst hr; simp [store_entry, entry_at, hget']
  · generalize hr : pm_update_limits (some pm) (some id) (some L) w = r at h ⊢
    simp only [pm_update_limits, find_process_entry, hi] at hr
    split_ifs at hr with h1
    · subst hr; exact absurd h h1
    · subst hr
      have hf : find_entry_loop (pm.processes.set i
          { pm.processes[i] with info := { pm.processes[i].info with limits := L } }) id
            = some i := by
        rw [find_entry_loop_set _ _ _ _ (by rw [hget]) hlt, hi]
      simp [pm_get_process, find_process_entry, store_entry, entry_at, hget', hf, hlt]

theorem update_get_round_trip_witness :
    ∃ i old,
      running_pm.processes[i]? = some old ∧
      pm_get_process (some running_pm) (some "a") (some sample_info) calm_world =
        (NW_SUCCESS, some old.info, calm_world) ∧
      (pm_update_limits (some running_pm) (some "a") (some doubled_limits) calm_world).2.1 =
        some { running_pm with processes :=
          (running_pm.processes.set i
            { old with info := { old.info with limits := doubled_limits } }) } ∧
      pm_get_process
          (pm_update_limits (some running_pm) (some "a") (some doubled_limits) calm_world).2.1
          (some "a") (some sample_info)
          (pm_update_limits (some running_pm) (some "a") (some doubled_limits) calm_world).2.2 =
        (NW_SUCCESS, some { old.info with limits := doubled_limits },
          (pm_update_limits (some running_pm) (some "a") (some doubled_limits)
            calm_world).2.2) ∧
      ({ old.info with limits := doubled_limits } : process_info_t).limits = doubled_limits :=
  update_get_round_trip running_pm "a" doubled_limits sample_info calm_world
    ⟨sample_entry PROCESS_STATE_RUNNING, by simp [running_pm, bare_pm], rfl⟩ (by decide)

/-- The function `update_process_state` only writes the state field. -/
theorem update_process_state_fst (pm : process_manager) (entry : process_entry)
    (st : process_state_t) (w : World) :
    (update_process_state pm entry st w).1 = { entry with info := { entry.info with state := st } } := by
  simp only [update_process_state]
  split
  · split_ifs <;> rfl
  · rfl

/-- A stop on a record that is not running does nothing. -/
theorem stop_idle (pm : process_manager) (id : String) (w : World) (i : Nat)
    (hf : find_process_entry pm id = some i)
    (hs : (entry_at pm i).info.state ≠ PROCESS_STATE_RUNNING) :
    pm_stop_process (some pm) (some id) w = (NW_SUCCESS, some pm, w) := by
  simp [pm_stop_process, hf, hs]

/-- C5: `pm_stop_process` on a record that is not Running returns `NW_SUCCESS`, makes no
call (sends no signal) and leaves the registry as it is; and after any stop that
returned `NW_SUCCESS`, a second stop returns `NW_SUCCESS` and changes nothing. -/
theorem stop_idempotent (pm : process_manager) (id : String) (w : World) (i : Nat)
    (hf : find_process_entry pm id = some i) :
    ((entry_at pm i).info.state ≠ PROCESS_STATE_RUNNING →
      pm_stop_process (some pm) (some id) w = (NW_SUCCESS, some pm, w)) ∧
    ((pm_stop_process (some pm) (some id) w).1 = NW_SUCCESS →
      pm_stop_process (pm_stop_process (some pm) (some id) w).2.1 (some id)
          (pm_stop_process (some pm) (some id) w).2.2 =
        (NW_SUCCESS, (pm_stop_process (some pm) (some id) w).2.1,
          (pm_stop_process (some pm) (some id) w).2.2)) := by
  have first : ∀ (pm : process_manager) (w : World) (i : Nat),
      find_process_entry pm id = some i →
      (entry_at pm i).info.state ≠ PROCESS_STATE_RUNNING →
      pm_stop_process (some pm) (some id) w = (NW_SUCCESS, some pm, w) :=
    fun pm w i hf hs => stop_idle pm id w i hf hs
  refine ⟨first pm w i hf, ?_⟩
  intro h
  by_cases hs : (entry_at pm i).info.state = PROCESS_STATE_RUNNING
  · obtain ⟨hlt, hid⟩ := find_entry_loop_some _ _ _ hf
    generalize hr : pm_stop_process (some pm) (some id) w = r at h ⊢
    simp only [pm_stop_process, hf, hs] at hr
    split_ifs at hr with h1 h2
    · simp at h1
    · subst hr; simp at h
    · subst hr
      refine first _ _ i ?_ ?_
      · simp only [find_process_entry, store_entry]
        rw [find_entry_loop_set _ _ _ _ ?_ hlt]
        · exact hf
        · rw [update_process_state_fst]; rfl
      · simp [entry_at, store_entry, update_process_state_fst, hlt]
    · subst hr
      refine first _ _ i ?_ ?_
      · simp only [find_process_entry, store_entry]
        rw [find_entry_loop_set _ _ _ _ ?_ hlt]
        · exact hf
        · rw [update_process_state_fst]; rfl
      · simp [entry_at, store_entry, update_process_state_fst, hlt]
  · rw [first pm w i hf hs]
    exact first pm w i hf hs

theorem stop_idempotent_witness :
    pm_stop_process (some (bare_pm [sample_entry PROCESS_STATE_TERMINATED])) (some "a")
        calm_world =
      (NW_SUCCESS, some (bare_pm [sample_entry PROCESS_STATE_TERMINATED]), calm_world) ∧
    pm_stop_process (pm_stop_process (some running_pm) (some "a") calm_world).2.1 (some "a")
        (pm_stop_process (some running_pm) (some "a") calm_world).2.2 =
      (NW_SUCCESS, (pm_stop_process (some running_pm) (some "a") calm_world).2.1,
        (pm_stop_process (some running_pm) (some "a") calm_world).2.2) :=
  ⟨(stop_idempotent (bare_pm [sample_entry PROCESS_STATE_TERMINATED]) "a" calm_world 0
      (by decide)).1 (by decide),
    (stop_idempotent running_pm "a" calm_world 0 (by decide)).2 (by decide)⟩

/-- C6: for an id that no record of the registry carries, `pm_stop_process`,
`pm_get_process`, `pm_update_limits` and `pm_get_process_stats` return
`NW_ERROR_NOT_FOUND`, make no call (no signal, no cgroup file write) and leave the
registry and the caller's buffers as they are. -/
theorem unknown_id_not_found (pm : process_manager) (id : String) (L : resource_limits_t)
    (buf : process_info_t) (sbuf : process_stats_t) (w : World)
    (h : ∀ e ∈ pm.processes, e.info.id ≠ id) :
    pm_stop_process (some pm) (some id) w = (NW_ERROR_NOT_FOUND, some pm, w) ∧
    pm_get_process (some pm) (some id) (some buf) w = (NW_ERROR_NOT_FOUND, some buf, w) ∧
    pm_update_limits (some pm) (some id) (some L) w = (NW_ERROR_NOT_FOUND, some pm, w) ∧
    pm_get_process_stats (some pm) (some id) (some sbuf) w =
      (NW_ERROR_NOT_FOUND, some sbuf, w) := by
  have hf : find_process_entry pm id = none := (find_entry_loop_none _ _).2 h
  simp [pm_stop_process, pm_get_process, pm_update_limits, pm_get_process_stats, hf]

theorem unknown_id_not_found_witness :
    pm_stop_process (some running_pm) (some "zz") calm_world =
      (NW_ERROR_NOT_FOUND, some running_pm, calm_world) ∧
    pm_get_process (some running_pm) (some "zz") (some sample_info) calm_world =
      (NW_ERROR_NOT_FOUND, some sample_info, calm_world) ∧
    pm_update_limits (some running_pm) (some "zz") (some doubled_limits) calm_world =
      (NW_ERROR_NOT_FOUND, some running_pm, calm_world) ∧
    pm_get_process_stats (some running_pm) (some "zz") (some ⟨1, 2, 3, 4, 5⟩) calm_world =
      (NW_ERROR_NOT_FOUND, some ⟨1, 2, 3, 4, 5⟩, calm_world) :=
  unknown_id_not_found running_pm "zz" doubled_limits sample_info ⟨1, 2, 3, 4, 5⟩ calm_world
    (by decide)

/-! ## Lemmas on state changes -/

theorem state_step_refl (a : process_entry) : state_step a a :=
  ⟨rfl, Or.inl rfl⟩

theorem forall2_state_step_refl (l : List process_entry) : List.Forall₂ state_step l l := by
  induction l with
  | nil => exact List.Forall₂.nil
  | cons a t ih => exact List.Forall₂.cons (state_step_refl a) ih

theorem forall2_state_step_set (l : List process_entry) (i : Nat) (e : process_entry)
    (h : state_step (l.getD i default) e) : List.Forall₂ state_step l (l.set i e) := by
  induction l generalizing i with
  | nil => exact List.Forall₂.nil
  | cons a t ih =>
    cases i with
    | zero =>
      rw [List.getD_cons_zero] at h
      exact List.Forall₂.cons h (forall2_state_step_refl t)
    | succ j =>
      rw [List.getD_cons_succ] at h
      exact List.Forall₂.cons (state_step_refl a) (ih j h)

/-- An entry that is not running is left alone by the loop body of the reaper. -/
theorem check_entry_idle (pm : process_manager) (e : process_entry) (w : World)
    (h : e.info.state ≠ PROCESS_STATE_RUNNING) : check_entry pm e w = (e, w) := by
  simp [check_entry, h]

theorem check_entry_state_step (pm : process_manager) (e : process_entry) (w : World) :
    state_step e (check_entry pm e w).1 := by
  by_cases hs : e.info.state = PROCESS_STATE_RUNNING
  · simp only [check_entry, hs, if_true]
    split_ifs with h1 h2 h3 h4
    · split <;>
        exact ⟨by rw [update_process_state_fst], by rw [update_process_state_fst, hs]; simp [observed_edge]⟩
    · split <;>
        exact ⟨by rw [update_process_state_fst], by rw [update_process_state_fst, hs]; simp [observed_edge]⟩
    · split <;> exact state_step_refl e
    · exact ⟨by rw [update_process_state_fst], by rw [update_process_state_fst, hs]; simp [observed_edge]⟩
    · exact state_step_refl e
  · rw [check_entry_idle pm e w hs]
    exact state_step_refl e

theorem check_loop_state_step (pm : process_manager) (l : List process_entry) (w : World) :
    List.Forall₂ state_step l (check_loop pm l w).1 := by
  induction l generalizing w with
  | nil => exact List.Forall₂.nil
  | cons a t ih => exact List.Forall₂.cons (check_entry_state_step pm a w) (ih _)

theorem check_loop_length (pm : process_manager) (l : List process_entry) (w : World) :
    (check_loop pm l w).1.length = l.length :=
  (List.Forall₂.length_eq (check_loop_state_step pm l w)).symm

/-- Entries that are not running come out of the reaper loop as they went in. -/
theorem check_loop_idle (pm : process_manager) (l : List process_entry) (w : World) (i : Nat)
    (h : (l.getD i default).info.state ≠ PROCESS_STATE_RUNNING) (hi : i < l.length) :
    (check_loop pm l w).1.getD i default = l.getD i default := by
  induction l generalizing w i with
  | nil => simp at hi
  | cons a t ih =>
    cases i with
    | zero =>
      rw [List.getD_cons_zero] at h
      simp only [check_loop, List.getD_cons_zero]
      rw [check_entry_idle pm a w h]
    | succ j =>
      rw [List.getD_cons_succ] at h
      simp only [check_loop, List.getD_cons_succ]
      exact ih _ j h (by simpa using hi)

/-- The registry after `pm_start_process`: as before, or one more entry, in state
Running, at the head. -/
theorem start_registry (pm : process_manager) (info : Option process_info_t) (w : World) :
    (pm_start_process (some pm) info w).2.1 = some pm ∨
    ∃ e, e.info.state = PROCESS_STATE_RUNNING ∧
      (pm_start_process (some pm) info w).2.1 =
        some { pm with processes := e :: pm.processes } := by
  cases info with
  | none => left; rfl
  | some info =>
    generalize hr : pm_start_process (some pm) (some info) w = r
    simp only [pm_start_process] at hr
    split_ifs at hr with h1 h2 h3 h4 h5
    all_goals subst hr
    · left; rfl
    · left; rfl
    · left; rfl
    · left; rfl
    · left; rfl
    · right; exact ⟨_, rfl, rfl⟩

/-- The registry after `pm_stop_process` on a running record. -/
theorem stop_running_registry (pm : process_manager) (id : String) (w : World) (i : Nat)
    (hf : find_process_entry pm id = some i)
    (hs : (entry_at pm i).info.state = PROCESS_STATE_RUNNING) :
    ((pm_stop_process (some pm) (some id) w).1 = NW_ERROR_PROCESS_FAILED ∧
      (pm_stop_process (some pm) (some id) w).2.1 = some pm) ∨
    ((pm_stop_process (some pm) (some id) w).1 = NW_SUCCESS ∧
      (pm_stop_process (some pm) (some id) w).2.1 =
        some (store_entry pm i { entry_at pm i with
          info := { (entry_at pm i).info with state := PROCESS_STATE_STOPPED } })) := by
  generalize hr : pm_stop_process (some pm) (some id) w = r
  simp only [pm_stop_process, hf, hs] at hr
  split_ifs at hr with h1 h2
  · simp at h1
  · subst hr; left; exact ⟨rfl, rfl⟩
  · subst hr; right; exact ⟨rfl, by rw [update_process_state_fst]⟩
  · subst hr; right; exact ⟨rfl, by rw [update_process_state_fst]⟩

/-- C7, as stated, fails: a stop on the workload `a`, started and running (signals
delivered), returns `NW_SUCCESS` and leaves the record in `PROCESS_STATE_STOPPED`;
Running → Stopped is not an edge of the lifecycle of section 4.3, and the record is not
in Stopping. -/
theorem stop_leaves_lifecycle_edges :
    (pm_start_process (some (bare_pm [])) (some sample_info) calm_world).2.1 =
      some running_pm ∧
    (entry_at running_pm 0).info.state = PROCESS_STATE_RUNNING ∧
    pm_stop_process (some running_pm) (some "a") calm_world =
      (NW_SUCCESS, some (bare_pm [sample_entry PROCESS_STATE_STOPPED]),
        (pm_stop_process (some running_pm) (some "a") calm_world).2.2) ∧
    lifecycle_edge (lifecycle_of PROCESS_STATE_RUNNING) (lifecycle_of PROCESS_STATE_STOPPED)
      = false ∧
    lifecycle_of PROCESS_STATE_STOPPED ≠ lifecycle.Stopping := by
  refine ⟨by decide, by decide, ?_, by decide, by decide⟩
  rfl

/-- C7, amended: `pm_start_process` only adds a record, in state Running, and changes no
other; `pm_stop_process` and `pm_check_processes` change nothing of a record but its
state, and that only along Running → Stopped, Running → Terminated or Running → Failed;
`pm_stop_all_processes` changes no record; a stop on a running record that returns
`NW_SUCCESS` leaves the record in Stopped. -/
theorem state_changes_are_observed_edges (pm : process_manager)
    (info : Option process_info_t) (id : Option String) (w : World) :
    (∃ added, (pm_start_process (some pm) info w).2.1 =
        some { pm with processes := added ++ pm.processes } ∧
      ∀ e ∈ added, e.info.state = PROCESS_STATE_RUNNING) ∧
    (∃ l, (pm_stop_process (some pm) id w).2.1 = some { pm with processes := l } ∧
      List.Forall₂ state_step pm.processes l) ∧
    (pm_stop_all_processes (some pm) w).2.1 = some pm ∧
    (∃ l, (pm_check_processes (some pm) w).1 = some { pm with processes := l } ∧
      List.Forall₂ state_step pm.processes l) ∧
    (∀ s i, id = some s → find_process_entry pm s = some i →
      (entry_at pm i).info.state = PROCESS_STATE_RUNNING →
      (pm_stop_process (some pm) id w).1 = NW_SUCCESS →
      ∃ pm', (pm_stop_process (some pm) id w).2.1 = some pm' ∧
        (entry_at pm' i).info.state = PROCESS_STATE_STOPPED) := by
  refine ⟨?_, ?_, rfl, ⟨_, rfl, check_loop_state_step pm _ w⟩, ?_⟩
  · rcases start_registry pm info w with h | ⟨e, he, h⟩
    · exact ⟨[], by rw [h]; rfl, by simp⟩
    · exact ⟨[e], by rw [h]; rfl, by simp [he]⟩
  · cases id with
    | none => exact ⟨pm.processes, rfl, forall2_state_step_refl _⟩
    | some s =>
      cases hf : find_process_entry pm s with
      | none =>
        refine ⟨pm.processes, ?_, forall2_state_step_refl _⟩
        simp [pm_stop_process, hf]
      | some i =>
        by_cases hs : (entry_at pm i).info.state = PROCESS_STATE_RUNNING
        · rcases stop_running_registry pm s w i hf hs with ⟨_, h⟩ | ⟨_, h⟩
          · exact ⟨pm.processes, h, forall2_state_step_refl _⟩
          · refine ⟨_, h, forall2_state_step_set _ _ _ ⟨rfl, Or.inr ?_⟩⟩
            show observed_edge (pm.processes.getD i default).info.state
              PROCESS_STATE_STOPPED = true
            simp only [entry_at] at hs
            rw [hs]; rfl
        · refine ⟨pm.processes, ?_, forall2_state_step_refl _⟩
          rw [stop_idle pm s w i hf hs]
  · intro s i hid hf hs hok
    subst hid
    obtain ⟨hlt, -⟩ := find_entry_loop_some _ _ _ hf
    rcases stop_running_registry pm s w i hf hs with ⟨h, _⟩ | ⟨_, h⟩
    · rw [h] at hok; exact absurd hok (by decide)
    · exact ⟨_, h, by simp [entry_at, store_entry, hlt]⟩

theorem state_changes_are_observed_edges_witness :
    ∃ pm', (pm_stop_process (some running_pm) (some "a") calm_world).2.1 = some pm' ∧
      (entry_at pm' 0).info.state = PROCESS_STATE_STOPPED :=
  (state_changes_are_observed_edges running_pm (some sample_info) (some "a")
    calm_world).2.2.2.2 "a" 0 rfl (by decide) (by decide) (by decide)

/-- The function `pm_stop_process` on a running record, unfolded. -/
theorem stop_running_eq (pm : process_manager) (id : String) (w : World) (i : Nat)
    (hf : find_process_entry pm id = some i)
    (hs : (entry_at pm i).info.state = PROCESS_STATE_RUNNING) :
    pm_stop_process (some pm) (some id) w =
      if (sys (.kill (entry_at pm i).info.pid SIGTERM) w).1.ret < 0 ∧
          (sys (.kill (entry_at pm i).info.pid SIGTERM) w).1.err ≠ ESRCH then
        (NW_ERROR_PROCESS_FAILED, some pm, (sys (.kill (entry_at pm i).info.pid SIGTERM) w).2)
      else
        (NW_SUCCESS,
          some (store_entry pm i (update_process_state pm (entry_at pm i) PROCESS_STATE_STOPPED
            (if (sys (.kill (entry_at pm i).info.pid 0) (sys (.sleep 2)
                  (sys (.kill (entry_at pm i).info.pid SIGTERM) w).2).2).1.ret = 0 then
              (sys (.kill (entry_at pm i).info.pid SIGKILL)
                (sys (.kill (entry_at pm i).info.pid 0) (sys (.sleep 2)
                  (sys (.kill (entry_at pm i).info.pid SIGTERM) w).2).2).2).2
            else (sys (.kill (entry_at pm i).info.pid 0) (sys (.sleep 2)
                  (sys (.kill (entry_at pm i).info.pid SIGTERM) w).2).2).2)).1),
          (update_process_state pm (entry_at pm i) PROCESS_STATE_STOPPED
            (if (sys (.kill (entry_at pm i).info.pid 0) (sys (.sleep 2)
                  (sys (.kill (entry_at pm i).info.pid SIGTERM) w).2).2).1.ret = 0 then
              (sys (.kill (entry_at pm i).info.pid SIGKILL)
                (sys (.kill (entry_at pm i).info.pid 0) (sys (.sleep 2)
                  (sys (.kill (entry_at pm i).info.pid SIGTERM) w).2).2).2).2
            else (sys (.kill (entry_at pm i).info.pid 0) (sys (.sleep 2)
                  (sys (.kill (entry_at pm i).info.pid SIGTERM) w).2).2).2)).2) := by
  simp only [pm_stop_process, hf, hs, ne_eq, not_true_eq_false, if_false]

/-- C8, as stated, fails: the workload `a` exits normally during the grace window of a
stop (a wait on it would reap a normal exit); the stop returns `NW_SUCCESS`, but after
the reaper has run the record is in `PROCESS_STATE_STOPPED`, not Terminated, and the
reaper has made no call at all (no wait, no removal of the resource group). -/
theorem stop_then_reaper_not_terminated :
    (grace_exit_env (.waitpid 4242 WNOHANG) []).ret = 0 ∧
    (pm_stop_process (some (confined_pm [sample_entry PROCESS_STATE_RUNNING])) (some "a")
      ⟨grace_exit_env, []⟩).1 = NW_SUCCESS ∧
    (grace_exit_env (.waitpid 4242 WNOHANG)
      (pm_stop_process (some (confined_pm [sample_entry PROCESS_STATE_RUNNING])) (some "a")
        ⟨grace_exit_env, []⟩).2.2.trace).ret = 4242 ∧
    WIFEXITED (grace_exit_env (.waitpid 4242 WNOHANG)
      (pm_stop_process (some (confined_pm [sample_entry PROCESS_STATE_RUNNING])) (some "a")
        ⟨grace_exit_env, []⟩).2.2.trace).status = true ∧
    (pm_check_processes
      (pm_stop_process (some (confined_pm [sample_entry PROCESS_STATE_RUNNING])) (some "a")
        ⟨grace_exit_env, []⟩).2.1
      (pm_stop_process (some (confined_pm [sample_entry PROCESS_STATE_RUNNING])) (some "a")
        ⟨grace_exit_env, []⟩).2.2).1 =
      some (confined_pm [sample_entry PROCESS_STATE_STOPPED]) ∧
    (pm_check_processes
      (pm_stop_process (some (confined_pm [sample_entry PROCESS_STATE_RUNNING])) (some "a")
        ⟨grace_exit_env, []⟩).2.1
      (pm_stop_process (some (confined_pm [sample_entry PROCESS_STATE_RUNNING])) (some "a")
        ⟨grace_exit_env, []⟩).2.2).2.trace =
      [(.kill 4242 SIGTERM, ⟨0, 0, 0, ""⟩), (.sleep 2, ⟨0, 0, 0, ""⟩),
       (.kill 4242 0, ⟨0, 0, 0, ""⟩), (.kill 4242 SIGKILL, ⟨0, 0, 0, ""⟩)] := by
  refine ⟨by decide, by decide, by decide, by decide, by decide, by decide⟩

/-- C8, amended: a stop on a running record whose SIGTERM is delivered or fails with
`ESRCH` returns `NW_SUCCESS` and has itself put the record in Stopped, whatever the
process does during the grace window; the reaper run after it leaves that record as it
is, in Stopped. -/
theorem stop_then_reaper_stays_stopped (pm : process_manager) (id : String) (w : World)
    (i : Nat) (hf : find_process_entry pm id = some i)
    (hs : (entry_at pm i).info.state = PROCESS_STATE_RUNNING)
    (hterm : ¬((sys (.kill (entry_at pm i).info.pid SIGTERM) w).1.ret < 0 ∧
      (sys (.kill (entry_at pm i).info.pid SIGTERM) w).1.err ≠ ESRCH)) :
    (pm_stop_process (some pm) (some id) w).1 = NW_SUCCESS ∧
    ∃ pm1 pm2, (pm_stop_process (some pm) (some id) w).2.1 = some pm1 ∧
      (entry_at pm1 i).info.state = PROCESS_STATE_STOPPED ∧
      (pm_check_processes (some pm1) (pm_stop_process (some pm) (some id) w).2.2).1 =
        some pm2 ∧
      entry_at pm2 i = entry_at pm1 i := by
  obtain ⟨hlt, -⟩ := find_entry_loop_some _ _ _ hf
  have hok : (pm_stop_process (some pm) (some id) w).1 = NW_SUCCESS := by
    rw [stop_running_eq pm id w i hf hs, if_neg hterm]
  rcases stop_running_registry pm id w i hf hs with ⟨h, _⟩ | ⟨_, h⟩
  · rw [h] at hok; exact absurd hok (by decide)
  · have hst : (entry_at (store_entry pm i { entry_at pm i with
        info := { (entry_at pm i).info with state := PROCESS_STATE_STOPPED } }) i).info.state
          = PROCESS_STATE_STOPPED := by
      simp [entry_at, store_entry, hlt]
    refine ⟨hok, _, _, h, hst, rfl, ?_⟩
    simp only [entry_at] at hst ⊢
    exact check_loop_idle _ _ _ i (by rw [hst]; decide) (by simpa [store_entry] using hlt)

theorem stop_then_reaper_stays_stopped_witness :
    (pm_stop_process (some (confined_pm [sample_entry PROCESS_STATE_RUNNING])) (some "a")
      ⟨grace_exit_env, []⟩).1 = NW_SUCCESS ∧
    ∃ pm1 pm2,
      (pm_stop_process (some (confined_pm [sample_entry PROCESS_STATE_RUNNING])) (some "a")
        ⟨grace_exit_env, []⟩).2.1 = some pm1 ∧
      (entry_at pm1 0).info.state = PROCESS_STATE_STOPPED ∧
      (pm_check_processes (some pm1)
        (pm_stop_process (some (confined_pm [sample_entry PROCESS_STATE_RUNNING])) (some "a")
          ⟨grace_exit_env, []⟩).2.2).1 = some pm2 ∧
      entry_at pm2 0 = entry_at pm1 0 :=
  stop_then_reaper_stays_stopped (confined_pm [sample_entry PROCESS_STATE_RUNNING]) "a"
    ⟨grace_exit_env, []⟩ 0 (by decide) (by decide) (by decide)

theorem signals_of_append (a b : List Event) :
    signals_of (a ++ b) = signals_of a ++ signals_of b := by
  simp [signals_of, List.filterMap_append]

theorem sys_trace (c : Call) (w : World) :
    (sys c w).2.trace = w.trace ++ [(c, (sys c w).1)] := rfl

/-- The callback of `update_process_state` is no `kill`. -/
theorem update_process_state_signals (pm : process_manager) (entry : process_entry)
    (st : process_state_t) (w : World) :
    signals_of (update_process_state pm entry st w).2.trace = signals_of w.trace := by
  simp only [update_process_state]
  split
  · split_ifs
    · rw [sys_trace, signals_of_append]
      simp [signals_of]
    · rfl
  · rfl

/-- C9, as stated, fails: the kernel may not signal the running workload `a` (every
`kill` on pid 4242 fails with `EPERM`, so the process exists, before and after the grace
period); the stop sends SIGTERM, returns `NW_ERROR_PROCESS_FAILED` and never sends
SIGKILL. -/
theorem stop_without_escalation :
    (entry_at running_pm 0).info.state = PROCESS_STATE_RUNNING ∧
    (entry_at running_pm 0).info.pid = 4242 ∧
    (∀ tr, denying_env (.kill 4242 0) tr = ⟨-1, EPERM, 0, ""⟩) ∧
    (pm_stop_process (some running_pm) (some "a") ⟨denying_env, []⟩).1 =
      NW_ERROR_PROCESS_FAILED ∧
    (pm_stop_process (some running_pm) (some "a") ⟨denying_env, []⟩).2.2.trace =
      [(.kill 4242 SIGTERM, ⟨-1, EPERM, 0, ""⟩)] ∧
    (4242, SIGKILL) ∉
      signals_of (pm_stop_process (some running_pm) (some "a") ⟨denying_env, []⟩).2.2.trace := by
  refine ⟨by decide, by decide, fun _ => rfl, by decide, by decide, by decide⟩

/-- C9, amended: on a running record with pid `p`, `pm_stop_process` first sends SIGTERM
to `p`. If that fails with an errno other than `ESRCH` it returns
`NW_ERROR_PROCESS_FAILED` and makes no further call. Otherwise it returns `NW_SUCCESS`
and its `kill` calls are: SIGTERM to `p`, then after the grace period the probe
`kill(p, 0)`, then SIGKILL to `p` exactly when the probe succeeded. No other pid is
signalled. -/
theorem stop_kill_escalation (pm : process_manager) (id : String) (w : World) (i : Nat)
    (hf : find_process_entry pm id = some i)
    (hs : (entry_at pm i).info.state = PROCESS_STATE_RUNNING) :
    ((sys (.kill (entry_at pm i).info.pid SIGTERM) w).1.ret < 0 ∧
        (sys (.kill (entry_at pm i).info.pid SIGTERM) w).1.err ≠ ESRCH →
      pm_stop_process (some pm) (some id) w =
        (NW_ERROR_PROCESS_FAILED, some pm,
          (sys (.kill (entry_at pm i).info.pid SIGTERM) w).2) ∧
      signals_of (pm_stop_process (some pm) (some id) w).2.2.trace =
        signals_of w.trace ++ [((entry_at pm i).info.pid, SIGTERM)]) ∧
    (¬((sys (.kill (entry_at pm i).info.pid SIGTERM) w).1.ret < 0 ∧
        (sys (.kill (entry_at pm i).info.pid SIGTERM) w).1.err ≠ ESRCH) →
      (pm_stop_process (some pm) (some id) w).1 = NW_SUCCESS ∧
      signals_of (pm_stop_process (some pm) (some id) w).2.2.trace =
        signals_of w.trace ++
          [((entry_at pm i).info.pid, SIGTERM), ((entry_at pm i).info.pid, 0)] ++
          if (sys (.kill (entry_at pm i).info.pid 0) (sys (.sleep 2)
                (sys (.kill (entry_at pm i).info.pid SIGTERM) w).2).2).1.ret = 0
          then [((entry_at pm i).info.pid, SIGKILL)] else []) := by
  rw [stop_running_eq pm id w i hf hs]
  constructor
  · intro h
    rw [if_pos h]
    refine ⟨rfl, ?_⟩
    show signals_of (sys _ w).2.trace = _
    rw [sys_trace, signals_of_append]
    simp [signals_of]
  · intro h
    rw [if_neg h]
    refine ⟨rfl, ?_⟩
    show signals_of (update_process_state _ _ _ _).2.trace = _
    rw [update_process_state_signals]
    split_ifs with hp
    · simp only [sys_trace, signals_of_append]
      simp [signals_of]
    · simp only [sys_trace, signals_of_append]
      simp [signals_of]

theorem stop_kill_escalation_witness :
    ((pm_stop_process (some running_pm) (some "a") calm_world).1 = NW_SUCCESS ∧
      signals_of (pm_stop_process (some running_pm) (some "a") calm_world).2.2.trace =
        signals_of calm_world.trace ++
          [((entry_at running_pm 0).info.pid, SIGTERM), ((entry_at running_pm 0).info.pid, 0)] ++
          if (sys (.kill (entry_at running_pm 0).info.pid 0) (sys (.sleep 2)
                (sys (.kill (entry_at running_pm 0).info.pid SIGTERM) calm_world).2).2).1.ret = 0
          then [((entry_at running_pm 0).info.pid, SIGKILL)] else []) ∧
    (pm_stop_process (some running_pm) (some "a") ⟨denying_env, []⟩ =
        (NW_ERROR_PROCESS_FAILED, some running_pm,
          (sys (.kill (entry_at running_pm 0).info.pid SIGTERM) ⟨denying_env, []⟩).2) ∧
      signals_of (pm_stop_process (some running_pm) (some "a") ⟨denying_env, []⟩).2.2.trace =
        signals_of [] ++ [((entry_at running_pm 0).info.pid, SIGTERM)]) :=
  ⟨(stop_kill_escalation running_pm "a" calm_world 0 (by decide) (by decide)).2 (by decide),
    (stop_kill_escalation running_pm "a" ⟨denying_env, []⟩ 0 (by decide) (by decide)).1
      (by decide)⟩

/-- The loop of the reaper, split at position `i`: the record there is processed by the
loop body in `reaper_world pm w i`, which leaves `reaper_world pm w (i + 1)`. -/
theorem check_loop_at (pm : process_manager) (l : List process_entry) (w : World) (i : Nat)
    (hi : i < l.length) :
    (check_loop pm l w).1.getD i default =
        (check_entry pm (l.getD i default) (check_loop pm (l.take i) w).2).1 ∧
    (check_loop pm (l.take (i + 1)) w).2 =
        (check_entry pm (l.getD i default) (check_loop pm (l.take i) w).2).2 := by
  induction l generalizing w i with
  | nil => simp at hi
  | cons a t ih =>
    cases i with
    | zero => simp [check_loop]
    | succ j =>
      have hj : j < t.length := by simpa using hi
      simp only [List.take_succ_cons, check_loop, List.getD_cons_succ]
      exact ih _ j hj

theorem wifsignaled_not_wifexited (status : Int) (h : WIFSIGNALED status = true) :
    WIFEXITED status = false := by
  simp only [WIFSIGNALED, WIFEXITED, Bool.and_eq_true, decide_eq_true_eq] at h ⊢
  simp only [beq_eq_false_iff_ne, ne_eq]
  omega

/-- The loop body of the reaper on a running record whose pid the wait reaps, for a
status that the body classifies as `st`. -/
theorem check_entry_reaped (pm : process_manager) (e : process_entry) (w : World)
    (st : process_state_t) (hs : e.info.state = PROCESS_STATE_RUNNING)
    (hr : 0 < (sys (.waitpid e.info.pid WNOHANG) w).1.ret)
    (hc : (WIFEXITED (sys (.waitpid e.info.pid WNOHANG) w).1.status = true ∧
          st = PROCESS_STATE_TERMINATED) ∨
        (WIFEXITED (sys (.waitpid e.info.pid WNOHANG) w).1.status = false ∧
          WIFSIGNALED (sys (.waitpid e.info.pid WNOHANG) w).1.status = true ∧
          st = PROCESS_STATE_FAILED)) :
    (check_entry pm e w).1.info.state = st ∧
    (∀ cg, pm.cgroup_mgr = some cg → (check_entry pm e w).2 =
      (cg_remove_group (some cg) (some e.info.id)
        (update_process_state pm e st (sys (.waitpid e.info.pid WNOHANG) w).2).2).2) ∧
    (pm.cgroup_mgr = none → (check_entry pm e w).2 =
      (update_process_state pm e st (sys (.waitpid e.info.pid WNOHANG) w).2).2) := by
  rcases hc with ⟨hx, rfl⟩ | ⟨hnx, hx, rfl⟩
  · cases hcg : pm.cgroup_mgr <;>
      simp [check_entry, hs, hr, hx, hcg, update_process_state_fst]
  · cases hcg : pm.cgroup_mgr <;>
      simp [check_entry, hs, hr, hx, hnx, hcg, update_process_state_fst]

/-- C10, as stated, fails: with no cgroup manager set, the reaper reaps the running
workload `a` (normal exit), moves it to Terminated, and makes no call besides the wait:
`cg_remove_group` is not invoked. -/
theorem reaper_without_cgroup_manager :
    running_pm.cgroup_mgr = none ∧
    (entry_at running_pm 0).info.state = PROCESS_STATE_RUNNING ∧
    WIFEXITED (reaped_env (.waitpid 4242 WNOHANG) []).status = true ∧
    (pm_check_processes (some running_pm) ⟨reaped_env, []⟩).1 =
      some (bare_pm [sample_entry PROCESS_STATE_TERMINATED]) ∧
    (pm_check_processes (some running_pm) ⟨reaped_env, []⟩).2.trace =
      [(.waitpid 4242 WNOHANG, ⟨4242, 0, 0, ""⟩)] := by
  refine ⟨by decide, by decide, by decide, by decide, by decide⟩

/-- C10, amended: when the wait of `pm_check_processes` on a running record reaps its
pid, the record's state becomes Terminated for a normal exit (`WIFEXITED`) and Failed for
a signal death (`WIFSIGNALED`); in both cases, when a cgroup manager is set,
`cg_remove_group` is invoked with the record's id right after the state change, and when
none is set the reaper makes no further call for the record. -/
theorem reaper_classification (pm : process_manager) (w : World) (i : Nat)
    (hi : i < pm.processes.length)
    (hs : (entry_at pm i).info.state = PROCESS_STATE_RUNNING)
    (hr : 0 < (sys (.waitpid (entry_at pm i).info.pid WNOHANG) (reaper_world pm w i)).1.ret) :
    ∃ pm', (pm_check_processes (some pm) w).1 = some pm' ∧
      (WIFEXITED (sys (.waitpid (entry_at pm i).info.pid WNOHANG)
          (reaper_world pm w i)).1.status = true →
        (entry_at pm' i).info.state = PROCESS_STATE_TERMINATED ∧
        (∀ cg, pm.cgroup_mgr = some cg → reaper_world pm w (i + 1) =
          (cg_remove_group (some cg) (some (entry_at pm i).info.id)
            (update_process_state pm (entry_at pm i) PROCESS_STATE_TERMINATED
              (sys (.waitpid (entry_at pm i).info.pid WNOHANG) (reaper_world pm w i)).2).2).2) ∧
        (pm.cgroup_mgr = none → reaper_world pm w (i + 1) =
          (update_process_state pm (entry_at pm i) PROCESS_STATE_TERMINATED
            (sys (.waitpid (entry_at pm i).info.pid WNOHANG) (reaper_world pm w i)).2).2)) ∧
      (WIFSIGNALED (sys (.waitpid (entry_at pm i).info.pid WNOHANG)
          (reaper_world pm w i)).1.status = true →
        (entry_at pm' i).info.state = PROCESS_STATE_FAILED ∧
        (∀ cg, pm.cgroup_mgr = some cg → reaper_world pm w (i + 1) =
          (cg_remove_group (some cg) (some (entry_at pm i).info.id)
            (update_process_state pm (entry_at pm i) PROCESS_STATE_FAILED
              (sys (.waitpid (entry_at pm i).info.pid WNOHANG) (reaper_world pm w i)).2).2).2) ∧
        (pm.cgroup_mgr = none → reaper_world pm w (i + 1) =
          (update_process_state pm (entry_at pm i) PROCESS_STATE_FAILED
            (sys (.waitpid (entry_at pm i).info.pid WNOHANG) (reaper_world pm w i)).2).2)) := by
  obtain ⟨h1, h2⟩ := check_loop_at pm pm.processes w i hi
  refine ⟨_, rfl, ?_, ?_⟩
  · intro hx
    obtain ⟨k1, k2, k3⟩ := check_entry_reaped pm (entry_at pm i) (reaper_world pm w i)
      PROCESS_STATE_TERMINATED hs hr (Or.inl ⟨hx, rfl⟩)
    refine ⟨?_, ?_, ?_⟩
    · show ((check_loop pm pm.processes w).1.getD i default).info.state = _
      rw [h1]
      exact k1
    · intro cg hcg
      exact h2.trans (k2 cg hcg)
    · intro hcg
      exact h2.trans (k3 hcg)
  · intro hx
    obtain ⟨k1, k2, k3⟩ := check_entry_reaped pm (entry_at pm i) (reaper_world pm w i)
      PROCESS_STATE_FAILED hs hr (Or.inr ⟨wifsignaled_not_wifexited _ hx, hx, rfl⟩)
    refine ⟨?_, ?_, ?_⟩
    · show ((check_loop pm pm.processes w).1.getD i default).info.state = _
      rw [h1]
      exact k1
    · intro cg hcg
      exact h2.trans (k2 cg hcg)
    · intro hcg
      exact h2.trans (k3 hcg)

theorem reaper_classification_witness :
    (∃ pm', (pm_check_processes (some (confined_pm [sample_entry PROCESS_STATE_RUNNING]))
        ⟨reaped_env, []⟩).1 = some pm' ∧
      (entry_at pm' 0).info.state = PROCESS_STATE_TERMINATED ∧
      reaper_world (confined_pm [sample_entry PROCESS_STATE_RUNNING]) ⟨reaped_env, []⟩ 1 =
        (cg_remove_group (some sample_cg) (some "a")
          (update_process_state (confined_pm [sample_entry PROCESS_STATE_RUNNING])
            (sample_entry PROCESS_STATE_RUNNING) PROCESS_STATE_TERMINATED
            (sys (.waitpid 4242 WNOHANG) ⟨reaped_env, []⟩).2).2).2) ∧
    (∃ pm', (pm_check_processes (some (confined_pm [sample_entry PROCESS_STATE_RUNNING]))
        ⟨killed_env, []⟩).1 = some pm' ∧
      (entry_at pm' 0).info.state = PROCESS_STATE_FAILED ∧
      reaper_world (confined_pm [sample_entry PROCESS_STATE_RUNNING]) ⟨killed_env, []⟩ 1 =
        (cg_remove_group (some sample_cg) (some "a")
          (update_process_state (confined_pm [sample_entry PROCESS_STATE_RUNNING])
            (sample_entry PROCESS_STATE_RUNNING) PROCESS_STATE_FAILED
            (sys (.waitpid 4242 WNOHANG) ⟨killed_env, []⟩).2).2).2) := by
  obtain ⟨pm1, h1, h2, -⟩ := reaper_classification
    (confined_pm [sample_entry PROCESS_STATE_RUNNING]) ⟨reaped_env, []⟩ 0 (by decide)
    (by decide) (by decide)
  obtain ⟨pm2, k1, -, k2⟩ := reaper_classification
    (confined_pm [sample_entry PROCESS_STATE_RUNNING]) ⟨killed_env, []⟩ 0 (by decide)
    (by decide) (by decide)
  exact ⟨⟨pm1, h1, (h2 (by decide)).1, (h2 (by decide)).2.1 sample_cg rfl⟩,
    ⟨pm2, k1, (k2 (by decide)).1, (k2 (by decide)).2.1 sample_cg rfl⟩⟩

/-- C11, code defect: the reaper's wait on the running workload `a` fails with `ECHILD`
(a cgroup manager is set); the record becomes Terminated, but the reaper makes no call
besides the wait, so the resource group of `a` is not removed, whereas on the sibling
path (the wait reaps an exit) the reaper goes on to `stat` and `rmdir` the group. -/
theorem reaper_echild_keeps_group :
    (confined_pm [sample_entry PROCESS_STATE_RUNNING]).cgroup_mgr = some sample_cg ∧
    (pm_check_processes (some (confined_pm [sample_entry PROCESS_STATE_RUNNING]))
      ⟨orphan_env, []⟩).1 = some (confined_pm [sample_entry PROCESS_STATE_TERMINATED]) ∧
    (pm_check_processes (some (confined_pm [sample_entry PROCESS_STATE_RUNNING]))
      ⟨orphan_env, []⟩).2.trace = [(.waitpid 4242 WNOHANG, ⟨-1, ECHILD, 0, ""⟩)] ∧
    removals_of (pm_check_processes (some (confined_pm [sample_entry PROCESS_STATE_RUNNING]))
      ⟨orphan_env, []⟩).2.trace = [] ∧
    removals_of (pm_check_processes (some (confined_pm [sample_entry PROCESS_STATE_RUNNING]))
      ⟨reaped_env, []⟩).2.trace = ["/sys/fs/cgroup/nexus_weaver/a"] := by
  refine ⟨by decide, by decide, by decide, by decide, by decide⟩

/-! ## Lemmas on sequences of calls -/

theorem state_step_record_step (a b : process_entry) (h : state_step a b) :
    record_step a b := by
  obtain ⟨h1, h2⟩ := h
  refine ⟨by rw [h1], by rw [h1], ?_⟩
  rcases h2 with h2 | h2
  · exact Or.inl h2
  · right
    intro hb
    rw [hb] at h2
    cases hs : a.info.state <;> simp [hs, observed_edge] at h2

theorem record_step_refl (a : process_entry) : record_step a a :=
  ⟨rfl, rfl, Or.inl rfl⟩

theorem forall2_record_step_refl (l : List process_entry) :
    List.Forall₂ record_step l l := by
  induction l with
  | nil => exact List.Forall₂.nil
  | cons a t ih => exact List.Forall₂.cons (record_step_refl a) ih

theorem forall2_record_step_of_state_step (l l' : List process_entry)
    (h : List.Forall₂ state_step l l') : List.Forall₂ record_step l l' := by
  induction h with
  | nil => exact List.Forall₂.nil
  | cons hab _ ih => exact List.Forall₂.cons (state_step_record_step _ _ hab) ih

theorem forall2_record_step_set (l : List process_entry) (i : Nat) (e : process_entry)
    (h : record_step (l.getD i default) e) : List.Forall₂ record_step l (l.set i e) := by
  induction l generalizing i with
  | nil => exact List.Forall₂.nil
  | cons a t ih =>
    cases i with
    | zero =>
      rw [List.getD_cons_zero] at h
      exact List.Forall₂.cons h (forall2_record_step_refl t)
    | succ j =>
      rw [List.getD_cons_succ] at h
      exact List.Forall₂.cons (record_step_refl a) (ih j h)

theorem forall2_record_step_ids (l l' : List process_entry)
    (h : List.Forall₂ record_step l l') :
    l'.map (fun e => e.info.id) = l.map (fun e => e.info.id) := by
  induction h with
  | nil => rfl
  | cons hab _ ih => simp [hab.1, ih]

/-- The registry after `pm_stop_process`. -/
theorem stop_registry (pm : process_manager) (id : Option String) (w : World) :
    ∃ l, (pm_stop_process (some pm) id w).2.1 = some { pm with processes := l } ∧
      List.Forall₂ record_step pm.processes l := by
  cases id with
  | none => exact ⟨pm.processes, rfl, forall2_record_step_refl _⟩
  | some s =>
    cases hf : find_process_entry pm s with
    | none =>
      refine ⟨pm.processes, ?_, forall2_record_step_refl _⟩
      simp [pm_stop_process, hf]
    | some i =>
      by_cases hs : (entry_at pm i).info.state = PROCESS_STATE_RUNNING
      · rcases stop_running_registry pm s w i hf hs with ⟨_, h⟩ | ⟨_, h⟩
        · exact ⟨pm.processes, h, forall2_record_step_refl _⟩
        · refine ⟨_, h, forall2_record_step_set _ _ _ ⟨rfl, rfl, Or.inr ?_⟩⟩
          simp
      · refine ⟨pm.processes, ?_, forall2_record_step_refl _⟩
        rw [stop_idle pm s w i hf hs]

/-- The registry after `pm_update_limits`. -/
theorem update_registry (pm : process_manager) (id : Option String)
    (L : Option resource_limits_t) (w : World) :
    ∃ l, (pm_update_limits (some pm) id L w).2.1 = some { pm with processes := l } ∧
      List.Forall₂ record_step pm.processes l := by
  cases id with
  | none => exact ⟨pm.processes, rfl, forall2_record_step_refl _⟩
  | some s =>
    cases L with
    | none => exact ⟨pm.processes, rfl, forall2_record_step_refl _⟩
    | some L =>
      cases hf : find_process_entry pm s with
      | none =>
        refine ⟨pm.processes, ?_, forall2_record_step_refl _⟩
        simp [pm_update_limits, hf]
      | some i =>
        generalize hr : pm_update_limits (some pm) (some s) (some L) w = r
        simp only [pm_update_limits, hf] at hr
        split_ifs at hr with h1
        · subst hr; exact ⟨pm.processes, rfl, forall2_record_step_refl _⟩
        · subst hr
          exact ⟨_, rfl, forall2_record_step_set _ _ _ ⟨rfl, rfl, Or.inl rfl⟩⟩

/-- The registry after `pm_start_process`: as before, or one more entry at the head, in
state Running, with a positive pid and an id that no entry had. -/
theorem start_registry_fresh (pm : process_manager) (info : Option process_info_t)
    (w : World) :
    (pm_start_process (some pm) info w).2.1 = some pm ∨
    ∃ e, e.info.state = PROCESS_STATE_RUNNING ∧ 0 < e.info.pid ∧
      (∀ x ∈ pm.processes, x.info.id ≠ e.info.id) ∧
      (pm_start_process (some pm) info w).2.1 =
        some { pm with processes := e :: pm.processes } := by
  cases info with
  | none => left; rfl
  | some info =>
    generalize hr : pm_start_process (some pm) (some info) w = r
    simp only [pm_start_process] at hr
    split_ifs at hr with h1 h2 h3 h4 h5
    all_goals subst hr
    · left; rfl
    · left; rfl
    · left; rfl
    · left; rfl
    · left; rfl
    · right
      refine ⟨_, rfl, ?_, ?_, rfl⟩
      · show 0 < (sys Call.fork _).1.ret
        omega
      · have hn : find_process_entry pm info.id = none := by
          cases hfe : find_process_entry pm info.id with
          | none => rfl
          | some i => rw [hfe] at h1; simp at h1
        exact (find_entry_loop_none _ _).1 hn

/-- The registry after one call. -/
theorem run_call_registry (c : pm_call) (pm : process_manager) (w : World) :
    ∃ pm', (run_call c (some pm, w)).1 = some pm' ∧ pm'.cgroup_mgr = pm.cgroup_mgr ∧
      (List.Forall₂ record_step pm.processes pm'.processes ∨
        ∃ e, pm'.processes = e :: pm.processes ∧ e.info.state = PROCESS_STATE_RUNNING ∧
          0 < e.info.pid ∧ ∀ x ∈ pm.processes, x.info.id ≠ e.info.id) := by
  cases c with
  | start info =>
    rcases start_registry_fresh pm info w with h | ⟨e, h1, h2, h3, h⟩
    · exact ⟨pm, h, rfl, Or.inl (forall2_record_step_refl _)⟩
    · exact ⟨_, h, rfl, Or.inr ⟨e, rfl, h1, h2, h3⟩⟩
  | stop id =>
    obtain ⟨l, h, hl⟩ := stop_registry pm id w
    exact ⟨_, h, rfl, Or.inl hl⟩
  | update_limits id L =>
    obtain ⟨l, h, hl⟩ := update_registry pm id L w
    exact ⟨_, h, rfl, Or.inl hl⟩
  | stop_all => exact ⟨pm, rfl, rfl, Or.inl (forall2_record_step_refl _)⟩
  | check =>
    exact ⟨_, rfl, rfl, Or.inl (forall2_record_step_of_state_step _ _
      (check_loop_state_step pm _ w))⟩

/-- Distinct ids stay distinct through one call. -/
theorem run_call_ids_nodup (c : pm_call) (pm : process_manager) (w : World)
    (h : (pm.processes.map (fun e => e.info.id)).Nodup) :
    ∃ pm', (run_call c (some pm, w)).1 = some pm' ∧
      (pm'.processes.map (fun e => e.info.id)).Nodup := by
  obtain ⟨pm', h1, -, h2⟩ := run_call_registry c pm w
  refine ⟨pm', h1, ?_⟩
  rcases h2 with h2 | ⟨e, he, -, -, hne⟩
  · rw [forall2_record_step_ids _ _ h2]; exact h
  · rw [he, List.map_cons, List.nodup_cons]
    refine ⟨?_, h⟩
    intro hmem
    obtain ⟨x, hx, hxe⟩ := List.mem_map.1 hmem
    exact hne x hx hxe

theorem run_calls_ids_nodup (cs : List pm_call) (pm : process_manager) (w : World)
    (h : (pm.processes.map (fun e => e.info.id)).Nodup) :
    ∃ pm', (run_calls cs (some pm, w)).1 = some pm' ∧
      (pm'.processes.map (fun e => e.info.id)).Nodup := by
  induction cs generalizing pm w with
  | nil => exact ⟨pm, rfl, h⟩
  | cons c cs ih =>
    obtain ⟨pm1, h1, h2⟩ := run_call_ids_nodup c pm w h
    have : run_call c (some pm, w) = (some pm1, (run_call c (some pm, w)).2) := by
      rw [← h1]
    simp only [run_calls]
    rw [this]
    exact ih pm1 _ h2

/-- C13: in every state reached from an empty registry by calls of `pm_start_process`,
`pm_stop_process`, `pm_update_limits`, `pm_stop_all_processes` and `pm_check_processes`,
no two records have the same id: the ids of the registry are pairwise distinct, so for
every id at most one record carries it (in a terminal state or not). -/
theorem registry_ids_unique (cg : Option cgroup_manager) (cb : Option Nat) (user_data : Nat)
    (w : World) (cs : List pm_call) :
    ∃ pm, (run_calls cs (some (fresh_pm cg cb user_data), w)).1 = some pm ∧
      (pm.processes.map (fun e => e.info.id)).Nodup ∧
      ∀ id, (pm.processes.filter (fun e => e.info.id == id)).length ≤ 1 := by
  obtain ⟨pm, h1, h2⟩ := run_calls_ids_nodup cs (fresh_pm cg cb user_data) w
    (by simp [fresh_pm])
  refine ⟨pm, h1, h2, ?_⟩
  intro id
  have hc := List.nodup_iff_count_le_one.1 h2 id
  rw [List.count, List.countP_map, List.countP_eq_length_filter] at hc
  exact hc

/-- The errors `cg_create_group` returns when manager and group name are present. -/
theorem cg_create_group_fst (cg : cgroup_manager) (g : String) (w : World) :
    (cg_create_group (some cg) (some g) w).1 = NW_SUCCESS ∨
    (cg_create_group (some cg) (some g) w).1 = NW_ERROR_ALREADY_EXISTS ∨
    (cg_create_group (some cg) (some g) w).1 = NW_ERROR_CGROUP_FAILED := by
  simp only [cg_create_group]
  split_ifs <;> simp

theorem start_create_cgroup_fst (pm : process_manager) (info : process_info_t) (w : World) :
    (start_create_cgroup pm info w).1 = NW_SUCCESS ∨
    (start_create_cgroup pm info w).1 = NW_ERROR_ALREADY_EXISTS ∨
    (start_create_cgroup pm info w).1 = NW_ERROR_CGROUP_FAILED := by
  simp only [start_create_cgroup]
  split
  · rename_i cg _
    split_ifs with h
    · rcases cg_create_group_fst cg info.id w with h1 | h1 | h1
      · exact absurd h1 h
      · exact Or.inr (Or.inl h1)
      · exact Or.inr (Or.inr h1)
    · exact Or.inl rfl
  · exact Or.inl rfl

/-- C14, as stated, fails: a request with an empty id and an empty command, and a request
whose id contains `/`, are not rejected: with every call succeeding, the start returns
`NW_SUCCESS`, has made the group directory, has forked once and has added a record. -/
theorem start_accepts_malformed_request :
    shapeless_info.id = "" ∧ shapeless_info.command = "" ∧
    (pm_start_process (some (confined_pm [])) (some shapeless_info) calm_world).1 =
      .returned NW_SUCCESS ∧
    ((pm_start_process (some (confined_pm [])) (some shapeless_info) calm_world).2.1.map
      (fun m => m.processes.length)) = some 1 ∧
    dir_exists (pm_start_process (some (confined_pm [])) (some shapeless_info)
      calm_world).2.2.trace "/sys/fs/cgroup/nexus_weaver/" = true ∧
    forks_of (pm_start_process (some (confined_pm [])) (some shapeless_info)
      calm_world).2.2.trace = 1 ∧
    slash_info.id = "x/y" ∧
    (pm_start_process (some (confined_pm [])) (some slash_info) calm_world).1 =
      .returned NW_SUCCESS ∧
    ((pm_start_process (some (confined_pm [])) (some slash_info) calm_world).2.1.map
      (fun m => m.processes.map (fun e => (e.info.id, e.info.state)))) =
      some [("x/y", PROCESS_STATE_RUNNING)] ∧
    dir_exists (pm_start_process (some (confined_pm [])) (some slash_info)
      calm_world).2.2.trace "/sys/fs/cgroup/nexus_weaver/x/y" = true ∧
    forks_of (pm_start_process (some (confined_pm [])) (some slash_info)
      calm_world).2.2.trace = 1 := by
  refine ⟨by decide, by decide, by decide, by decide, by decide, by decide, by decide,
    by decide, by decide, by decide, by decide⟩

/-- C14, amended: `pm_start_process` does not inspect the shape of the id or of the
command; it returns `NW_ERROR_INVALID_PARAM` exactly when the manager or the request is
`NULL`, and then before any side effect: the world and the manager are as before. -/
theorem start_rejects_only_null (pm : Option process_manager)
    (info : Option process_info_t) (w : World) :
    ((pm_start_process pm info w).1 = .returned NW_ERROR_INVALID_PARAM ↔
      (pm = none ∨ info = none)) ∧
    ((pm = none ∨ info = none) → (pm_start_process pm info w).2 = (pm, w)) := by
  cases pm with
  | none => simp [pm_start_process]
  | some pm =>
    cases info with
    | none => simp [pm_start_process]
    | some info =>
      simp only [reduceCtorEq, or_self, iff_false, false_implies, and_true]
      generalize hr : pm_start_process (some pm) (some info) w = r
      simp only [pm_start_process] at hr
      split_ifs at hr with h1 h2 h3 h4 h5
      all_goals subst hr
      · simp
      · simp
      · rcases start_create_cgroup_fst pm info (sys Call.calloc w).2 with h | h | h
        · exact absurd h h3
        · simp [h]
        · simp [h]
      · simp
      · simp only [start_child]
        split_ifs <;> simp
      · simp

theorem start_rejects_only_null_witness :
    (pm_start_process none (some shapeless_info) calm_world).2 = (none, calm_world) ∧
    (pm_start_process (some running_pm) none calm_world).2 = (some running_pm, calm_world) ∧
    ((pm_start_process (some running_pm) (some shapeless_info) calm_world).1 =
        .returned NW_ERROR_INVALID_PARAM ↔
      ((some running_pm : Option process_manager) = none ∨
        (some shapeless_info : Option process_info_t) = none)) :=
  ⟨(start_rejects_only_null none (some shapeless_info) calm_world).2 (Or.inl rfl),
    (start_rejects_only_null (some running_pm) none calm_world).2 (Or.inr rfl),
    (start_rejects_only_null (some running_pm) (some shapeless_info) calm_world).1⟩

/-! ## Lemmas on worlds -/

theorem extends_by_refl (P : Call → Bool) (w : World) : extends_by P w w :=
  ⟨rfl, [], by simp, by simp⟩

theorem extends_by_trans (P : Call → Bool) (w1 w2 w3 : World)
    (h1 : extends_by P w1 w2) (h2 : extends_by P w2 w3) : extends_by P w1 w3 := by
  obtain ⟨e1, evs1, t1, p1⟩ := h1
  obtain ⟨e2, evs2, t2, p2⟩ := h2
  refine ⟨e2.trans e1, evs1 ++ evs2, by rw [t2, t1, List.append_assoc], ?_⟩
  intro e he
  rcases List.mem_append.1 he with h | h
  · exact p1 e h
  · exact p2 e h

theorem extends_by_mono (P Q : Call → Bool) (w w' : World) (hPQ : ∀ c, P c = true → Q c = true)
    (h : extends_by P w w') : extends_by Q w w' := by
  obtain ⟨e1, evs, t1, p1⟩ := h
  exact ⟨e1, evs, t1, fun e he => hPQ _ (p1 e he)⟩

theorem extends_by_sys (P : Call → Bool) (c : Call) (w : World) (h : P c = true) :
    extends_by P w (sys c w).2 :=
  ⟨rfl, [(c, w.env c w.trace)], rfl, by simpa using h⟩

theorem extends_by_sys3 (P : Call → Bool) (c1 c2 c3 : Resp → Call) (w : World)
    (h1 : ∀ r, P (c1 r) = true) (h2 : ∀ r, P (c2 r) = true) (h3 : ∀ r, P (c3 r) = true)
    (r1 r2 r3 : Resp) :
    extends_by P w (sys (c3 r3) (sys (c2 r2) (sys (c1 r1) w).2).2).2 :=
  extends_by_trans _ _ _ _ (extends_by_trans _ _ _ _ (extends_by_sys _ _ _ (h1 _))
    (extends_by_sys _ _ _ (h2 _))) (extends_by_sys _ _ _ (h3 _))

theorem write_file_extends (path value : String) (w : World) :
    extends_by file_call w (write_file path value w).2 := by
  simp only [write_file]
  split_ifs
  · exact extends_by_sys _ _ _ (by rfl)
  · exact extends_by_sys3 file_call (fun _ => .open_file path O_WRONLY)
      (fun r => .write r.ret value) (fun r => .close r.ret) w (fun _ => rfl) (fun _ => rfl)
      (fun _ => rfl) no_call (sys (.open_file path O_WRONLY) w).1
      (sys (.open_file path O_WRONLY) w).1
  · exact extends_by_sys3 file_call (fun _ => .open_file path O_WRONLY)
      (fun r => .write r.ret value) (fun r => .close r.ret) w (fun _ => rfl) (fun _ => rfl)
      (fun _ => rfl) no_call (sys (.open_file path O_WRONLY) w).1
      (sys (.open_file path O_WRONLY) w).1

theorem read_file_extends (path : String) (size : Nat) (w : World) :
    extends_by file_call w (read_file path size w).2.2 := by
  simp only [read_file]
  split_ifs
  · exact extends_by_sys _ _ _ (by rfl)
  all_goals
    exact extends_by_sys3 file_call (fun _ => .open_file path O_RDONLY)
      (fun r => .read r.ret (size - 1)) (fun r => .close r.ret) w (fun _ => rfl)
      (fun _ => rfl) (fun _ => rfl) no_call (sys (.open_file path O_RDONLY) w).1
      (sys (.open_file path O_RDONLY) w).1

theorem write_files_extends (l : List (String × String)) (w : World) :
    extends_by file_call w (write_files l w) := by
  induction l generalizing w with
  | nil => exact extends_by_refl _ _
  | cons pv rest ih =>
    exact extends_by_trans _ _ _ _ (write_file_extends _ _ _) (ih _)

theorem enable_controllers_loop_extends (path : String) (fuel : Nat) (buffer : List Char)
    (w : World) : extends_by file_call w (enable_controllers_loop path fuel buffer w) := by
  induction fuel generalizing buffer w with
  | zero => exact extends_by_refl _ _
  | succ n ih =>
    simp only [enable_controllers_loop]
    split
    · exact extends_by_refl _ _
    · exact extends_by_trans _ _ _ _ (write_file_extends _ _ _) (ih _ _)

theorem enable_controllers_extends (path : String) (w : World) :
    extends_by file_call w (enable_controllers path w).2 := by
  simp only [enable_controllers]
  split_ifs
  · exact read_file_extends _ _ _
  · exact extends_by_trans _ _ _ _ (read_file_extends _ _ _)
      (enable_controllers_loop_extends _ _ _ _)

/-- What `cg_apply_limits` does when manager, group name and limits are present: it
returns `NW_SUCCESS` after the `write_file` calls of `issued_limit_writes`. -/
theorem cg_apply_limits_eq (cg : cgroup_manager) (g : String) (L : resource_limits_t)
    (w : World) :
    cg_apply_limits (some cg) (some g) (some L) w =
      (NW_SUCCESS, write_files (issued_limit_writes cg g L) w) := by
  simp only [cg_apply_limits, issued_limit_writes, group_path]
  by_cases h1 : L.memory_bytes > 0 <;> by_cases h2 : L.cpu_quota_us > 0 ∧ L.cpu_period_us > 0 <;>
    by_cases h3 : L.pids_limit > 0 <;> simp [h1, h2, h3, write_files]

theorem cg_apply_limits_extends (cg : cgroup_manager) (g : String) (L : resource_limits_t)
    (w : World) : extends_by file_call w (cg_apply_limits (some cg) (some g) (some L) w).2 := by
  rw [cg_apply_limits_eq]
  exact write_files_extends _ _

theorem cg_add_process_extends (cg : cgroup_manager) (g : String) (pid : Int) (w : World) :
    extends_by file_call w (cg_add_process (some cg) (some g) pid w).2 := by
  simp only [cg_add_process]
  split_ifs
  · exact extends_by_refl _ _
  · exact write_file_extends _ _ _
  · exact write_file_extends _ _ _

theorem file_call_gentle (c : Call) (h : file_call c = true) : gentle_call c = true := by
  cases c <;> first | rfl | exact Bool.noConfusion h

theorem file_call_dir_neutral (c : Call) (h : file_call c = true) :
    dir_neutral_call c = true := by
  cases c <;> first | rfl | exact Bool.noConfusion h

theorem removals_of_append (a b : List Event) :
    removals_of (a ++ b) = removals_of a ++ removals_of b := by
  simp [removals_of, List.filterMap_append]

theorem opened_paths_append (a b : List Event) :
    opened_paths (a ++ b) = opened_paths a ++ opened_paths b := by
  simp [opened_paths, List.filterMap_append]

theorem forks_of_append (a b : List Event) : forks_of (a ++ b) = forks_of a + forks_of b := by
  simp [forks_of, List.countP_append]

theorem gentle_signals (evs : List Event) (h : ∀ e ∈ evs, gentle_call e.1 = true) :
    signals_of evs = [] := by
  induction evs with
  | nil => rfl
  | cons e t ih =>
    have he := h e (List.mem_cons_self _ _)
    have ht := ih (fun x hx => h x (List.mem_cons_of_mem _ hx))
    obtain ⟨c, r⟩ := e
    have hc : signals_of ((c, r) :: t) = signals_of t := by
      cases c <;> first | rfl | exact Bool.noConfusion he
    rw [hc, ht]

theorem gentle_removals (evs : List Event) (h : ∀ e ∈ evs, gentle_call e.1 = true) :
    removals_of evs = [] := by
  induction evs with
  | nil => rfl
  | cons e t ih =>
    have he := h e (List.mem_cons_self _ _)
    have ht := ih (fun x hx => h x (List.mem_cons_of_mem _ hx))
    obtain ⟨c, r⟩ := e
    have hc : removals_of ((c, r) :: t) = removals_of t := by
      cases c <;> first | rfl | exact Bool.noConfusion he
    rw [hc, ht]

/-- Gentle calls send no signal and remove no directory. -/
theorem extends_by_gentle (w w' : World) (h : extends_by gentle_call w w') :
    signals_of w'.trace = signals_of w.trace ∧ removals_of w'.trace = removals_of w.trace := by
  obtain ⟨-, evs, ht, hp⟩ := h
  rw [ht, signals_of_append, removals_of_append, gentle_signals evs hp, gentle_removals evs hp]
  simp

theorem dir_exists_append (tr evs : List Event) (p : String) :
    dir_exists (tr ++ evs) p = evs.foldl (dir_step p) (dir_exists tr p) := by
  simp [dir_exists, List.foldl_append]

theorem dir_neutral_foldl (evs : List Event) (p : String) (b : Bool)
    (h : ∀ e ∈ evs, dir_neutral_call e.1 = true) : evs.foldl (dir_step p) b = b := by
  induction evs generalizing b with
  | nil => rfl
  | cons e t ih =>
    have he := h e (List.mem_cons_self _ _)
    rw [List.foldl_cons]
    have hc : dir_step p b e = b := by
      obtain ⟨c, r⟩ := e
      cases c <;> first | rfl | exact Bool.noConfusion he
    rw [hc]
    exact ih b (fun x hx => h x (List.mem_cons_of_mem _ hx))

/-- Calls that are neutral for directories leave every directory as it is. -/
theorem extends_by_dir_neutral (w w' : World) (h : extends_by dir_neutral_call w w')
    (p : String) : dir_exists w'.trace p = dir_exists w.trace p := by
  obtain ⟨-, evs, ht, hp⟩ := h
  rw [ht, dir_exists_append, dir_neutral_foldl evs p _ hp]

/-! ## Lemmas on formatting -/

theorem snprintf_of_fits (size : Nat) (s : String) (h : s.length < size) :
    snprintf size s = s := by
  have hl : s.data.length ≤ size - 1 := by
    have : s.data.length = s.length := rfl
    omega
  simp only [snprintf, List.take_of_length_le hl]

theorem toDigitsCore_length (fuel n : Nat) (ds : List Char) (k : Nat)
    (h : n < 10 ^ (k + 1)) : (Nat.toDigitsCore 10 fuel n ds).length ≤ ds.length + k + 1 := by
  induction fuel generalizing n ds k with
  | zero => simp only [Nat.toDigitsCore]; omega
  | succ f ih =>
    simp only [Nat.toDigitsCore]
    split_ifs with h0
    · simp
    · cases k with
      | zero =>
        exfalso
        apply h0
        simp at h
        omega
      | succ j =>
        have hn : n / 10 < 10 ^ (j + 1) := by
          rw [Nat.div_lt_iff_lt_mul (by decide)]
          rw [pow_succ] at h
          exact h
        have := ih (n / 10) (Nat.digitChar (n % 10) :: ds) j hn
        simp at this ⊢
        omega

/-- The decimal rendering of a number below `10 ^ (k + 1)` has at most `k + 1` digits. -/
theorem toString_nat_length (n k : Nat) (h : n < 10 ^ (k + 1)) :
    (toString n).length ≤ k + 1 := by
  have := toDigitsCore_length (n + 1) n [] k h
  have hl : (toString n).length = (Nat.toDigitsCore 10 (n + 1) n []).length := rfl
  rw [hl]
  simpa using this

theorem write_file_opened (path value : String) (w : World) :
    opened_paths (write_file path value w).2.trace = opened_paths w.trace ++ [path] := by
  simp only [write_file]
  split_ifs <;> simp [sys_trace, opened_paths_append, opened_paths]

theorem write_files_opened (l : List (String × String)) (w : World) :
    opened_paths (write_files l w).trace = opened_paths w.trace ++ l.map Prod.fst := by
  induction l generalizing w with
  | nil => simp [write_files]
  | cons pv rest ih => simp [write_files, ih, write_file_opened]

/-- When the paths fit their buffers and the fields are in the range of their C types,
the code formats the limit writes as the specification describes them. -/
theorem issued_limit_writes_eq (cg : cgroup_manager) (g : String) (L : resource_limits_t)
    (hpath : cg.nexus_path.length + g.length + 12 < PATH_MAX)
    (hmem : L.memory_bytes < 2 ^ 64) (hq : L.cpu_quota_us < 2 ^ 32)
    (hp : L.cpu_period_us < 2 ^ 32) (hpids : L.pids_limit < 2 ^ 32) :
    issued_limit_writes cg g L = limit_writes cg g L := by
  simp only [PATH_MAX] at hpath
  have hg : group_path cg g = cg.nexus_path ++ "/" ++ g := by
    apply snprintf_of_fits
    simp only [String.length_append, PATH_MAX]
    have : ("/" : String).length = 1 := rfl
    omega
  have hfile : ∀ name : String, name.length ≤ 11 →
      snprintf PATH_MAX (cg.nexus_path ++ "/" ++ g ++ name) =
        cg.nexus_path ++ "/" ++ g ++ name := by
    intro name hn
    apply snprintf_of_fits
    simp only [String.length_append, PATH_MAX]
    have : ("/" : String).length = 1 := rfl
    omega
  have hm := toString_nat_length L.memory_bytes 19 (by omega)
  have hq' := toString_nat_length L.cpu_quota_us 9 (by omega)
  have hp' := toString_nat_length L.cpu_period_us 9 (by omega)
  have hpd := toString_nat_length L.pids_limit 9 (by omega)
  have vm : snprintf 64 (toString L.memory_bytes) = toString L.memory_bytes :=
    snprintf_of_fits _ _ (by omega)
  have vd : snprintf 64 (toString L.pids_limit) = toString L.pids_limit :=
    snprintf_of_fits _ _ (by omega)
  have vc : snprintf 64 (toString L.cpu_quota_us ++ " " ++ toString L.cpu_period_us) =
      toString L.cpu_quota_us ++ " " ++ toString L.cpu_period_us := by
    apply snprintf_of_fits
    simp only [String.length_append]
    have : (" " : String).length = 1 := rfl
    omega
  simp only [issued_limit_writes, limit_writes, hg, vm, vd, vc,
    hfile "/memory.max" (by decide), hfile "/cpu.max" (by decide),
    hfile "/pids.max" (by decide)]

/-- C16: when the paths of the group fit `PATH_MAX` and the limit fields are in the range
of their C types, `cg_apply_limits` returns after calling `write_file` on exactly these
files of the group, in this order, and on no other file: `memory.max` with the decimal
`memory_bytes` iff `memory_bytes > 0`, `cpu.max` with `<cpu_quota_us> <cpu_period_us>` iff
both are positive, `pids.max` with the decimal `pids_limit` iff `pids_limit > 0`; the
files it opens are these and no others, and `cpu_shares` has no influence. -/
theorem apply_limits_writes (cg : cgroup_manager) (g : String) (L : resource_limits_t)
    (w : World) (hpath : cg.nexus_path.length + g.length + 12 < PATH_MAX)
    (hmem : L.memory_bytes < 2 ^ 64) (hq : L.cpu_quota_us < 2 ^ 32)
    (hp : L.cpu_period_us < 2 ^ 32) (hpids : L.pids_limit < 2 ^ 32) :
    cg_apply_limits (some cg) (some g) (some L) w =
      (NW_SUCCESS, write_files (limit_writes cg g L) w) ∧
    limit_writes cg g L =
      (if L.memory_bytes > 0 then
        [(cg.nexus_path ++ "/" ++ g ++ "/memory.max", toString L.memory_bytes)] else []) ++
      (if L.cpu_quota_us > 0 ∧ L.cpu_period_us > 0 then
        [(cg.nexus_path ++ "/" ++ g ++ "/cpu.max",
          toString L.cpu_quota_us ++ " " ++ toString L.cpu_period_us)] else []) ++
      (if L.pids_limit > 0 then
        [(cg.nexus_path ++ "/" ++ g ++ "/pids.max", toString L.pids_limit)] else []) ∧
    opened_paths (cg_apply_limits (some cg) (some g) (some L) w).2.trace =
      opened_paths w.trace ++ (limit_writes cg g L).map Prod.fst ∧
    ∀ shares, cg_apply_limits (some cg) (some g) (some { L with cpu_shares := shares }) w =
      cg_apply_limits (some cg) (some g) (some L) w := by
  have he := issued_limit_writes_eq cg g L hpath hmem hq hp hpids
  refine ⟨by rw [cg_apply_limits_eq, he], rfl, ?_, ?_⟩
  · rw [cg_apply_limits_eq, he]
    exact write_files_opened _ _
  · intro shares
    rw [cg_apply_limits_eq, cg_apply_limits_eq]
    rfl

theorem apply_limits_writes_witness :
    cg_apply_limits (some sample_cg) (some "e") (some doubled_limits) calm_world =
      (NW_SUCCESS, write_files
        [("/sys/fs/cgroup/nexus_weaver/e/memory.max", "134217728")] calm_world) ∧
    opened_paths (cg_apply_limits (some sample_cg) (some "e") (some doubled_limits)
      calm_world).2.trace = ["/sys/fs/cgroup/nexus_weaver/e/memory.max"] := by
  obtain ⟨h1, -, h3, -⟩ := apply_limits_writes sample_cg "e" doubled_limits calm_world
    (by decide) (by decide) (by decide) (by decide) (by decide)
  have hl : limit_writes sample_cg "e" doubled_limits =
      [("/sys/fs/cgroup/nexus_weaver/e/memory.max", "134217728")] := by decide
  rw [hl] at h1 h3
  exact ⟨h1, h3⟩

/-- The start goes on after the cgroup block when `cg_create_group` succeeds (or no
cgroup manager is set). -/
theorem start_create_cgroup_ok (pm : process_manager) (info : process_info_t) (w : World)
    (h : ∀ cg, pm.cgroup_mgr = some cg →
      (cg_create_group (some cg) (some info.id) w).1 = NW_SUCCESS) :
    (start_create_cgroup pm info w).1 = NW_SUCCESS := by
  simp only [start_create_cgroup]
  split
  · rename_i cg hcg
    simp [h cg hcg]
  · rfl

/-- The function `pm_start_process` when it reaches the parent branch. -/
theorem start_eq_parent (pm : process_manager) (info : process_info_t) (w : World)
    (hnew : find_process_entry pm info.id = none) (hmem : (sys .calloc w).1.ret ≠ 0)
    (hgrp : (start_create_cgroup pm info (sys .calloc w).2).1 = NW_SUCCESS)
    (hfork : 0 < (sys .fork (fork_world pm info w)).1.ret) :
    pm_start_process (some pm) (some info) w =
      (.returned NW_SUCCESS,
        some (start_parent pm info (sys .fork (fork_world pm info w)).1.ret
          (sys .fork (fork_world pm info w)).2).1,
        (start_parent pm info (sys .fork (fork_world pm info w)).1.ret
          (sys .fork (fork_world pm info w)).2).2) := by
  simp only [fork_world] at hfork ⊢
  simp only [pm_start_process, hnew, Option.isSome_none, Bool.false_eq_true, if_false, hmem,
    hgrp, ne_eq, not_true_eq_false]
  rw [if_neg (by omega), if_neg (by omega)]

/-- C17: `cg_apply_limits` returns `NW_SUCCESS` whatever the outcome of its file writes;
it calls `write_file` for every limit that is set, one after the other, whatever the
earlier ones returned (each file is opened); and `pm_start_process` returns `NW_SUCCESS`
whenever group creation and `fork` succeed, with no condition on the limit writes. -/
theorem apply_is_best_effort (cg : cgroup_manager) (g : String) (L : resource_limits_t)
    (pm : process_manager) (info : process_info_t) (w : World) :
    (cg_apply_limits (some cg) (some g) (some L) w).1 = NW_SUCCESS ∧
    (cg_apply_limits (some cg) (some g) (some L) w).2 =
      write_files (issued_limit_writes cg g L) w ∧
    opened_paths (cg_apply_limits (some cg) (some g) (some L) w).2.trace =
      opened_paths w.trace ++ (issued_limit_writes cg g L).map Prod.fst ∧
    (find_process_entry pm info.id = none → (sys .calloc w).1.ret ≠ 0 →
      (∀ c, pm.cgroup_mgr = some c →
        (cg_create_group (some c) (some info.id) (sys .calloc w).2).1 = NW_SUCCESS) →
      0 < (sys .fork (fork_world pm info w)).1.ret →
      (pm_start_process (some pm) (some info) w).1 = .returned NW_SUCCESS) := by
  refine ⟨by rw [cg_apply_limits_eq], by rw [cg_apply_limits_eq], ?_, ?_⟩
  · rw [cg_apply_limits_eq]
    exact write_files_opened _ _
  · intro hnew hmem hgrp hfork
    rw [start_eq_parent pm info w hnew hmem (start_create_cgroup_ok pm info _ hgrp) hfork]

theorem apply_is_best_effort_witness :
    (pm_start_process (some (confined_pm [])) (some limited_info) ⟨no_open_env, []⟩).1 =
      .returned NW_SUCCESS ∧
    opened_paths (cg_apply_limits (some sample_cg) (some "a") (some full_limits)
        ⟨no_open_env, []⟩).2.trace =
      ["/sys/fs/cgroup/nexus_weaver/a/memory.max", "/sys/fs/cgroup/nexus_weaver/a/cpu.max",
       "/sys/fs/cgroup/nexus_weaver/a/pids.max"] := by
  obtain ⟨-, -, h3, h4⟩ := apply_is_best_effort sample_cg "a" full_limits (confined_pm [])
    limited_info ⟨no_open_env, []⟩
  refine ⟨h4 (by decide) (by decide) ?_ (by decide), ?_⟩
  · intro c hc
    have : c = sample_cg := by
      simp only [confined_pm, bare_pm, Option.some.injEq] at hc
      exact hc.symm
    subst this
    decide
  · rw [h3]
    decide

/-- C18, as stated, fails: `pm_update_limits` on the Terminated record `a` (a cgroup
manager is set) returns `NW_SUCCESS`, opens the limit file `memory.max` of the group for
writing, and replaces the stored limits. -/
theorem update_on_terminated_record :
    (entry_at (confined_pm [sample_entry PROCESS_STATE_TERMINATED]) 0).info.state =
      PROCESS_STATE_TERMINATED ∧
    (entry_at (confined_pm [sample_entry PROCESS_STATE_TERMINATED]) 0).info.limits =
      sample_limits ∧
    (pm_update_limits (some (confined_pm [sample_entry PROCESS_STATE_TERMINATED])) (some "a")
      (some doubled_limits) calm_world).1 = NW_SUCCESS ∧
    ((pm_update_limits (some (confined_pm [sample_entry PROCESS_STATE_TERMINATED]))
      (some "a") (some doubled_limits) calm_world).2.1.map
        (fun m => (entry_at m 0).info.limits)) = some doubled_limits ∧
    doubled_limits ≠ sample_limits ∧
    opened_paths (pm_update_limits (some (confined_pm [sample_entry PROCESS_STATE_TERMINATED]))
      (some "a") (some doubled_limits) calm_world).2.2.trace =
      ["/sys/fs/cgroup/nexus_weaver/a/memory.max"] := by
  refine ⟨by decide, by decide, by decide, by decide, by decide, by decide⟩

/-- C18, amended: `pm_update_limits` does not look at the state of the record: for every
record it finds, also one in Stopped, Failed or Terminated, it calls `cg_apply_limits`
when a cgroup manager is set (the `write_file` calls of the new limits), returns
`NW_SUCCESS` and stores the new limits in the record. -/
theorem update_limits_ignores_state (pm : process_manager) (id : String)
    (L : resource_limits_t) (w : World) (i : Nat)
    (hf : find_process_entry pm id = some i) :
    pm_update_limits (some pm) (some id) (some L) w =
      (NW_SUCCESS,
        some (store_entry pm i
          { entry_at pm i with info := { (entry_at pm i).info with limits := L } }),
        match pm.cgroup_mgr with
        | some cg => write_files (issued_limit_writes cg id L) w
        | none => w) := by
  simp only [pm_update_limits, hf]
  cases hcg : pm.cgroup_mgr with
  | none => simp
  | some cg => simp [cg_apply_limits_eq]

theorem update_limits_ignores_state_witness :
    pm_update_limits (some (confined_pm [sample_entry PROCESS_STATE_TERMINATED])) (some "a")
        (some doubled_limits) calm_world =
      (NW_SUCCESS,
        some (store_entry (confined_pm [sample_entry PROCESS_STATE_TERMINATED]) 0
          { entry_at (confined_pm [sample_entry PROCESS_STATE_TERMINATED]) 0 with
            info := { (entry_at (confined_pm [sample_entry PROCESS_STATE_TERMINATED]) 0).info
              with limits := doubled_limits } }),
        match (confined_pm [sample_entry PROCESS_STATE_TERMINATED]).cgroup_mgr with
        | some cg => write_files (issued_limit_writes cg "a" doubled_limits) calm_world
        | none => calm_world) :=
  update_limits_ignores_state (confined_pm [sample_entry PROCESS_STATE_TERMINATED]) "a"
    doubled_limits calm_world 0 (by decide)

/-! ## Lemmas on `cg_create_group`, `cg_remove_group` and the blocks of the start -/

/-- The function `cg_create_group` makes the directory first; it succeeds iff that
`mkdir` does, and all it does afterwards is read and write files. -/
theorem cg_create_group_shape (cg : cgroup_manager) (g : String) (w : World) :
    ((cg_create_group (some cg) (some g) w).1 = NW_SUCCESS ↔
      0 ≤ (sys (.mkdir (group_path cg g) 0o755) w).1.ret) ∧
    ((cg_create_group (some cg) (some g) w).1 ≠ NW_SUCCESS →
      (cg_create_group (some cg) (some g) w).2 = (sys (.mkdir (group_path cg g) 0o755) w).2 ∧
      ((sys (.mkdir (group_path cg g) 0o755) w).1.err = EEXIST →
        (cg_create_group (some cg) (some g) w).1 = NW_ERROR_ALREADY_EXISTS)) ∧
    extends_by file_call (sys (.mkdir (group_path cg g) 0o755) w).2
      (cg_create_group (some cg) (some g) w).2 := by
  simp only [cg_create_group, group_path]
  split_ifs with h1 h2
  · exact ⟨by simp; omega, by simp [h2], extends_by_refl _ _⟩
  · exact ⟨by simp; omega, by simp [h2], extends_by_refl _ _⟩
  · exact ⟨by simp; omega, by simp, enable_controllers_extends _ _⟩

/-- The function `cg_remove_group` touches no directory but that of the group, and when
it returns `NW_SUCCESS` that directory is gone. -/
theorem cg_remove_group_shape (cg : cgroup_manager) (g : String) (w : World) :
    (cg_remove_group (some cg) (some g) w).2.env = w.env ∧
    (∀ p, p ≠ group_path cg g →
      dir_exists (cg_remove_group (some cg) (some g) w).2.trace p = dir_exists w.trace p) ∧
    ((cg_remove_group (some cg) (some g) w).1 = NW_SUCCESS →
      dir_exists (cg_remove_group (some cg) (some g) w).2.trace (group_path cg g) = false) ∧
    signals_of (cg_remove_group (some cg) (some g) w).2.trace = signals_of w.trace := by
  simp only [cg_remove_group, path_exists, group_path]
  split_ifs with h1 h2
  · refine ⟨rfl, fun p _ => ?_, by simp, ?_⟩
    · simp [sys_trace, dir_exists_append, dir_step]
    · simp [sys_trace, signals_of_append, signals_of]
  · refine ⟨rfl, fun p hp => ?_, by simp, ?_⟩
    · simp [sys_trace, dir_exists_append, dir_step, Ne.symm hp]
    · simp [sys_trace, signals_of_append, signals_of]
  · refine ⟨rfl, fun p hp => ?_, fun _ => ?_, ?_⟩
    · simp [sys_trace, dir_exists_append, dir_step, Ne.symm hp]
    · have : 0 ≤ (sys (Call.rmdir (snprintf PATH_MAX (cg.nexus_path ++ "/" ++ g)))
          (sys (Call.stat (snprintf PATH_MAX (cg.nexus_path ++ "/" ++ g))) w).2).1.ret := by
        omega
      simp only [sys_trace, dir_exists_append, List.foldl_cons, List.foldl_nil, dir_step]
      simp only [true_and, this, if_true]
    · simp [sys_trace, signals_of_append, signals_of]

theorem cg_create_group_gentle (cg : cgroup_manager) (g : String) (w : World) :
    extends_by gentle_call w (cg_create_group (some cg) (some g) w).2 :=
  extends_by_trans _ _ _ _ (extends_by_sys _ _ _ (by rfl))
    (extends_by_mono _ _ _ _ file_call_gentle (cg_create_group_shape cg g w).2.2)

theorem start_create_cgroup_gentle (pm : process_manager) (info : process_info_t)
    (w : World) : extends_by gentle_call w (start_create_cgroup pm info w).2 := by
  simp only [start_create_cgroup]
  split
  · split_ifs
    · exact cg_create_group_gentle _ _ _
    · exact extends_by_trans _ _ _ _ (cg_create_group_gentle _ _ _)
        (extends_by_mono _ _ _ _ file_call_gentle (cg_apply_limits_extends _ _ _ _))
  · exact extends_by_refl _ _

theorem start_parent_gentle (pm : process_manager) (info : process_info_t) (pid : Int)
    (w : World) : extends_by gentle_call w (start_parent pm info pid w).2 := by
  simp only [start_parent]
  split
  · exact extends_by_trans _ _ _ _ (extends_by_sys _ _ _ (by rfl))
      (extends_by_mono _ _ _ _ file_call_gentle (cg_add_process_extends _ _ _ _))
  · exact extends_by_sys _ _ _ (by rfl)

/-- C15, as stated, fails: `cgroup.procs` of the group cannot be opened, so
`cg_add_process` fails after the fork; the start still returns `NW_SUCCESS`, the record
is added in state Running, no signal is sent and no directory is removed. -/
theorem start_survives_attach_failure :
    (cg_add_process (some sample_cg) (some "a") 4242
      (sys .time (sys .fork (fork_world (confined_pm []) sample_info
        ⟨no_attach_env, []⟩)).2).2).1 = NW_ERROR_CGROUP_FAILED ∧
    (pm_start_process (some (confined_pm [])) (some sample_info) ⟨no_attach_env, []⟩).1 =
      .returned NW_SUCCESS ∧
    (pm_start_process (some (confined_pm [])) (some sample_info) ⟨no_attach_env, []⟩).2.1 =
      some (confined_pm [sample_entry PROCESS_STATE_RUNNING]) ∧
    signals_of (pm_start_process (some (confined_pm [])) (some sample_info)
      ⟨no_attach_env, []⟩).2.2.trace = [] ∧
    removals_of (pm_start_process (some (confined_pm [])) (some sample_info)
      ⟨no_attach_env, []⟩).2.2.trace = [] := by
  refine ⟨by decide, by decide, by decide, by decide, by decide⟩

/-- C15, amended: when `cg_add_process` fails inside `pm_start_process` (after a
successful fork), the failure is not acted upon: the start returns `NW_SUCCESS`, the
record is added at the head of the registry in state Running with the pid of the child,
and during the whole call no signal is sent and no directory is removed. -/
theorem attach_failure_is_demoted (pm : process_manager) (info : process_info_t) (w : World)
    (cg : cgroup_manager) (hcg : pm.cgroup_mgr = some cg)
    (hnew : find_process_entry pm info.id = none) (hmem : (sys .calloc w).1.ret ≠ 0)
    (hgrp : (cg_create_group (some cg) (some info.id) (sys .calloc w).2).1 = NW_SUCCESS)
    (hfork : 0 < (sys .fork (fork_world pm info w)).1.ret)
    (_hatt : (cg_add_process (some cg) (some info.id) (sys .fork (fork_world pm info w)).1.ret
      (sys .time (sys .fork (fork_world pm info w)).2).2).1 ≠ NW_SUCCESS) :
    (pm_start_process (some pm) (some info) w).1 = .returned NW_SUCCESS ∧
    (pm_start_process (some pm) (some info) w).2.1 =
      some { pm with processes :=
        { info := { info with
            pid := (sys .fork (fork_world pm info w)).1.ret,
            start_time := (sys .time (sys .fork (fork_world pm info w)).2).1.ret,
            state := PROCESS_STATE_RUNNING },
          stats := ⟨0, 0, 0, 0, 0⟩ } :: pm.processes } ∧
    signals_of (pm_start_process (some pm) (some info) w).2.2.trace = signals_of w.trace ∧
    removals_of (pm_start_process (some pm) (some info) w).2.2.trace =
      removals_of w.trace := by
  have hg : (start_create_cgroup pm info (sys .calloc w).2).1 = NW_SUCCESS :=
    start_create_cgroup_ok pm info _ (fun c hc => by
      rw [hcg] at hc
      cases hc
      exact hgrp)
  rw [start_eq_parent pm info w hnew hmem hg hfork]
  have hext : extends_by gentle_call w
      (start_parent pm info (sys .fork (fork_world pm info w)).1.ret
        (sys .fork (fork_world pm info w)).2).2 :=
    extends_by_trans _ _ _ _ (extends_by_trans _ _ _ _ (extends_by_trans _ _ _ _
      (extends_by_sys _ _ _ (by rfl)) (start_create_cgroup_gentle pm info _))
      (extends_by_sys _ _ _ (by rfl))) (start_parent_gentle _ _ _ _)
  exact ⟨rfl, rfl, (extends_by_gentle _ _ hext).1, (extends_by_gentle _ _ hext).2⟩

theorem attach_failure_is_demoted_witness :
    (pm_start_process (some (confined_pm [])) (some sample_info) ⟨no_attach_env, []⟩).1 =
      .returned NW_SUCCESS ∧
    signals_of (pm_start_process (some (confined_pm [])) (some sample_info)
      ⟨no_attach_env, []⟩).2.2.trace = signals_of [] ∧
    removals_of (pm_start_process (some (confined_pm [])) (some sample_info)
      ⟨no_attach_env, []⟩).2.2.trace = removals_of [] := by
  obtain ⟨h1, -, h3, h4⟩ := attach_failure_is_demoted (confined_pm []) sample_info
    ⟨no_attach_env, []⟩ sample_cg rfl (by decide) (by decide) (by decide) (by decide)
    (by decide)
  exact ⟨h1, h3, h4⟩

/-- A start that does not return `NW_SUCCESS` leaves the registry as it was. -/
theorem start_failure_registry (pm : process_manager) (info : process_info_t) (w : World)
    (h : (pm_start_process (some pm) (some info) w).1 ≠ .returned NW_SUCCESS) :
    (pm_start_process (some pm) (some info) w).2.1 = some pm := by
  generalize hr : pm_start_process (some pm) (some info) w = r at h ⊢
  simp only [pm_start_process] at hr
  split_ifs at hr with h1 h2 h3 h4 h5
  all_goals subst hr
  · rfl
  · rfl
  · rfl
  · rfl
  · rfl
  · exact absurd rfl h

/-- The function `pm_start_process` when the cgroup block fails. -/
theorem start_eq_create_failed (pm : process_manager) (info : process_info_t) (w : World)
    (hnew : find_process_entry pm info.id = none) (hmem : (sys .calloc w).1.ret ≠ 0)
    (hgrp : (start_create_cgroup pm info (sys .calloc w).2).1 ≠ NW_SUCCESS) :
    pm_start_process (some pm) (some info) w =
      (.returned (start_create_cgroup pm info (sys .calloc w).2).1, some pm,
        (start_create_cgroup pm info (sys .calloc w).2).2) := by
  simp only [pm_start_process, hnew, Option.isSome_none, Bool.false_eq_true, if_false, hmem,
    hgrp, ne_eq, not_false_eq_true, if_true]

/-- The function `pm_start_process` when `fork` fails. -/
theorem start_eq_fork_failed (pm : process_manager) (info : process_info_t) (w : World)
    (hnew : find_process_entry pm info.id = none) (hmem : (sys .calloc w).1.ret ≠ 0)
    (hgrp : (start_create_cgroup pm info (sys .calloc w).2).1 = NW_SUCCESS)
    (hfork : (sys .fork (fork_world pm info w)).1.ret < 0) :
    pm_start_process (some pm) (some info) w =
      (.returned NW_ERROR_PROCESS_FAILED, some pm,
        start_fork_failed pm info (sys .fork (fork_world pm info w)).2) := by
  simp only [fork_world] at hfork ⊢
  simp only [pm_start_process, hnew, Option.isSome_none, Bool.false_eq_true, if_false, hmem,
    hgrp, ne_eq, not_true_eq_false, hfork, if_true]

/-- C19: a `pm_start_process` that returns anything but `NW_SUCCESS` leaves the registry
unchanged. If `cg_create_group` fails, its error is returned (`NW_ERROR_ALREADY_EXISTS`
when `mkdir` fails with `EEXIST`), the failed `mkdir` is the last call made and no fork
happens. If `fork` fails, `NW_ERROR_PROCESS_FAILED` is returned after `cg_remove_group`
has been called on the group of this start; the directory is gone when that call reports
success; without a cgroup manager there is no group and the `fork` is the last call. -/
theorem failed_start_is_atomic (pm : process_manager) (info : process_info_t) (w : World) :
    ((pm_start_process (some pm) (some info) w).1 ≠ .returned NW_SUCCESS →
      (pm_start_process (some pm) (some info) w).2.1 = some pm) ∧
    (∀ cg, pm.cgroup_mgr = some cg → find_process_entry pm info.id = none →
      (sys .calloc w).1.ret ≠ 0 →
      (cg_create_group (some cg) (some info.id) (sys .calloc w).2).1 ≠ NW_SUCCESS →
      pm_start_process (some pm) (some info) w =
        (.returned (cg_create_group (some cg) (some info.id) (sys .calloc w).2).1, some pm,
          (sys (.mkdir (group_path cg info.id) 0o755) (sys .calloc w).2).2) ∧
      ((sys (.mkdir (group_path cg info.id) 0o755) (sys .calloc w).2).1.err = EEXIST →
        (pm_start_process (some pm) (some info) w).1 = .returned NW_ERROR_ALREADY_EXISTS) ∧
      forks_of (pm_start_process (some pm) (some info) w).2.2.trace = forks_of w.trace) ∧
    (find_process_entry pm info.id = none → (sys .calloc w).1.ret ≠ 0 →
      (start_create_cgroup pm info (sys .calloc w).2).1 = NW_SUCCESS →
      (sys .fork (fork_world pm info w)).1.ret < 0 →
      (pm_start_process (some pm) (some info) w).1 = .returned NW_ERROR_PROCESS_FAILED ∧
      (pm_start_process (some pm) (some info) w).2.1 = some pm ∧
      (∀ cg, pm.cgroup_mgr = some cg →
        (pm_start_process (some pm) (some info) w).2.2 =
          (cg_remove_group (some cg) (some info.id) (sys .fork (fork_world pm info w)).2).2 ∧
        ((cg_remove_group (some cg) (some info.id)
            (sys .fork (fork_world pm info w)).2).1 = NW_SUCCESS →
          dir_exists (pm_start_process (some pm) (some info) w).2.2.trace
            (group_path cg info.id) = false)) ∧
      (pm.cgroup_mgr = none →
        (pm_start_process (some pm) (some info) w).2.2 =
          (sys .fork (fork_world pm info w)).2)) := by
  refine ⟨start_failure_registry pm info w, ?_, ?_⟩
  · intro cg hcg hnew hmem hfail
    obtain ⟨-, h2, -⟩ := cg_create_group_shape cg info.id (sys .calloc w).2
    obtain ⟨hw, herr⟩ := h2 hfail
    have hs : start_create_cgroup pm info (sys .calloc w).2 =
        cg_create_group (some cg) (some info.id) (sys .calloc w).2 := by
      simp only [start_create_cgroup, hcg, ne_eq, hfail, not_false_eq_true, if_true]
    have hgrp : (start_create_cgroup pm info (sys .calloc w).2).1 ≠ NW_SUCCESS := by
      rw [hs]; exact hfail
    rw [start_eq_create_failed pm info w hnew hmem hgrp, hs, hw]
    refine ⟨rfl, fun he => by rw [herr he], ?_⟩
    simp [sys_trace, forks_of_append, forks_of]
  · intro hnew hmem hgrp hfork
    rw [start_eq_fork_failed pm info w hnew hmem hgrp hfork]
    refine ⟨rfl, rfl, ?_, ?_⟩
    · intro cg hcg
      have hs : start_fork_failed pm info (sys .fork (fork_world pm info w)).2 =
          (cg_remove_group (some cg) (some info.id) (sys .fork (fork_world pm info w)).2).2 := by
        simp only [start_fork_failed, hcg]
      rw [hs]
      exact ⟨rfl, (cg_remove_group_shape cg info.id _).2.2.1⟩
    · intro hcg
      simp only [start_fork_failed, hcg]

theorem failed_start_is_atomic_witness :
    (pm_start_process (some (confined_pm [])) (some sample_info) ⟨dir_taken_env, []⟩ =
        (.returned NW_ERROR_ALREADY_EXISTS, some (confined_pm []),
          (sys (.mkdir "/sys/fs/cgroup/nexus_weaver/a" 0o755)
            (sys .calloc ⟨dir_taken_env, []⟩).2).2) ∧
      forks_of (pm_start_process (some (confined_pm [])) (some sample_info)
        ⟨dir_taken_env, []⟩).2.2.trace = 0) ∧
    ((pm_start_process (some (confined_pm [])) (some sample_info) ⟨no_fork_env, []⟩).1 =
        .returned NW_ERROR_PROCESS_FAILED ∧
      (pm_start_process (some (confined_pm [])) (some sample_info) ⟨no_fork_env, []⟩).2.1 =
        some (confined_pm []) ∧
      dir_exists (pm_start_process (some (confined_pm [])) (some sample_info)
        ⟨no_fork_env, []⟩).2.2.trace "/sys/fs/cgroup/nexus_weaver/a" = false) := by
  obtain ⟨-, h2, -⟩ := failed_start_is_atomic (confined_pm []) sample_info
    ⟨dir_taken_env, []⟩
  obtain ⟨a1, a2, a3⟩ := h2 sample_cg rfl (by decide) (by decide) (by decide)
  obtain ⟨-, -, h3⟩ := failed_start_is_atomic (confined_pm []) sample_info
    ⟨no_fork_env, []⟩
  obtain ⟨b1, b2, b3, -⟩ := h3 (by decide) (by decide) (by decide) (by decide)
  refine ⟨⟨?_, a3⟩, b1, b2, (b3 sample_cg rfl).2 (by decide)⟩
  rw [a1]
  have hg : group_path sample_cg sample_info.id = "/sys/fs/cgroup/nexus_weaver/a" := by decide
  rw [hg]
  have he : (cg_create_group (some sample_cg) (some sample_info.id)
      (sys .calloc ⟨dir_taken_env, []⟩).2).1 = NW_ERROR_ALREADY_EXISTS := by decide
  rw [he]

/-! ## Lemmas on `cg_get_stats` -/

theorem fgets_take_split (n : Nat) (s : List Char) :
    fgets_take n s ++ s.drop (fgets_take n s).length = s := by
  induction n generalizing s with
  | zero => simp [fgets_take]
  | succ m ih =>
    cases s with
    | nil => simp [fgets_take]
    | cons c cs =>
      simp only [fgets_take]
      split_ifs
      · simp
      · simpa using ih cs

theorem fgets_take_pos (n : Nat) (c : Char) (cs : List Char) :
    0 < (fgets_take (n + 1) (c :: cs)).length := by
  simp only [fgets_take]
  split_ifs <;> simp

/-- With enough fuel the lines of `fgets` make up the whole stream. -/
theorem fgets_lines_join (fuel : Nat) (s : List Char) (h : s.length < fuel) :
    (fgets_lines fuel s).flatten = s := by
  induction fuel generalizing s with
  | zero => omega
  | succ f ih =>
    cases s with
    | nil => simp [fgets_lines, fgets]
    | cons c cs =>
      have hpos : 0 < (fgets_take 255 (c :: cs)).length := fgets_take_pos 254 c cs
      have hf : fgets 256 (c :: cs) = some (fgets_take 255 (c :: cs),
          (c :: cs).drop (fgets_take 255 (c :: cs)).length) := rfl
      have hsplit := fgets_take_split 255 (c :: cs)
      have hlen : ((c :: cs).drop (fgets_take 255 (c :: cs)).length).length < f := by
        rw [List.length_drop]
        simp only [List.length_cons] at h ⊢
        omega
      simp only [fgets_lines, hf, List.flatten_cons]
      rw [ih _ hlen]
      exact hsplit

theorem cpu_stat_loop_eq (fuel : Nat) (s : List Char) (st : cgroup_stats_t) :
    cpu_stat_loop fuel s st =
      (fgets_lines fuel s).foldl (fun acc b => cpu_stat_line b acc) st := by
  induction fuel generalizing s st with
  | zero => rfl
  | succ f ih =>
    simp only [cpu_stat_loop, fgets_lines]
    cases fgets 256 s with
    | none => rfl
    | some br => simp [ih]

theorem key_usage_periods (line : List Char) (h : "usage_usec".data.isPrefixOf line = true) :
    "nr_periods".data.isPrefixOf line = false ∧ "nr_throttled".data.isPrefixOf line = false ∧
    "throttled_usec".data.isPrefixOf line = false := by
  cases line with
  | nil => simp at h
  | cons c cs =>
    simp only [List.isPrefixOf, Bool.and_eq_true, beq_iff_eq] at h
    obtain ⟨h1, -⟩ := h
    subst h1
    simp [List.isPrefixOf]

theorem key_throttled (line : List Char) (h : "throttled_usec".data.isPrefixOf line = true) :
    "nr_periods".data.isPrefixOf line = false ∧ "nr_throttled".data.isPrefixOf line = false ∧
    "usage_usec".data.isPrefixOf line = false := by
  cases line with
  | nil => simp at h
  | cons c cs =>
    simp only [List.isPrefixOf, Bool.and_eq_true, beq_iff_eq] at h
    obtain ⟨h1, -⟩ := h
    subst h1
    simp [List.isPrefixOf]

theorem key_nr (line : List Char) (h : "nr_periods".data.isPrefixOf line = true) :
    "nr_throttled".data.isPrefixOf line = false ∧ "usage_usec".data.isPrefixOf line = false ∧
    "throttled_usec".data.isPrefixOf line = false := by
  rcases line with _ | ⟨c1, _ | ⟨c2, _ | ⟨c3, _ | ⟨c4, l⟩⟩⟩⟩
  all_goals simp only [List.isPrefixOf, Bool.and_eq_true, beq_iff_eq, Bool.and_false,
    Bool.false_eq_true, and_false, false_and] at h
  obtain ⟨h1, h2, h3, h4, -⟩ := h
  subst h1 h2 h3 h4
  simp [List.isPrefixOf]

theorem key_nr_throttled (line : List Char)
    (h : "nr_throttled".data.isPrefixOf line = true) :
    "nr_periods".data.isPrefixOf line = false ∧ "usage_usec".data.isPrefixOf line = false ∧
    "throttled_usec".data.isPrefixOf line = false := by
  rcases line with _ | ⟨c1, _ | ⟨c2, _ | ⟨c3, _ | ⟨c4, l⟩⟩⟩⟩
  all_goals simp only [List.isPrefixOf, Bool.and_eq_true, beq_iff_eq, Bool.and_false,
    Bool.false_eq_true, and_false, false_and] at h
  obtain ⟨h1, h2, h3, h4, -⟩ := h
  subst h1 h2 h3 h4
  simp [List.isPrefixOf]

theorem sscanf_key_of_not_key (key : String) (bits : Nat) (line : List Char)
    (h : key.data.isPrefixOf line = false) : sscanf_key key bits line = none := by
  simp [sscanf_key, h]

theorem sscanf_key_key (key : String) (bits : Nat) (line : List Char) (v : Nat)
    (h : sscanf_key key bits line = some v) : key.data.isPrefixOf line = true := by
  cases hc : key.data.isPrefixOf line with
  | true => rfl
  | false =>
    rw [sscanf_key_of_not_key key bits line hc] at h
    cases h

/-- What one line of `cpu.stat` does to the statistics: each field takes the value of
its own key when the line has it, and is left alone otherwise. -/
theorem cpu_stat_line_fields (b : List Char) (st : cgroup_stats_t) :
    (cpu_stat_line b st).memory_current = st.memory_current ∧
    (cpu_stat_line b st).memory_max = st.memory_max ∧
    (cpu_stat_line b st).cpu_usage_usec =
      (sscanf_key "usage_usec" 64 b).getD st.cpu_usage_usec ∧
    (cpu_stat_line b st).nr_periods = (sscanf_key "nr_periods" 32 b).getD st.nr_periods ∧
    (cpu_stat_line b st).nr_throttled =
      (sscanf_key "nr_throttled" 32 b).getD st.nr_throttled ∧
    (cpu_stat_line b st).throttled_usec =
      (sscanf_key "throttled_usec" 64 b).getD st.throttled_usec := by
  cases h1 : sscanf_key "usage_usec" 64 b with
  | some v =>
    obtain ⟨k1, k2, k3⟩ := key_usage_periods b (sscanf_key_key _ _ _ _ h1)
    simp [cpu_stat_line, h1, sscanf_key_of_not_key _ _ _ k1, sscanf_key_of_not_key _ _ _ k2,
      sscanf_key_of_not_key _ _ _ k3]
  | none =>
    cases h2 : sscanf_key "nr_periods" 32 b with
    | some v =>
      obtain ⟨k1, k2, k3⟩ := key_nr b (sscanf_key_key _ _ _ _ h2)
      simp [cpu_stat_line, h1, h2, sscanf_key_of_not_key _ _ _ k1,
        sscanf_key_of_not_key _ _ _ k3]
    | none =>
      cases h3 : sscanf_key "nr_throttled" 32 b with
      | some v =>
        obtain ⟨k1, k2, k3⟩ := key_nr_throttled b (sscanf_key_key _ _ _ _ h3)
        simp [cpu_stat_line, h1, h2, h3, sscanf_key_of_not_key _ _ _ k3]
      | none =>
        cases h4 : sscanf_key "throttled_usec" 64 b with
        | some v => simp [cpu_stat_line, h1, h2, h3, h4]
        | none => simp [cpu_stat_line, h1, h2, h3, h4]

theorem getLast_cons_getD (v d : Nat) (l : List Nat) :
    ((v :: l).getLast?).getD d = (l.getLast?).getD v := by
  cases l with
  | nil => rfl
  | cons a t =>
    rw [List.getLast?_cons_cons]
    cases h : (a :: t).getLast? with
    | none => simp at h
    | some x => rfl

/-- A field that every line sets from its own key ends up with the value of the last
line that has the key. -/
theorem cpu_stat_fold_field (f : cgroup_stats_t → Nat) (scan : List Char → Option Nat)
    (hstep : ∀ b st, f (cpu_stat_line b st) = (scan b).getD (f st))
    (lines : List (List Char)) (st : cgroup_stats_t) :
    f (lines.foldl (fun acc b => cpu_stat_line b acc) st) =
      ((lines.filterMap scan).getLast?).getD (f st) := by
  induction lines generalizing st with
  | nil => rfl
  | cons b t ih =>
    rw [List.foldl_cons, ih, hstep]
    cases hb : scan b with
    | none => simp [List.filterMap_cons, hb]
    | some v => simp [List.filterMap_cons, hb, getLast_cons_getD]

theorem isDigit_not_space (c : Char) (h : c.isDigit = true) :
    isspace c = false ∧ (c == '-') = false ∧ (c == '+') = false := by
  refine ⟨?_, ?_, ?_⟩
  · by_contra hs
    simp only [isspace, Bool.not_eq_false, Bool.or_eq_true, beq_iff_eq] at hs
    rcases hs with ((((hs | hs) | hs) | hs) | hs) | hs <;> (subst hs; revert h; decide)
  · by_contra hs
    simp only [Bool.not_eq_false, beq_iff_eq] at hs
    subst hs; revert h; decide
  · by_contra hs
    simp only [Bool.not_eq_false, beq_iff_eq] at hs
    subst hs; revert h; decide

theorem takeWhile_digits (ds rest : List Char) (hd : ∀ c ∈ ds, c.isDigit = true)
    (hr : ∀ c, rest.head? = some c → c.isDigit = false) :
    (ds ++ rest).takeWhile Char.isDigit = ds := by
  induction ds with
  | nil =>
    cases rest with
    | nil => rfl
    | cons c t => simp [List.takeWhile, hr c rfl]
  | cons a t ih =>
    have ha := hd a (List.mem_cons_self _ _)
    have := ih (fun c hc => hd c (List.mem_cons_of_mem _ hc))
    simp only [List.cons_append, List.takeWhile, ha]
    exact congrArg (List.cons a) this

/-- A number written in decimal digits, in range, is scanned as its value. -/
theorem scan_unsigned_digits (ds rest : List Char) (hne : ds ≠ [])
    (hd : ∀ c ∈ ds, c.isDigit = true) (hr : ∀ c, rest.head? = some c → c.isDigit = false)
    (hv : decimal_value ds < 2 ^ 64) :
    scan_unsigned (ds ++ rest) = some (decimal_value ds) := by
  cases ds with
  | nil => exact absurd rfl hne
  | cons a t =>
    obtain ⟨-, h2, h3⟩ := isDigit_not_space a (hd a (List.mem_cons_self _ _))
    have htw := takeWhile_digits (a :: t) rest hd hr
    have h2' : ¬ (a = '-') := by simpa using h2
    have h3' : ¬ (a = '+') := by simpa using h3
    simp only [scan_unsigned, List.cons_append, List.head?_cons, Option.some_beq_some,
      h2, h3, Bool.or_self, Bool.false_eq_true, if_false]
    rw [show a :: (t ++ rest) = (a :: t) ++ rest from rfl, htw]
    simp only [List.isEmpty_cons, Bool.false_eq_true, if_false, Option.some.injEq]
    omega

/-- The function `cg_get_stats` with manager, group name and buffer present, unfolded. -/
theorem cg_get_stats_eq (cg : cgroup_manager) (g : String) (buf : cgroup_stats_t)
    (w : World) :
    cg_get_stats (some cg) (some g) (some buf) w =
      if (stats_cpu cg g w).1.ret ≠ 0 then
        (NW_SUCCESS,
          some ((cpu_lines (stats_cpu cg g w).1.data).foldl (fun acc b => cpu_stat_line b acc)
            (stats_memory cg g w)),
          (sys (.fclose (stats_cpu cg g w).1.ret) (stats_cpu cg g w).2).2)
      else (NW_SUCCESS, some (stats_memory cg g w), (stats_cpu cg g w).2) := by
  simp only [cg_get_stats, stats_cpu, stats_peak, stats_current, stats_file, group_path,
    cpu_lines, cpu_stat_loop_eq, stats_memory]
  by_cases h1 : (read_file (snprintf PATH_MAX (snprintf PATH_MAX (cg.nexus_path ++ "/" ++ g) ++
      "/memory.current")) 256 w).1 ≥ 0 <;>
    by_cases h2 : (read_file (snprintf PATH_MAX (snprintf PATH_MAX (cg.nexus_path ++ "/" ++ g) ++
      "/memory.peak")) 256 (read_file (snprintf PATH_MAX (snprintf PATH_MAX (cg.nexus_path ++
      "/" ++ g) ++ "/memory.current")) 256 w).2.2).1 ≥ 0 <;>
    simp only [h1, h2, if_true, if_false]

theorem stats_memory_fields (cg : cgroup_manager) (g : String) (w : World) :
    (stats_memory cg g w).memory_current =
      (if (stats_current cg g w).1 < 0 then 0
       else strtoull (stats_current cg g w).2.1.data) ∧
    (stats_memory cg g w).memory_max =
      (if (stats_peak cg g w).1 < 0 then 0 else strtoull (stats_peak cg g w).2.1.data) ∧
    (stats_memory cg g w).cpu_usage_usec = 0 ∧ (stats_memory cg g w).nr_periods = 0 ∧
    (stats_memory cg g w).nr_throttled = 0 ∧ (stats_memory cg g w).throttled_usec = 0 := by
  refine ⟨?_, ?_, rfl, rfl, rfl, rfl⟩
  · simp only [stats_memory]
    by_cases h : (stats_current cg g w).1 < 0
    · rw [if_pos h, if_neg (by omega)]
    · rw [if_neg h, if_pos (by omega)]
  · simp only [stats_memory]
    by_cases h : (stats_peak cg g w).1 < 0
    · rw [if_pos h, if_neg (by omega)]
    · rw [if_neg h, if_pos (by omega)]

/-- C20: with manager, group name and buffer present, `cg_get_stats` returns
`NW_SUCCESS`, never an error. `memory_current` and `memory_max` are 0 when `read_file`
fails on `memory.current`, resp. `memory.peak` (as it does when the file cannot be
opened), and otherwise the number `strtoull` finds in its content; the four `cpu.stat`
fields are 0 when `cpu.stat` cannot be opened or no line has the key, and otherwise the
number following the key in the last such line, where the lines make up the whole file.
A number written in decimal digits, in range, is read as its value. -/
theorem get_stats_never_fails (cg : cgroup_manager) (g : String) (buf : cgroup_stats_t)
    (w : World) :
    (cg_get_stats (some cg) (some g) (some buf) w).1 = NW_SUCCESS ∧
    (∃ st, (cg_get_stats (some cg) (some g) (some buf) w).2.1 = some st ∧
      st.memory_current =
        (if (stats_current cg g w).1 < 0 then 0
         else strtoull (stats_current cg g w).2.1.data) ∧
      st.memory_max =
        (if (stats_peak cg g w).1 < 0 then 0 else strtoull (stats_peak cg g w).2.1.data) ∧
      st.cpu_usage_usec =
        (if (stats_cpu cg g w).1.ret = 0 then 0
         else last_value "usage_usec" 64 (cpu_lines (stats_cpu cg g w).1.data)) ∧
      st.nr_periods =
        (if (stats_cpu cg g w).1.ret = 0 then 0
         else last_value "nr_periods" 32 (cpu_lines (stats_cpu cg g w).1.data)) ∧
      st.nr_throttled =
        (if (stats_cpu cg g w).1.ret = 0 then 0
         else last_value "nr_throttled" 32 (cpu_lines (stats_cpu cg g w).1.data)) ∧
      st.throttled_usec =
        (if (stats_cpu cg g w).1.ret = 0 then 0
         else last_value "throttled_usec" 64 (cpu_lines (stats_cpu cg g w).1.data))) ∧
    (∀ (path : String) (w0 : World), (sys (.open_file path O_RDONLY) w0).1.ret < 0 →
      (read_file path 256 w0).1 < 0) ∧
    (∀ key bits, last_value key bits [] = 0) ∧
    (∀ content : String, (cpu_lines content).flatten = content.data) ∧
    (∀ ds : List Char, ds ≠ [] → (∀ c ∈ ds, c.isDigit = true) → decimal_value ds < 2 ^ 64 →
      strtoull ds = decimal_value ds) ∧
    (∀ (key : String) (bits : Nat) (ds : List Char), bits ≤ 64 → ds ≠ [] →
      (∀ c ∈ ds, c.isDigit = true) → decimal_value ds < 2 ^ bits →
      sscanf_key key bits (key.data ++ ' ' :: (ds ++ ['\n'])) = some (decimal_value ds)) := by
  obtain ⟨m1, m2, m3, m4, m5, m6⟩ := stats_memory_fields cg g w
  refine ⟨?_, ?_, ?_, fun _ _ => rfl, ?_, ?_, ?_⟩
  · rw [cg_get_stats_eq]; split_ifs <;> rfl
  · rw [cg_get_stats_eq]
    by_cases h : (stats_cpu cg g w).1.ret = 0
    · simp only [h, ne_eq, not_true_eq_false, if_false, if_true]
      exact ⟨_, rfl, m1, m2, m3, m4, m5, m6⟩
    · simp only [h, ne_eq, not_false_eq_true, if_true, if_false]
      refine ⟨_, rfl, ?_, ?_, ?_, ?_, ?_, ?_⟩
      · rw [cpu_stat_fold_field (fun s => s.memory_current) (fun _ => none)
          (fun b st => (cpu_stat_line_fields b st).1)]
        simp only [List.filterMap_eq_nil_iff.2 (fun _ _ => rfl), List.getLast?_nil,
          Option.getD_none]
        exact m1
      · rw [cpu_stat_fold_field (fun s => s.memory_max) (fun _ => none)
          (fun b st => (cpu_stat_line_fields b st).2.1)]
        simp only [List.filterMap_eq_nil_iff.2 (fun _ _ => rfl), List.getLast?_nil,
          Option.getD_none]
        exact m2
      · rw [cpu_stat_fold_field (fun s => s.cpu_usage_usec) (sscanf_key "usage_usec" 64)
          (fun b st => (cpu_stat_line_fields b st).2.2.1), m3]
        rfl
      · rw [cpu_stat_fold_field (fun s => s.nr_periods) (sscanf_key "nr_periods" 32)
          (fun b st => (cpu_stat_line_fields b st).2.2.2.1), m4]
        rfl
      · rw [cpu_stat_fold_field (fun s => s.nr_throttled) (sscanf_key "nr_throttled" 32)
          (fun b st => (cpu_stat_line_fields b st).2.2.2.2.1), m5]
        rfl
      · rw [cpu_stat_fold_field (fun s => s.throttled_usec) (sscanf_key "throttled_usec" 64)
          (fun b st => (cpu_stat_line_fields b st).2.2.2.2.2), m6]
        rfl
  · intro path w0 h
    simp [read_file, h]
  · intro content
    exact fgets_lines_join _ _ (Nat.lt_succ_self _)
  · intro ds hne hd hv
    cases ds with
    | nil => exact absurd rfl hne
    | cons a t =>
      have hsp := (isDigit_not_space a (hd a (List.mem_cons_self _ _))).1
      have := scan_unsigned_digits (a :: t) [] hne hd (fun c hc => by simp at hc) hv
      simp only [List.append_nil] at this
      simp [strtoull, List.dropWhile, hsp, this]
  · intro key bits ds hb hne hd hv
    have h64 : decimal_value ds < 2 ^ 64 :=
      lt_of_lt_of_le hv (Nat.pow_le_pow_right (by decide) hb)
    have hscan := scan_unsigned_digits ds ['\n'] hne hd
      (fun c hc => by simp at hc; subst hc; decide) h64
    cases ds with
    | nil => exact absurd rfl hne
    | cons a t =>
      have hsp := (isDigit_not_space a (hd a (List.mem_cons_self _ _))).1
      have hpre : key.data.isPrefixOf (key.data ++ ' ' :: (a :: t ++ ['\n'])) = true := by
        rw [List.isPrefixOf_iff_prefix]
        exact List.prefix_append _ _
      have hsp0 : isspace ' ' = true := by decide
      simp only [sscanf_key, hpre, if_true, List.drop_left, List.dropWhile, hsp0,
        List.cons_append, hsp]
      simp only [List.cons_append] at hscan
      rw [hscan]
      simp [Nat.mod_eq_of_lt hv]

theorem get_stats_never_fails_witness :
    cg_get_stats (some sample_cg) (some "a") (some ⟨9, 9, 9, 9, 9, 9⟩) ⟨stats_env, []⟩ =
      (NW_SUCCESS, some ⟨52428800, 0, 1500, 12, 3, 250⟩,
        (cg_get_stats (some sample_cg) (some "a") (some ⟨9, 9, 9, 9, 9, 9⟩)
          ⟨stats_env, []⟩).2.2) ∧
    (cg_get_stats (some sample_cg) (some "a") (some ⟨9, 9, 9, 9, 9, 9⟩)
      ⟨no_files_env, []⟩).2.1 = some ⟨0, 0, 0, 0, 0, 0⟩ ∧
    strtoull "52428800".data = decimal_value "52428800".data ∧
    sscanf_key "nr_periods" 32 ("nr_periods".data ++ ' ' :: ("12".data ++ ['\n'])) =
      some (decimal_value "12".data) := by
  obtain ⟨h1, -, -, -, -, h6, h7⟩ := get_stats_never_fails sample_cg "a" ⟨9, 9, 9, 9, 9, 9⟩
    ⟨stats_env, []⟩
  refine ⟨?_, by decide, h6 _ (by decide) (by decide) (by decide),
    h7 "nr_periods" 32 _ (by decide) (by decide) (by decide) (by decide)⟩
  have h2 : (cg_get_stats (some sample_cg) (some "a") (some ⟨9, 9, 9, 9, 9, 9⟩)
      ⟨stats_env, []⟩).2.1 = some ⟨52428800, 0, 1500, 12, 3, 250⟩ := by decide
  rw [← h1, ← h2]

/-! ## Lemmas on the confinement invariant -/

theorem running_paths_cons (cg : cgroup_manager) (e : process_entry)
    (l : List process_entry) :
    running_paths cg (e :: l) =
      if e.info.state = PROCESS_STATE_RUNNING then
        group_path cg e.info.id :: running_paths cg l
      else running_paths cg l := by
  by_cases h : e.info.state = PROCESS_STATE_RUNNING
  · simp [running_paths, List.filter_cons, h]
  · simp [running_paths, List.filter_cons, h]

theorem running_paths_append (cg : cgroup_manager) (l1 l2 : List process_entry) :
    running_paths cg (l1 ++ l2) = running_paths cg l1 ++ running_paths cg l2 := by
  simp [running_paths, List.filter_append]

theorem mem_running_paths (cg : cgroup_manager) (l : List process_entry) (e : process_entry)
    (he : e ∈ l) (hs : e.info.state = PROCESS_STATE_RUNNING) :
    group_path cg e.info.id ∈ running_paths cg l := by
  simp only [running_paths, List.mem_map, List.mem_filter]
  exact ⟨e, ⟨he, by simp [hs]⟩, rfl⟩

theorem running_paths_sublist (cg : cgroup_manager) (l l' : List process_entry)
    (h : List.Forall₂ record_step l l') :
    (running_paths cg l').Sublist (running_paths cg l) := by
  induction h with
  | nil => exact List.Sublist.refl _
  | @cons a b l l' hab _ ih =>
    obtain ⟨hid, -, hst⟩ := hab
    rw [running_paths_cons, running_paths_cons]
    by_cases hb : b.info.state = PROCESS_STATE_RUNNING
    · have ha : a.info.state = PROCESS_STATE_RUNNING := by
        rcases hst with hst | hst
        · rw [← hst]; exact hb
        · exact absurd hb hst
      rw [if_pos hb, if_pos ha, hid]
      exact List.Sublist.cons₂ _ ih
    · rw [if_neg hb]
      split_ifs
      · exact List.Sublist.cons _ ih
      · exact ih

theorem forall2_record_step_mem (l l' : List process_entry)
    (h : List.Forall₂ record_step l l') (b : process_entry) (hb : b ∈ l') :
    ∃ a ∈ l, record_step a b := by
  induction h with
  | nil => simp at hb
  | @cons a0 b0 l l' hab _ ih =>
    rcases List.mem_cons.1 hb with rfl | hb
    · exact ⟨a0, List.mem_cons_self _ _, hab⟩
    · obtain ⟨a, ha, hs⟩ := ih hb
      exact ⟨a, List.mem_cons_of_mem _ ha, hs⟩

/-- The invariant survives a call that keeps the records (id, pid, Running only if it was
Running) and the directories of the Running records. -/
theorem confined_step (cg : cgroup_manager) (l l' : List process_entry)
    (tr tr' : List Event) (hl : List.Forall₂ record_step l l')
    (hd : ∀ e ∈ l, e.info.state = PROCESS_STATE_RUNNING →
      dir_exists tr' (group_path cg e.info.id) = dir_exists tr (group_path cg e.info.id))
    (h : confined cg l tr) : confined cg l' tr' := by
  obtain ⟨ha, hb⟩ := h
  refine ⟨?_, hb.sublist (running_paths_sublist cg l l' hl)⟩
  intro b hbm hbs
  obtain ⟨a, ham, hid, hpid, hst⟩ := forall2_record_step_mem l l' hl b hbm
  have has : a.info.state = PROCESS_STATE_RUNNING := by
    rcases hst with hst | hst
    · rw [← hst]; exact hbs
    · exact absurd hbs hst
  obtain ⟨h1, h2⟩ := ha a ham has
  rw [hid, hpid]
  exact ⟨h1, by rw [hd a ham has]; exact h2⟩

theorem update_process_state_extends (P : Call → Bool)
    (hP : ∀ cb id o n d, P (.event_cb cb id o n d) = true) (pm : process_manager)
    (entry : process_entry) (st : process_state_t) (w : World) :
    extends_by P w (update_process_state pm entry st w).2 := by
  simp only [update_process_state]
  split
  · split_ifs
    · exact extends_by_sys _ _ _ (hP _ _ _ _ _)
    · exact extends_by_refl _ _
  · exact extends_by_refl _ _

theorem stop_extends (pm : process_manager) (id : Option String) (w : World) :
    extends_by dir_neutral_call w (pm_stop_process (some pm) id w).2.2 := by
  cases id with
  | none => exact extends_by_refl _ _
  | some s =>
    simp only [pm_stop_process]
    split
    · exact extends_by_refl _ _
    · split_ifs
      · exact extends_by_refl _ _
      · exact extends_by_sys _ _ _ (by rfl)
      · exact extends_by_trans _ _ _ _ (extends_by_trans _ _ _ _ (extends_by_trans _ _ _ _
          (extends_by_trans _ _ _ _ (extends_by_sys _ _ _ (by rfl))
            (extends_by_sys _ _ _ (by rfl))) (extends_by_sys _ _ _ (by rfl)))
          (extends_by_sys _ _ _ (by rfl)))
          (update_process_state_extends _ (fun _ _ _ _ _ => rfl) _ _ _ _)
      · exact extends_by_trans _ _ _ _ (extends_by_trans _ _ _ _ (extends_by_trans _ _ _ _
          (extends_by_sys _ _ _ (by rfl))
            (extends_by_sys _ _ _ (by rfl))) (extends_by_sys _ _ _ (by rfl)))
          (update_process_state_extends _ (fun _ _ _ _ _ => rfl) _ _ _ _)

theorem update_limits_extends (pm : process_manager) (id : Option String)
    (L : Option resource_limits_t) (w : World) :
    extends_by dir_neutral_call w (pm_update_limits (some pm) id L w).2.2 := by
  cases id with
  | none => exact extends_by_refl _ _
  | some s =>
    cases L with
    | none => exact extends_by_refl _ _
    | some L =>
      have key : extends_by dir_neutral_call w
          (match pm.cgroup_mgr with
            | some cg => cg_apply_limits (some cg) (some s) (some L) w
            | none => (NW_SUCCESS, w)).2 := by
        split
        · exact extends_by_mono _ _ _ _ file_call_dir_neutral (cg_apply_limits_extends _ _ _ _)
        · exact extends_by_refl _ _
      simp only [pm_update_limits]
      split
      · exact extends_by_refl _ _
      · split_ifs
        · exact key
        · exact key

theorem signal_running_extends (sig : Int) (l : List process_entry) (w : World) :
    extends_by dir_neutral_call w (signal_running sig l w) := by
  induction l generalizing w with
  | nil => exact extends_by_refl _ _
  | cons e t ih =>
    simp only [signal_running]
    split_ifs
    · exact extends_by_trans _ _ _ _ (extends_by_sys _ _ _ (by rfl)) (ih _)
    · exact ih _

theorem stop_all_extends (pm : process_manager) (w : World) :
    extends_by dir_neutral_call w (pm_stop_all_processes (some pm) w).2.2 :=
  extends_by_trans _ _ _ _ (extends_by_trans _ _ _ _ (signal_running_extends _ _ _)
    (extends_by_sys _ _ _ (by rfl))) (signal_running_extends _ _ _)

/-- The loop body of the reaper, as far as directories go: it keeps the environment, it
touches no directory but that of the record, and none at all when the record comes out
Running (the wait reports only exits and signal deaths). -/
theorem check_entry_dirs (pm : process_manager) (e : process_entry) (w : World)
    (cg : cgroup_manager) (hcg : pm.cgroup_mgr = some cg) (hw : wait_sane w.env) :
    (check_entry pm e w).2.env = w.env ∧
    (∀ p, p ≠ group_path cg e.info.id →
      dir_exists (check_entry pm e w).2.trace p = dir_exists w.trace p) ∧
    ((check_entry pm e w).1.info.state = PROCESS_STATE_RUNNING →
      ∀ p, dir_exists (check_entry pm e w).2.trace p = dir_exists w.trace p) := by
  have hneutral : ∀ (st : process_state_t) (w1 : World),
      extends_by dir_neutral_call w1 (update_process_state pm e st w1).2 :=
    fun st w1 => update_process_state_extends _ (fun _ _ _ _ _ => rfl) _ _ _ _
  have hwait : extends_by dir_neutral_call w (sys (.waitpid e.info.pid WNOHANG) w).2 :=
    extends_by_sys _ _ _ (by rfl)
  by_cases hs : e.info.state = PROCESS_STATE_RUNNING
  · by_cases hr : (sys (.waitpid e.info.pid WNOHANG) w).1.ret > 0
    · have hsane := hw w.trace e.info.pid WNOHANG hr
      -- the record is classified, then the group is removed
      have hcase : ∃ st, st ≠ PROCESS_STATE_RUNNING ∧ check_entry pm e w =
          ((update_process_state pm e st (sys (.waitpid e.info.pid WNOHANG) w).2).1,
            (cg_remove_group (some cg)
              (some (update_process_state pm e st
                (sys (.waitpid e.info.pid WNOHANG) w).2).1.info.id)
              (update_process_state pm e st (sys (.waitpid e.info.pid WNOHANG) w).2).2).2) := by
        by_cases hx : WIFEXITED (sys (.waitpid e.info.pid WNOHANG) w).1.status = true
        · exact ⟨PROCESS_STATE_TERMINATED, by decide, by simp [check_entry, hs, hr, hx, hcg]⟩
        · have hsig : WIFSIGNALED (sys (.waitpid e.info.pid WNOHANG) w).1.status = true := by
            rcases hsane with h | h
            · exact absurd h hx
            · exact h
          exact ⟨PROCESS_STATE_FAILED, by decide, by simp [check_entry, hs, hr, hx, hsig, hcg]⟩
      obtain ⟨st, hst, heq⟩ := hcase
      rw [heq]
      have hid : (update_process_state pm e st
          (sys (.waitpid e.info.pid WNOHANG) w).2).1.info.id = e.info.id := by
        rw [update_process_state_fst]
      have hstate : (update_process_state pm e st
          (sys (.waitpid e.info.pid WNOHANG) w).2).1.info.state = st := by
        rw [update_process_state_fst]
      rw [hid]
      obtain ⟨r1, r2, -, -⟩ := cg_remove_group_shape cg e.info.id
        (update_process_state pm e st (sys (.waitpid e.info.pid WNOHANG) w).2).2
      have hup := extends_by_trans _ _ _ _ hwait (hneutral st _)
      refine ⟨by rw [r1]; exact hup.1, ?_, ?_⟩
      · intro p hp
        rw [r2 p hp]
        exact extends_by_dir_neutral _ _ hup p
      · intro hrun
        rw [hstate] at hrun
        exact absurd hrun hst
    · have hcase : check_entry pm e w =
            update_process_state pm e PROCESS_STATE_TERMINATED
              (sys (.waitpid e.info.pid WNOHANG) w).2 ∨
          check_entry pm e w = (e, (sys (.waitpid e.info.pid WNOHANG) w).2) := by
        simp only [check_entry, hs, if_true, hr, if_false]
        split_ifs
        · exact Or.inl rfl
        · exact Or.inr rfl
      rcases hcase with heq | heq
      · rw [heq]
        have hup := extends_by_trans _ _ _ _ hwait (hneutral PROCESS_STATE_TERMINATED _)
        exact ⟨hup.1, fun p _ => extends_by_dir_neutral _ _ hup p,
          fun _ p => extends_by_dir_neutral _ _ hup p⟩
      · rw [heq]
        exact ⟨hwait.1, fun p _ => extends_by_dir_neutral _ _ hwait p,
          fun _ p => extends_by_dir_neutral _ _ hwait p⟩
  · rw [check_entry_idle pm e w hs]
    exact ⟨rfl, fun _ _ => rfl, fun _ _ => rfl⟩

theorem nodup_middle_not_mem (a : String) (l1 l2 : List String)
    (h : (l1 ++ a :: l2).Nodup) : a ∉ l1 ∧ a ∉ l2 := by
  rw [List.nodup_middle, List.nodup_cons] at h
  exact ⟨fun hm => h.1 (List.mem_append_left _ hm), fun hm => h.1 (List.mem_append_right _ hm)⟩

/-- The invariant goes through the loop of the reaper. -/
theorem check_loop_confined (pm : process_manager) (cg : cgroup_manager)
    (hcg : pm.cgroup_mgr = some cg) (l pre : List process_entry) (w : World)
    (hw : wait_sane w.env) (h : confined cg (pre ++ l) w.trace) :
    (check_loop pm l w).2.env = w.env ∧
    confined cg (pre ++ (check_loop pm l w).1) (check_loop pm l w).2.trace := by
  induction l generalizing pre w with
  | nil => exact ⟨rfl, h⟩
  | cons e rest ih =>
    obtain ⟨henv, hother, hrun⟩ := check_entry_dirs pm e w cg hcg hw
    have hstep : record_step e (check_entry pm e w).1 :=
      state_step_record_step _ _ (check_entry_state_step pm e w)
    have hl : List.Forall₂ record_step (pre ++ e :: rest)
        (pre ++ (check_entry pm e w).1 :: rest) :=
      List.rel_append (forall2_record_step_refl pre)
        (List.Forall₂.cons hstep (forall2_record_step_refl rest))
    have hold : ∀ x, (x ∈ pre ∨ x ∈ rest) → x.info.state = PROCESS_STATE_RUNNING →
        0 < x.info.pid ∧
        dir_exists (check_entry pm e w).2.trace (group_path cg x.info.id) = true := by
      intro x hx hxs
      have hxmem : x ∈ pre ++ e :: rest := by
        rcases hx with hx | hx
        · exact List.mem_append_left _ hx
        · exact List.mem_append_right _ (List.mem_cons_of_mem _ hx)
      obtain ⟨hp, hdx⟩ := h.1 x hxmem hxs
      refine ⟨hp, ?_⟩
      by_cases he : e.info.state = PROCESS_STATE_RUNNING
      · by_cases hxe : group_path cg x.info.id = group_path cg e.info.id
        · exfalso
          have hnd := h.2
          rw [running_paths_append, running_paths_cons, if_pos he] at hnd
          obtain ⟨n1, n2⟩ := nodup_middle_not_mem _ _ _ hnd
          rcases hx with hx | hx
          · exact n1 (hxe ▸ mem_running_paths cg pre x hx hxs)
          · exact n2 (hxe ▸ mem_running_paths cg rest x hx hxs)
        · rw [hother _ hxe]; exact hdx
      · rw [check_entry_idle pm e w he]; exact hdx
    have hmid : confined cg (pre ++ (check_entry pm e w).1 :: rest)
        (check_entry pm e w).2.trace := by
      refine ⟨?_, h.2.sublist (running_paths_sublist cg _ _ hl)⟩
      intro x hx hxs
      rcases List.mem_append.1 hx with hx | hx
      · exact hold x (Or.inl hx) hxs
      · rcases List.mem_cons.1 hx with hx | hx
        · subst hx
          obtain ⟨hid, hpid, hst⟩ := hstep
          have he : e.info.state = PROCESS_STATE_RUNNING := by
            rcases hst with hst | hst
            · rw [← hst]; exact hxs
            · exact absurd hxs hst
          obtain ⟨hp, hdx⟩ := h.1 e (List.mem_append_right _ (List.mem_cons_self _ _)) he
          rw [hid, hpid, hrun hxs]
          exact ⟨hp, hdx⟩
        · exact hold x (Or.inr hx) hxs
    have hw' : wait_sane (check_entry pm e w).2.env := by rw [henv]; exact hw
    have := ih (pre ++ [(check_entry pm e w).1]) (check_entry pm e w).2 hw'
      (by simpa using hmid)
    simp only [check_loop]
    refine ⟨this.1.trans henv, ?_⟩
    simpa using this.2

theorem mkdir_dirs (p : String) (mode : Nat) (w : World) :
    (sys (.mkdir p mode) w).2.env = w.env ∧
    (∀ q, q ≠ p → dir_exists (sys (.mkdir p mode) w).2.trace q = dir_exists w.trace q) ∧
    ((sys (.mkdir p mode) w).1.ret < 0 →
      ∀ q, dir_exists (sys (.mkdir p mode) w).2.trace q = dir_exists w.trace q) ∧
    (0 ≤ (sys (.mkdir p mode) w).1.ret →
      dir_exists (sys (.mkdir p mode) w).2.trace p = true) := by
  refine ⟨rfl, fun q hq => ?_, fun hneg q => ?_, fun hpos => ?_⟩
  · simp [sys_trace, dir_exists_append, dir_step, Ne.symm hq]
  · have : ¬ 0 ≤ (sys (.mkdir p mode) w).1.ret := by omega
    simp [sys_trace, dir_exists_append, dir_step, this]
  · simp [sys_trace, dir_exists_append, dir_step, hpos]

/-- The cgroup block of a start, as far as directories go. -/
theorem start_create_cgroup_dirs (pm : process_manager) (info : process_info_t) (w : World)
    (cg : cgroup_manager) (hcg : pm.cgroup_mgr = some cg) (hfs : fs_sane w.env) :
    (start_create_cgroup pm info w).2.env = w.env ∧
    (∀ p, p ≠ group_path cg info.id →
      dir_exists (start_create_cgroup pm info w).2.trace p = dir_exists w.trace p) ∧
    ((start_create_cgroup pm info w).1 = NW_SUCCESS →
      dir_exists w.trace (group_path cg info.id) = false ∧
      dir_exists (start_create_cgroup pm info w).2.trace (group_path cg info.id) = true) ∧
    ((start_create_cgroup pm info w).1 ≠ NW_SUCCESS →
      ∀ p, dir_exists (start_create_cgroup pm info w).2.trace p = dir_exists w.trace p) := by
  obtain ⟨m1, m2, m3, m4⟩ := mkdir_dirs (group_path cg info.id) 0o755 w
  obtain ⟨s1, s2, s3⟩ := cg_create_group_shape cg info.id w
  by_cases hok : (cg_create_group (some cg) (some info.id) w).1 = NW_SUCCESS
  · have heq : start_create_cgroup pm info w = (NW_SUCCESS,
        (cg_apply_limits (some cg) (some info.id) (some info.limits)
          (cg_create_group (some cg) (some info.id) w).2).2) := by
      simp [start_create_cgroup, hcg, hok]
    have hext : extends_by dir_neutral_call (sys (.mkdir (group_path cg info.id) 0o755) w).2
        (start_create_cgroup pm info w).2 := by
      rw [heq]
      exact extends_by_mono _ _ _ _ file_call_dir_neutral
        (extends_by_trans _ _ _ _ s3 (cg_apply_limits_extends _ _ _ _))
    have hpos := s1.1 hok
    have hnew : dir_exists w.trace (group_path cg info.id) = false := by
      cases hd : dir_exists w.trace (group_path cg info.id) with
      | false => rfl
      | true =>
        have := hfs w.trace (group_path cg info.id) 0o755 hd
        have h2 : (sys (.mkdir (group_path cg info.id) 0o755) w).1.ret =
          (w.env (.mkdir (group_path cg info.id) 0o755) w.trace).ret := rfl
        omega
    refine ⟨hext.1.trans m1, fun p hp => ?_, fun _ => ⟨hnew, ?_⟩, fun hne => ?_⟩
    · rw [extends_by_dir_neutral _ _ hext, m2 p hp]
    · rw [extends_by_dir_neutral _ _ hext]; exact m4 hpos
    · rw [heq] at hne; exact absurd rfl hne
  · have heq : start_create_cgroup pm info w =
        ((cg_create_group (some cg) (some info.id) w).1,
          (sys (.mkdir (group_path cg info.id) 0o755) w).2) := by
      simp [start_create_cgroup, hcg, hok, (s2 hok).1]
    have hneg : (sys (.mkdir (group_path cg info.id) 0o755) w).1.ret < 0 := by
      by_contra hc
      exact hok (s1.2 (by omega))
    rw [heq]
    refine ⟨m1, fun p _ => m3 hneg p, fun h => absurd h hok, fun _ p => m3 hneg p⟩

theorem setup_process_environment_extends (info : process_info_t) (w : World) :
    extends_by dir_neutral_call w (setup_process_environment info w).2 := by
  have h1 : extends_by dir_neutral_call w
      (if info.working_dir ≠ "" then sys (.chdir info.working_dir) w else (no_call, w)).2 := by
    split_ifs
    · exact extends_by_sys _ _ _ (by rfl)
    · exact extends_by_refl _ _
  have h2 : ∀ w1, extends_by dir_neutral_call w1
      (if info.gid ≠ 0 then sys (.setgid info.gid) w1 else (no_call, w1)).2 := by
    intro w1
    split_ifs
    · exact extends_by_sys _ _ _ (by rfl)
    · exact extends_by_refl _ _
  have h3 : ∀ w1, extends_by dir_neutral_call w1
      (if info.uid ≠ 0 then sys (.setuid info.uid) w1 else (no_call, w1)).2 := by
    intro w1
    split_ifs
    · exact extends_by_sys _ _ _ (by rfl)
    · exact extends_by_refl _ _
  simp only [setup_process_environment]
  generalize (if info.working_dir ≠ "" then sys (.chdir info.working_dir) w
    else (no_call, w)) = cd at h1 ⊢
  have h2a := h2 cd.2
  generalize (if info.gid ≠ 0 then sys (.setgid info.gid) cd.2 else (no_call, cd.2)) = sg
    at h2a ⊢
  have h3a := h3 sg.2
  generalize (if info.uid ≠ 0 then sys (.setuid info.uid) sg.2 else (no_call, sg.2)) = su
    at h3a ⊢
  split_ifs
  · exact h1
  · exact extends_by_trans _ _ _ _ h1 h2a
  · exact extends_by_trans _ _ _ _ (extends_by_trans _ _ _ _ h1 h2a) h3a
  · exact extends_by_trans _ _ _ _ (extends_by_trans _ _ _ _ h1 h2a) h3a

theorem start_child_extends (info : process_info_t) (w : World) :
    extends_by dir_neutral_call w (start_child info w).2 := by
  simp only [start_child]
  split_ifs
  · exact setup_process_environment_extends _ _
  · exact extends_by_trans _ _ _ _ (setup_process_environment_extends _ _)
      (extends_by_sys _ _ _ (by rfl))
  · exact extends_by_trans _ _ _ _ (setup_process_environment_extends _ _)
      (extends_by_sys _ _ _ (by rfl))

theorem start_parent_extends (pm : process_manager) (info : process_info_t) (pid : Int)
    (w : World) : extends_by dir_neutral_call w (start_parent pm info pid w).2 := by
  simp only [start_parent]
  split
  · exact extends_by_trans _ _ _ _ (extends_by_sys _ _ _ (by rfl))
      (extends_by_mono _ _ _ _ file_call_dir_neutral (cg_add_process_extends _ _ _ _))
  · exact extends_by_sys _ _ _ (by rfl)

/-- The invariant survives a change of the history that keeps the directories of the
Running records. -/
theorem confined_of_dirs (cg : cgroup_manager) (l : List process_entry)
    (tr tr1 : List Event)
    (hd : ∀ e ∈ l, e.info.state = PROCESS_STATE_RUNNING →
      dir_exists tr1 (group_path cg e.info.id) = dir_exists tr (group_path cg e.info.id))
    (h : confined cg l tr) : confined cg l tr1 :=
  confined_step cg l l tr tr1 (forall2_record_step_refl l) hd h

/-- The invariant goes through `pm_start_process`. -/
theorem start_confined (pm : process_manager) (info : Option process_info_t) (w : World)
    (cg : cgroup_manager) (hcg : pm.cgroup_mgr = some cg) (hfs : fs_sane w.env)
    (h : confined cg pm.processes w.trace) :
    ∃ pm1, (pm_start_process (some pm) info w).2.1 = some pm1 ∧
      pm1.cgroup_mgr = some cg ∧
      (pm_start_process (some pm) info w).2.2.env = w.env ∧
      confined cg pm1.processes (pm_start_process (some pm) info w).2.2.trace := by
  cases info with
  | none => exact ⟨pm, rfl, hcg, rfl, h⟩
  | some info =>
    have hal : extends_by dir_neutral_call w (sys .calloc w).2 :=
      extends_by_sys _ _ _ (by rfl)
    obtain ⟨d1, d2, d3, d4⟩ :=
      start_create_cgroup_dirs pm info (sys .calloc w).2 cg hcg hfs
    have hne : (start_create_cgroup pm info (sys .calloc w).2).1 = NW_SUCCESS →
        ∀ e ∈ pm.processes, e.info.state = PROCESS_STATE_RUNNING →
          group_path cg e.info.id ≠ group_path cg info.id := by
      intro hok e he hes heq
      have h1 := (h.1 e he hes).2
      have h2 := (d3 hok).1
      rw [extends_by_dir_neutral _ _ hal, ← heq, h1] at h2
      exact Bool.noConfusion h2
    have hkeep : ∀ e ∈ pm.processes, e.info.state = PROCESS_STATE_RUNNING →
        dir_exists (start_create_cgroup pm info (sys .calloc w).2).2.trace
          (group_path cg e.info.id) = dir_exists w.trace (group_path cg e.info.id) := by
      intro e he hes
      by_cases hok : (start_create_cgroup pm info (sys .calloc w).2).1 = NW_SUCCESS
      · rw [d2 _ (hne hok e he hes), extends_by_dir_neutral _ _ hal]
      · rw [d4 hok, extends_by_dir_neutral _ _ hal]
    have hfk : extends_by dir_neutral_call (start_create_cgroup pm info (sys .calloc w).2).2
        (sys .fork (start_create_cgroup pm info (sys .calloc w).2).2).2 :=
      extends_by_sys _ _ _ (by rfl)
    generalize hr : pm_start_process (some pm) (some info) w = r
    simp only [pm_start_process] at hr
    split_ifs at hr with h1 h2 h3 h4 h5
    all_goals subst hr
    · exact ⟨pm, rfl, hcg, rfl, h⟩
    · exact ⟨pm, rfl, hcg, rfl,
        confined_of_dirs cg _ _ _ (fun e _ _ => extends_by_dir_neutral _ _ hal _) h⟩
    · exact ⟨pm, rfl, hcg, d1, confined_of_dirs cg _ _ _ hkeep h⟩
    · have hok : (start_create_cgroup pm info (sys .calloc w).2).1 = NW_SUCCESS := by
        by_contra hc; exact h3 hc
      have heq : start_fork_failed pm info
          (sys .fork (start_create_cgroup pm info (sys .calloc w).2).2).2 =
          (cg_remove_group (some cg) (some info.id)
            (sys .fork (start_create_cgroup pm info (sys .calloc w).2).2).2).2 := by
        simp [start_fork_failed, hcg]
      obtain ⟨r1, r2, -, -⟩ := cg_remove_group_shape cg info.id
        (sys .fork (start_create_cgroup pm info (sys .calloc w).2).2).2
      refine ⟨pm, rfl, hcg, ?_, confined_of_dirs cg _ _ _ (fun e he hes => ?_) h⟩
      · show (start_fork_failed pm info _).env = w.env
        rw [heq, r1]; exact d1
      · show dir_exists (start_fork_failed pm info _).trace _ = _
        rw [heq, r2 _ (hne hok e he hes), extends_by_dir_neutral _ _ hfk]
        exact hkeep e he hes
    · have hch := extends_by_trans _ _ _ _ hfk (start_child_extends info
        (sys .fork (start_create_cgroup pm info (sys .calloc w).2).2).2)
      refine ⟨pm, rfl, hcg, hch.1.trans d1, confined_of_dirs cg _ _ _ (fun e he hes => ?_) h⟩
      show dir_exists (start_child info _).2.trace _ = _
      rw [extends_by_dir_neutral _ _ hch]
      exact hkeep e he hes
    · have hok : (start_create_cgroup pm info (sys .calloc w).2).1 = NW_SUCCESS := by
        by_contra hc; exact h3 hc
      have hpa := extends_by_trans _ _ _ _ hfk (start_parent_extends pm info
        (sys .fork (start_create_cgroup pm info (sys .calloc w).2).2).1.ret
        (sys .fork (start_create_cgroup pm info (sys .calloc w).2).2).2)
      have hpid : 0 < (sys .fork (start_create_cgroup pm info (sys .calloc w).2).2).1.ret := by
        omega
      refine ⟨_, rfl, hcg, hpa.1.trans d1, ?_, ?_⟩
      · intro x hx hxs
        rcases List.mem_cons.1 hx with hx | hx
        · subst hx
          refine ⟨hpid, ?_⟩
          show dir_exists (start_parent pm info _ _).2.trace (group_path cg info.id) = true
          rw [extends_by_dir_neutral _ _ hpa]
          exact (d3 hok).2
        · refine ⟨(h.1 x hx hxs).1, ?_⟩
          show dir_exists (start_parent pm info _ _).2.trace _ = true
          rw [extends_by_dir_neutral _ _ hpa, hkeep x hx hxs]
          exact (h.1 x hx hxs).2
      · show (running_paths cg (_ :: pm.processes)).Nodup
        rw [running_paths_cons, if_pos rfl]
        refine List.nodup_cons.2 ⟨?_, h.2⟩
        intro hmem
        simp only [running_paths, List.mem_map, List.mem_filter] at hmem
        obtain ⟨x, ⟨hx, hxs⟩, hxe⟩ := hmem
        exact hne hok x hx (by simpa using hxs) hxe

/-- The invariant goes through every call of the interface. -/
theorem run_call_confined (c : pm_call) (pm : process_manager) (w : World)
    (cg : cgroup_manager) (hcg : pm.cgroup_mgr = some cg) (hfs : fs_sane w.env)
    (hw : wait_sane w.env) (h : confined cg pm.processes w.trace) :
    ∃ pm1, (run_call c (some pm, w)).1 = some pm1 ∧ pm1.cgroup_mgr = some cg ∧
      (run_call c (some pm, w)).2.env = w.env ∧
      confined cg pm1.processes (run_call c (some pm, w)).2.trace := by
  cases c with
  | start info => exact start_confined pm info w cg hcg hfs h
  | stop id =>
    obtain ⟨l, h1, hl⟩ := stop_registry pm id w
    have hx := stop_extends pm id w
    exact ⟨_, h1, hcg, hx.1,
      confined_step cg _ _ _ _ hl (fun e _ _ => extends_by_dir_neutral _ _ hx _) h⟩
  | update_limits id L =>
    obtain ⟨l, h1, hl⟩ := update_registry pm id L w
    have hx := update_limits_extends pm id L w
    exact ⟨_, h1, hcg, hx.1,
      confined_step cg _ _ _ _ hl (fun e _ _ => extends_by_dir_neutral _ _ hx _) h⟩
  | stop_all =>
    have hx := stop_all_extends pm w
    exact ⟨pm, rfl, hcg, hx.1,
      confined_of_dirs cg _ _ _ (fun e _ _ => extends_by_dir_neutral _ _ hx _) h⟩
  | check =>
    have hx := check_loop_confined pm cg hcg pm.processes [] w hw (by simpa using h)
    exact ⟨_, rfl, hcg, hx.1, by simpa using hx.2⟩

/-- The invariant holds after every sequence of calls. -/
theorem run_calls_confined (cs : List pm_call) (pm : process_manager) (w : World)
    (cg : cgroup_manager) (hcg : pm.cgroup_mgr = some cg) (hfs : fs_sane w.env)
    (hw : wait_sane w.env) (h : confined cg pm.processes w.trace) :
    ∃ pm1, (run_calls cs (some pm, w)).1 = some pm1 ∧
      confined cg pm1.processes (run_calls cs (some pm, w)).2.trace := by
  induction cs generalizing pm w with
  | nil => exact ⟨pm, rfl, h⟩
  | cons c cs ih =>
    obtain ⟨pm1, h1, h2, h3, h4⟩ := run_call_confined c pm w cg hcg hfs hw h
    have hs : run_call c (some pm, w) = (some pm1, (run_call c (some pm, w)).2) := by
      rw [← h1]
    simp only [run_calls]
    rw [hs]
    exact ih pm1 _ h2 (by rw [h3]; exact hfs) (by rw [h3]; exact hw) h4

theorem list_copy_loop_mem (l : List process_entry) (i count : Nat) (info : process_info_t)
    (h : info ∈ list_copy_loop l i count) : ∃ e ∈ l, e.info = info := by
  induction l generalizing i with
  | nil => simp [list_copy_loop] at h
  | cons a t ih =>
    simp only [list_copy_loop] at h
    split_ifs at h
    · rcases List.mem_cons.1 h with h | h
      · exact ⟨a, List.mem_cons_self _ _, h.symm⟩
      · obtain ⟨e, he, hi⟩ := ih _ h
        exact ⟨e, List.mem_cons_of_mem _ he, hi⟩
    · simp at h

/-- What `pm_get_process` delivers on success is the info of a record of the registry. -/
theorem get_success_mem (pm : process_manager) (id : String) (buf out : process_info_t)
    (w : World) (hs : (pm_get_process (some pm) (some id) (some buf) w).1 = NW_SUCCESS)
    (ho : (pm_get_process (some pm) (some id) (some buf) w).2.1 = some out) :
    ∃ e ∈ pm.processes, e.info = out := by
  simp only [pm_get_process] at hs ho
  cases hf : find_process_entry pm id with
  | none => simp [hf] at hs
  | some i =>
    simp only [hf, Option.some.injEq] at ho
    obtain ⟨hi, -⟩ := find_entry_loop_some _ _ _ hf
    refine ⟨entry_at pm i, ?_, ho⟩
    simp only [entry_at, List.getD_eq_getElem?_getD, List.getElem?_eq_getElem hi,
      Option.getD_some]
    exact List.getElem_mem hi

/-- What `pm_list_processes` delivers in the array is the info of records of the
registry. -/
theorem list_mem (pm : process_manager) (list : Option (List process_info_t)) (count : Nat)
    (w : World) (l : List process_info_t)
    (h : (pm_list_processes (some pm) (some list) (some count) w).2.1 = some (some l))
    (info : process_info_t) (hi : info ∈ l) : ∃ e ∈ pm.processes, e.info = info := by
  simp only [pm_list_processes] at h
  split_ifs at h
  · simp at h
  · simp at h
  · simp only [Option.some.injEq] at h
    subst h
    exact list_copy_loop_mem _ _ _ _ hi

theorem fs_sane_tidy : fs_sane tidy_env := by
  intro tr p mode h
  simp [tidy_env, h]

theorem wait_sane_tidy : wait_sane tidy_env := by
  intro tr pid options _
  left
  simp only [tidy_env]
  decide

/-- C12: in every state reached from the empty registry, with a cgroup manager set, by
calls of `pm_start_process`, `pm_stop_process`, `pm_update_limits`,
`pm_stop_all_processes` and `pm_check_processes`, every record in state Running has a
pid above zero and the directory of its group exists: the path `cg_create_group` formats,
which is `nexus_path/id` when that fits `PATH_MAX`. So `pm_get_process` (on success) and
`pm_list_processes` deliver no record that is Running with pid zero. The environment is
one in which `mkdir` fails on a directory that exists and a wait that reaps a child
reports an exit or a death by signal. -/
theorem confinement_invariant (cg : cgroup_manager) (cb : Option Nat) (user_data : Nat)
    (w : World) (hfs : fs_sane w.env) (hw : wait_sane w.env) (cs : List pm_call) :
    ∃ pm, (run_calls cs (some (fresh_pm (some cg) cb user_data), w)).1 = some pm ∧
      (∀ e ∈ pm.processes, e.info.state = PROCESS_STATE_RUNNING →
        0 < e.info.pid ∧
        dir_exists (run_calls cs (some (fresh_pm (some cg) cb user_data), w)).2.trace
          (group_path cg e.info.id) = true ∧
        (cg.nexus_path.length + 1 + e.info.id.length < PATH_MAX →
          dir_exists (run_calls cs (some (fresh_pm (some cg) cb user_data), w)).2.trace
            (cg.nexus_path ++ "/" ++ e.info.id) = true)) ∧
      (∀ id buf out w1,
        (pm_get_process (some pm) (some id) (some buf) w1).1 = NW_SUCCESS →
        (pm_get_process (some pm) (some id) (some buf) w1).2.1 = some out →
        ¬ (out.state = PROCESS_STATE_RUNNING ∧ out.pid = 0)) ∧
      (∀ list count w1 l,
        (pm_list_processes (some pm) (some list) (some count) w1).2.1 = some (some l) →
        ∀ out ∈ l, ¬ (out.state = PROCESS_STATE_RUNNING ∧ out.pid = 0)) := by
  have h0 : confined cg (fresh_pm (some cg) cb user_data).processes w.trace :=
    ⟨fun e he => by simp [fresh_pm] at he, by simp [fresh_pm, running_paths]⟩
  obtain ⟨pm, h1, h2⟩ := run_calls_confined cs _ w cg rfl hfs hw h0
  refine ⟨pm, h1, fun e he hes => ?_, fun id buf out w1 hs ho hbad => ?_,
    fun list count w1 l hl out hout hbad => ?_⟩
  · obtain ⟨hp, hd⟩ := h2.1 e he hes
    refine ⟨hp, hd, fun hfit => ?_⟩
    have hg : group_path cg e.info.id = cg.nexus_path ++ "/" ++ e.info.id :=
      snprintf_of_fits _ _ (by
        simp only [String.length_append]
        have : "/".length = 1 := rfl
        omega)
    rw [← hg]; exact hd
  · obtain ⟨e, he, rfl⟩ := get_success_mem pm id buf out w1 hs ho
    have := (h2.1 e he hbad.1).1
    omega
  · obtain ⟨e, he, rfl⟩ := list_mem pm list count w1 l hl out hout
    have := (h2.1 e he hbad.1).1
    omega

theorem confinement_invariant_witness :
    fs_sane tidy_env ∧ wait_sane tidy_env ∧
    ((run_calls [.start (some sample_info), .check, .start (some slash_info)]
        (some (fresh_pm (some sample_cg) none 0), ⟨tidy_env, []⟩)).1.map
      (fun m => m.processes.map (fun e => (e.info.id, e.info.state, e.info.pid)))) =
        some [("x/y", PROCESS_STATE_RUNNING, 4242), ("a", PROCESS_STATE_TERMINATED, 4242)] ∧
    ∃ pm, (run_calls [.start (some sample_info), .check, .start (some slash_info)]
        (some (fresh_pm (some sample_cg) none 0), ⟨tidy_env, []⟩)).1 = some pm ∧
      (∀ e ∈ pm.processes, e.info.state = PROCESS_STATE_RUNNING →
        0 < e.info.pid ∧
        dir_exists (run_calls [.start (some sample_info), .check, .start (some slash_info)]
            (some (fresh_pm (some sample_cg) none 0), ⟨tidy_env, []⟩)).2.trace
          (group_path sample_cg e.info.id) = true ∧
        (sample_cg.nexus_path.length + 1 + e.info.id.length < PATH_MAX →
          dir_exists (run_calls
              [.start (some sample_info), .check, .start (some slash_info)]
              (some (fresh_pm (some sample_cg) none 0), ⟨tidy_env, []⟩)).2.trace
            (sample_cg.nexus_path ++ "/" ++ e.info.id) = true)) ∧
      (∀ id buf out w1,
        (pm_get_process (some pm) (some id) (some buf) w1).1 = NW_SUCCESS →
        (pm_get_process (some pm) (some id) (some buf) w1).2.1 = some out →
        ¬ (out.state = PROCESS_STATE_RUNNING ∧ out.pid = 0)) ∧
      (∀ list count w1 l,
        (pm_list_processes (some pm) (some list) (some count) w1).2.1 = some (some l) →
        ∀ out ∈ l, ¬ (out.state = PROCESS_STATE_RUNNING ∧ out.pid = 0)) :=
  ⟨fs_sane_tidy, wait_sane_tidy, by decide,
    confinement_invariant sample_cg none 0 ⟨tidy_env, []⟩ fs_sane_tidy wait_sane_tidy
      [.start (some sample_info), .check, .start (some slash_info)]⟩

/-! ## The facade's statistics, `pm_stop_all_processes`, `nw_error_string` -/

/-- C21, code defect: workload `a` is in the registry, a cgroup manager is set and
`memory.current` of the group holds 52428800, which `cg_get_stats` reports; but
`pm_get_process_stats` makes no call at all (it never invokes `cg_get_stats`) and
delivers `NW_SUCCESS` with every field zero, so the workload reports `memory_current` 0. -/
theorem stats_are_zero_filled :
    (confined_pm [sample_entry PROCESS_STATE_RUNNING]).cgroup_mgr = some sample_cg ∧
    ((cg_get_stats (some sample_cg) (some "a") (some ⟨9, 9, 9, 9, 9, 9⟩)
      ⟨stats_env, []⟩).2.1.map (fun s => s.memory_current)) = some 52428800 ∧
    (pm_get_process_stats (some (confined_pm [sample_entry PROCESS_STATE_RUNNING]))
      (some "a") (some ⟨9, 9, 9, 9, 9⟩) ⟨stats_env, []⟩).1 = NW_SUCCESS ∧
    (pm_get_process_stats (some (confined_pm [sample_entry PROCESS_STATE_RUNNING]))
      (some "a") (some ⟨9, 9, 9, 9, 9⟩) ⟨stats_env, []⟩).2.1 = some ⟨0, 0, 0, 0, 0⟩ ∧
    (pm_get_process_stats (some (confined_pm [sample_entry PROCESS_STATE_RUNNING]))
      (some "a") (some ⟨9, 9, 9, 9, 9⟩) ⟨stats_env, []⟩).2.2.trace = [] := by
  refine ⟨by decide, by decide, by decide, by decide, by decide⟩

theorem calls_of_append (a b : List Event) : calls_of (a ++ b) = calls_of a ++ calls_of b := by
  simp [calls_of]

theorem running_pids_cons (e : process_entry) (l : List process_entry) :
    running_pids (e :: l) =
      if e.info.state = PROCESS_STATE_RUNNING then e.info.pid :: running_pids l
      else running_pids l := by
  by_cases h : e.info.state = PROCESS_STATE_RUNNING
  · simp [running_pids, List.filter_cons, h]
  · simp [running_pids, List.filter_cons, h]

/-- One pass of `pm_stop_all_processes`: one `kill` for each Running record, in order. -/
theorem signal_running_calls (sig : Int) (l : List process_entry) (w : World) :
    calls_of (signal_running sig l w).trace =
      calls_of w.trace ++ (running_pids l).map (fun p => Call.kill p sig) := by
  induction l generalizing w with
  | nil => simp [signal_running, running_pids]
  | cons e t ih =>
    simp only [signal_running, running_pids_cons]
    split_ifs
    · rw [ih, sys_trace, calls_of_append]
      simp [calls_of]
    · exact ih w

/-- C22: `pm_stop_all_processes` returns `NW_SUCCESS`, leaves the registry as it is, and
the calls it makes are exactly these, whatever they answer: a `kill` with `SIGTERM` for
the pid of each record in state Running, in registry order, then `sleep(2)`, then a
`kill` with `SIGKILL` for the pid of each record whose state is Running at that time,
which are the same records, since the function changes no state and probes no process.
No call is made for a record in any other state. -/
theorem stop_all_signals (pm : process_manager) (w : World) :
    (pm_stop_all_processes (some pm) w).1 = NW_SUCCESS ∧
    (pm_stop_all_processes (some pm) w).2.1 = some pm ∧
    calls_of (pm_stop_all_processes (some pm) w).2.2.trace =
      calls_of w.trace ++
        (running_pids pm.processes).map (fun p => Call.kill p SIGTERM) ++
        [Call.sleep 2] ++
        (running_pids pm.processes).map (fun p => Call.kill p SIGKILL) ∧
    signals_of (pm_stop_all_processes (some pm) w).2.2.trace =
      signals_of w.trace ++
        (running_pids pm.processes).map (fun p => (p, SIGTERM)) ++
        (running_pids pm.processes).map (fun p => (p, SIGKILL)) := by
  have hc : calls_of (pm_stop_all_processes (some pm) w).2.2.trace =
      calls_of w.trace ++
        (running_pids pm.processes).map (fun p => Call.kill p SIGTERM) ++
        [Call.sleep 2] ++
        (running_pids pm.processes).map (fun p => Call.kill p SIGKILL) := by
    simp only [pm_stop_all_processes]
    rw [signal_running_calls, sys_trace, calls_of_append, signal_running_calls]
    simp [calls_of]
  refine ⟨rfl, rfl, hc, ?_⟩
  have hs : ∀ tr : List Event, signals_of tr = (calls_of tr).filterMap (fun c =>
      match c with
      | .kill pid sig => some (pid, sig)
      | _ => none) := by
    intro tr
    simp only [signals_of, calls_of, List.filterMap_map]
    rfl
  rw [hs, hc, hs]
  have hm : ∀ (f : Int → Int × Int) (l : List Int),
      List.filterMap (fun x => some (f x)) l = l.map f := by
    intro f l
    induction l with
    | nil => rfl
    | cons a t ih => simp [List.filterMap_cons, ih]
  simp only [List.filterMap_append, List.filterMap_map, Function.comp_def, hm,
    List.filterMap_cons, List.filterMap_nil, List.append_nil, List.append_assoc,
    List.nil_append]

/-! ## `nw_error_string` -/

theorem to_int_neg (error : Int) (h1 : -2 ^ 31 < error) (h2 : error < 2 ^ 31) :
    to_int (-error) = -error := by
  simp only [to_int]
  norm_num at h1 h2 ⊢
  omega

/-- The function `nw_error_string` outside the codes 0 to -10. -/
theorem nw_error_string_unknown (error : Int) (h1 : -2 ^ 31 ≤ error) (h2 : error < 2 ^ 31)
    (h : error > 0 ∨ error < -10) : nw_error_string error = some "Unknown error" := by
  by_cases hmin : error = -2 ^ 31
  · subst hmin
    decide
  · have h3 : -2 ^ 31 < error := lt_of_le_of_ne h1 (Ne.symm hmin)
    simp only [nw_error_string, to_int_neg error h3 h2]
    have : ¬ (-error ≥ 0 ∧ -error < ((error_strings.length : Nat) : Int)) := by
      have hl : ((error_strings.length : Nat) : Int) = 11 := by decide
      rw [hl]
      omega
    rw [if_neg this]

/-- C23: on every `int` value `nw_error_string` returns a string, never reading outside
its table. `NW_SUCCESS` and the ten error codes -1 to -10 each get their own entry of
the table, a fixed non-empty string other than "Unknown error" (`NW_ERROR_NOT_FOUND`
gets "Not found", `NW_ERROR_ALREADY_EXISTS` gets "Already exists"), distinct codes get
distinct strings, and every other value, positive or below -10, gets "Unknown error". -/
theorem error_string_total (error : Int) (h1 : -2 ^ 31 ≤ error) (h2 : error < 2 ^ 31) :
    (∃ s, nw_error_string error = some s ∧ s ≠ "") ∧
    ((error > 0 ∨ error < -10) → nw_error_string error = some "Unknown error") ∧
    (∀ e : nw_error_t, error = error_code e →
      nw_error_string error = error_strings[(-error).toNat]? ∧
      nw_error_string error ≠ some "Unknown error") ∧
    (List.map (fun e => nw_error_string (error_code e))
        [NW_SUCCESS, NW_ERROR_GENERAL, NW_ERROR_INVALID_PARAM, NW_ERROR_NO_MEMORY,
         NW_ERROR_PROCESS_FAILED, NW_ERROR_CGROUP_FAILED, NW_ERROR_NOT_FOUND,
         NW_ERROR_PERMISSION_DENIED, NW_ERROR_ALREADY_EXISTS, NW_ERROR_TIMEOUT,
          NW_ERROR_IO] =
      [some "Success", some "General error", some "Invalid parameter",
       some "Out of memory", some "Process operation failed",
       some "cgroup operation failed", some "Not found", some "Permission denied",
       some "Already exists", some "Operation timed out", some "I/O error"]) ∧
    (∀ e1 e2 : nw_error_t,
      nw_error_string (error_code e1) = nw_error_string (error_code e2) → e1 = e2) := by
  have hcodes : ∀ e : nw_error_t,
      nw_error_string (error_code e) = error_strings[(-(error_code e)).toNat]? ∧
      nw_error_string (error_code e) ≠ some "Unknown error" ∧
      ∃ s, nw_error_string (error_code e) = some s ∧ s ≠ "" := by
    intro e
    cases e <;> exact ⟨by decide, by decide, _, rfl, by decide⟩
  refine ⟨?_, nw_error_string_unknown error h1 h2, ?_, by decide, ?_⟩
  · by_cases h : error > 0 ∨ error < -10
    · exact ⟨_, nw_error_string_unknown error h1 h2 h, by decide⟩
    · have hr : -10 ≤ error ∧ error ≤ 0 := by omega
      obtain ⟨hr1, hr2⟩ := hr
      interval_cases error <;> exact ⟨_, rfl, by decide⟩
  · intro e he
    subst he
    exact ⟨(hcodes e).1, (hcodes e).2.1⟩
  · intro e1 e2 h
    cases e1 <;> cases e2 <;> first | rfl | exact absurd h (by decide)

theorem error_string_total_witness :
    (∃ s, nw_error_string (-6) = some s ∧ s ≠ "") ∧
    nw_error_string 7 = some "Unknown error" ∧
    nw_error_string (-11) = some "Unknown error" ∧
    nw_error_string (error_code NW_ERROR_NOT_FOUND) = some "Not found" := by
  obtain ⟨h1, -, h3, -, -⟩ := error_string_total (-6) (by decide) (by decide)
  obtain ⟨-, k2, -, -, -⟩ := error_string_total 7 (by decide) (by decide)
  obtain ⟨-, m2, -, -, -⟩ := error_string_total (-11) (by decide) (by decide)
  refine ⟨h1, k2 (Or.inl (by decide)), m2 (Or.inr (by decide)), ?_⟩
  have := (h3 NW_ERROR_NOT_FOUND rfl).1
  exact this

/-! ## `cg_init` -/

/-- C24, as stated, fails, in both directions. The root `/srv/plain` exists but has no
`cgroup.controllers`: `cg_init` returns `NW_SUCCESS` with a manager for it, and the only
paths it checks are `/sys/fs/cgroup` and `/sys/fs/cgroup/cgroup.controllers`. The root
`/mnt/cg2` exists and has `cgroup.controllers`, but nothing is at `/sys/fs/cgroup`: the
availability check fails and `cg_init` returns `NW_ERROR_CGROUP_FAILED` without manager. -/
theorem init_checks_standard_location :
    (sys (.stat "/srv/plain/cgroup.controllers") ⟨plain_root_env, []⟩).1.ret ≠ 0 ∧
    (cg_init (some none) (some "/srv/plain") ⟨plain_root_env, []⟩).1 = NW_SUCCESS ∧
    (cg_init (some none) (some "/srv/plain") ⟨plain_root_env, []⟩).2.1 =
      some (some ⟨"/srv/plain", "/srv/plain/nexus_weaver", true⟩) ∧
    stats_of (cg_init (some none) (some "/srv/plain") ⟨plain_root_env, []⟩).2.2.trace =
      ["/sys/fs/cgroup", "/sys/fs/cgroup/cgroup.controllers"] ∧
    (sys (.stat "/mnt/cg2") ⟨mounted_elsewhere_env, []⟩).1.ret = 0 ∧
    (sys (.stat "/mnt/cg2/cgroup.controllers") ⟨mounted_elsewhere_env, []⟩).1.ret = 0 ∧
    (cg_is_v2_available (sys .calloc ⟨mounted_elsewhere_env, []⟩).2).1 = false ∧
    (cg_init (some none) (some "/mnt/cg2") ⟨mounted_elsewhere_env, []⟩).1 =
      NW_ERROR_CGROUP_FAILED ∧
    (cg_init (some none) (some "/mnt/cg2") ⟨mounted_elsewhere_env, []⟩).2.1 = some none := by
  refine ⟨by decide, by decide, by decide, by decide, by decide, by decide, by decide,
    by decide, by decide⟩

/-- The availability check looks at two fixed paths. -/
theorem cg_is_v2_available_iff (w : World) :
    (cg_is_v2_available w).1 = true ↔
      (sys (.stat "/sys/fs/cgroup") w).1.ret = 0 ∧
      (sys (.stat "/sys/fs/cgroup/cgroup.controllers")
        (sys (.stat "/sys/fs/cgroup") w).2).1.ret = 0 := by
  simp only [cg_is_v2_available, path_exists]
  split_ifs with h
  · simp [h]
  · simp only [ne_eq, not_not] at h
    simp [h]

/-- C24, amended: availability is decided on the fixed path `/sys/fs/cgroup`, whatever
root is passed: the check succeeds iff `stat` succeeds on `/sys/fs/cgroup` and on
`/sys/fs/cgroup/cgroup.controllers`. With non-`NULL` arguments and memory, `cg_init`
returns `NW_ERROR_CGROUP_FAILED` without manager when that check fails; when it succeeds,
`cg_init` makes the directory `root/nexus_weaver`, fails with `NW_ERROR_CGROUP_FAILED`
iff that `mkdir` fails with an `errno` other than `EEXIST`, and otherwise returns
`NW_SUCCESS` with a manager for the root passed, whatever `enable_controllers` finds
under that root. -/
theorem init_availability (v : Option cgroup_manager) (root : String) (w : World)
    (hmem : (sys .calloc w).1.ret ≠ 0) :
    ((cg_is_v2_available (sys .calloc w).2).1 = true ↔
      (sys (.stat "/sys/fs/cgroup") (sys .calloc w).2).1.ret = 0 ∧
      (sys (.stat "/sys/fs/cgroup/cgroup.controllers")
        (sys (.stat "/sys/fs/cgroup") (sys .calloc w).2).2).1.ret = 0) ∧
    ((cg_is_v2_available (sys .calloc w).2).1 = false →
      cg_init (some v) (some root) w =
        (NW_ERROR_CGROUP_FAILED, some none, (cg_is_v2_available (sys .calloc w).2).2)) ∧
    ((cg_is_v2_available (sys .calloc w).2).1 = true →
      ((sys (.mkdir (snprintf PATH_MAX (⟨root.data.take (PATH_MAX - 1)⟩ ++ "/nexus_weaver"))
            0o755) (cg_is_v2_available (sys .calloc w).2).2).1.ret < 0 ∧
        (sys (.mkdir (snprintf PATH_MAX (⟨root.data.take (PATH_MAX - 1)⟩ ++ "/nexus_weaver"))
            0o755) (cg_is_v2_available (sys .calloc w).2).2).1.err ≠ EEXIST →
        (cg_init (some v) (some root) w).1 = NW_ERROR_CGROUP_FAILED ∧
        (cg_init (some v) (some root) w).2.1 = some none) ∧
      (¬ ((sys (.mkdir (snprintf PATH_MAX (⟨root.data.take (PATH_MAX - 1)⟩ ++ "/nexus_weaver"))
            0o755) (cg_is_v2_available (sys .calloc w).2).2).1.ret < 0 ∧
        (sys (.mkdir (snprintf PATH_MAX (⟨root.data.take (PATH_MAX - 1)⟩ ++ "/nexus_weaver"))
            0o755) (cg_is_v2_available (sys .calloc w).2).2).1.err ≠ EEXIST) →
        (cg_init (some v) (some root) w).1 = NW_SUCCESS ∧
        (cg_init (some v) (some root) w).2.1 =
          some (some ⟨⟨root.data.take (PATH_MAX - 1)⟩,
            snprintf PATH_MAX (⟨root.data.take (PATH_MAX - 1)⟩ ++ "/nexus_weaver"),
            true⟩))) := by
  refine ⟨cg_is_v2_available_iff _, fun hav => ?_, fun hav => ⟨fun hmk => ?_, fun hmk => ?_⟩⟩
  · simp [cg_init, hmem, hav]
  · simp only [cg_init, hmem, if_false, hav, Bool.not_true, Bool.false_eq_true]
    rw [if_pos hmk]
    exact ⟨rfl, rfl⟩
  · simp only [cg_init, hmem, if_false, hav, Bool.not_true, Bool.false_eq_true]
    rw [if_neg hmk]
    exact ⟨rfl, rfl⟩

theorem init_availability_witness :
    (cg_init (some none) (some "/mnt/cg2") ⟨mounted_elsewhere_env, []⟩ =
      (NW_ERROR_CGROUP_FAILED, some none,
        (cg_is_v2_available (sys .calloc ⟨mounted_elsewhere_env, []⟩).2).2)) ∧
    ((cg_init (some none) (some "/srv/plain") ⟨plain_root_env, []⟩).1 = NW_SUCCESS ∧
      (cg_init (some none) (some "/srv/plain") ⟨plain_root_env, []⟩).2.1 =
        some (some ⟨"/srv/plain", "/srv/plain/nexus_weaver", true⟩)) := by
  obtain ⟨-, h2, -⟩ := init_availability none "/mnt/cg2" ⟨mounted_elsewhere_env, []⟩
    (by decide)
  obtain ⟨-, -, h3⟩ := init_availability none "/srv/plain" ⟨plain_root_env, []⟩ (by decide)
  exact ⟨h2 (by decide), (h3 (by decide)).2 (by decide)⟩

/-! ## The child: command tokens and identity -/

/-- C25, as stated, fails: the command `ls<TAB>-l /tmp` has the three whitespace
separated tokens `ls`, `-l`, `/tmp`, but the child passes the two arguments `ls<TAB>-l`
and `/tmp` to `execvp`: only the space character separates tokens. -/
theorem tab_does_not_separate :
    tabbed_info.command = "ls\t-l /tmp" ∧
    whitespace_argv tabbed_info.command = ["ls", "-l", "/tmp"] ∧
    execs_of (start_child tabbed_info calm_world).2.trace =
      [(some "ls\t-l", ["ls\t-l", "/tmp"])] := by
  refine ⟨by decide, by decide, by decide⟩

theorem splitOnP_head (p : Char → Bool) (s : List Char) :
    s.splitOnP p = s.takeWhile (fun c => !p c) ::
      (if s.dropWhile (fun c => !p c) = [] then []
       else ((s.dropWhile (fun c => !p c)).drop 1).splitOnP p) := by
  induction s with
  | nil => simp [List.splitOnP_nil]
  | cons x xs ih =>
    rw [List.splitOnP_cons]
    by_cases hx : p x = true
    · simp [hx]
    · simp only [hx, if_false, Bool.false_eq_true]
      rw [ih]
      simp [List.modifyHead, hx]

theorem token_runs_dropWhile (p : Char → Bool) (s : List Char) :
    token_runs p (s.dropWhile p) = token_runs p s := by
  induction s with
  | nil => rfl
  | cons x xs ih =>
    by_cases hx : p x = true
    · rw [List.dropWhile_cons_of_pos hx, ih]
      simp [token_runs, List.splitOnP_cons, hx]
    · rw [List.dropWhile_cons_of_neg hx]

theorem token_runs_cons (p : Char → Bool) (x : Char) (xs : List Char) (hx : p x = false) :
    token_runs p (x :: xs) =
      String.mk ((x :: xs).takeWhile (fun c => !p c)) ::
        token_runs p (((x :: xs).dropWhile (fun c => !p c)).drop 1) := by
  have hne : (x :: xs).takeWhile (fun c => !p c) ≠ [] := by
    simp [List.takeWhile, hx]
  simp only [token_runs]
  rw [splitOnP_head p (x :: xs)]
  by_cases hd : (x :: xs).dropWhile (fun c => !p c) = []
  · rw [if_pos hd, hd]
    simp [List.filter_cons, hne, List.splitOnP_nil]
  · rw [if_neg hd]
    simp [List.filter_cons, hne]

theorem dropWhile_head_false (p : Char → Bool) (l : List Char) (x : Char) (xs : List Char)
    (h : l.dropWhile p = x :: xs) : p x = false := by
  induction l with
  | nil => simp at h
  | cons a t ih =>
    by_cases ha : p a = true
    · rw [List.dropWhile_cons_of_pos ha] at h
      exact ih h
    · rw [List.dropWhile_cons_of_neg ha] at h
      cases h
      simpa using ha

/-- The parsing loop of the child delivers the runs between spaces, up to the number of
free slots. -/
theorem parse_command_eq (n : Nat) (cmd : List Char) :
    parse_command n cmd = (token_runs (fun c => [' '].contains c) cmd).take n := by
  induction n generalizing cmd with
  | zero => simp [parse_command]
  | succ n ih =>
    rw [← token_runs_dropWhile]
    simp only [parse_command, strtok]
    cases hs : cmd.dropWhile (fun c => [' '].contains c) with
    | nil => simp [token_runs, List.splitOnP_nil]
    | cons x xs =>
      have hx : (fun c => [' '].contains c) x = false :=
        dropWhile_head_false _ cmd x xs hs
      rw [token_runs_cons _ x xs hx]
      simp only [List.isEmpty_cons, Bool.false_eq_true, if_false, List.take_succ_cons]
      rw [ih]

theorem execs_of_append (a b : List Event) : execs_of (a ++ b) = execs_of a ++ execs_of b := by
  simp [execs_of, List.filterMap_append]

theorem run_steps_opt (cond : Prop) [Decidable cond] (c : Call) (rest : List Call)
    (w : World) :
    run_steps ((if cond then [c] else []) ++ rest) w =
      if (if cond then sys c w else (no_call, w)).1.ret < 0 then
        (false, (if cond then sys c w else (no_call, w)).2)
      else run_steps rest (if cond then sys c w else (no_call, w)).2 := by
  by_cases h : cond
  · simp only [h, if_true, List.singleton_append, run_steps]
  · simp [h, no_call]

/-- The setup of the child performs the steps of `setup_steps` in order, up to the first
that fails. -/
theorem setup_eq_run_steps (info : process_info_t) (w : World) :
    (setup_process_environment info w).2 = (run_steps (setup_steps info) w).2 ∧
    ((setup_process_environment info w).1 = NW_SUCCESS ↔
      (run_steps (setup_steps info) w).1 = true) := by
  have e : setup_steps info =
      (if info.working_dir ≠ "" then [Call.chdir info.working_dir] else []) ++
        ((if info.gid ≠ 0 then [Call.setgid info.gid] else []) ++
          ((if info.uid ≠ 0 then [Call.setuid info.uid] else []) ++ [])) := by
    simp [setup_steps]
  rw [e, run_steps_opt, run_steps_opt, run_steps_opt]
  simp only [setup_process_environment, run_steps]
  generalize (if info.working_dir ≠ "" then sys (.chdir info.working_dir) w
    else (no_call, w)) = cd
  generalize (if info.gid ≠ 0 then sys (.setgid info.gid) cd.2 else (no_call, cd.2)) = sg
  generalize (if info.uid ≠ 0 then sys (.setuid info.uid) sg.2 else (no_call, sg.2)) = su
  split_ifs <;> simp

theorem run_steps_execs (steps : List Call) (w : World)
    (h : ∀ c ∈ steps, ∀ file args, c ≠ Call.execvp file args) :
    execs_of (run_steps steps w).2.trace = execs_of w.trace := by
  induction steps generalizing w with
  | nil => rfl
  | cons c rest ih =>
    have hc : execs_of (sys c w).2.trace = execs_of w.trace := by
      rw [sys_trace, execs_of_append]
      have := h c (List.mem_cons_self _ _)
      cases c <;> first | exact absurd rfl (this _ _) | simp [execs_of]
    simp only [run_steps]
    split_ifs
    · exact hc
    · rw [ih _ (fun c hc => h c (List.mem_cons_of_mem _ hc)), hc]

theorem setup_steps_no_exec (info : process_info_t) :
    ∀ c ∈ setup_steps info, ∀ file args, c ≠ Call.execvp file args := by
  intro c hc file args
  simp only [setup_steps, List.mem_append] at hc
  rcases hc with (hc | hc) | hc <;> split_ifs at hc <;> simp at hc <;> subst hc <;> simp

/-- The child branch of `pm_start_process`. -/
theorem start_eq_child (pm : process_manager) (info : process_info_t) (w : World)
    (hnew : find_process_entry pm info.id = none) (hmem : (sys .calloc w).1.ret ≠ 0)
    (hgrp : (start_create_cgroup pm info (sys .calloc w).2).1 = NW_SUCCESS)
    (hfork : (sys .fork (fork_world pm info w)).1.ret = 0) :
    pm_start_process (some pm) (some info) w =
      ((start_child info (sys .fork (fork_world pm info w)).2).1, some pm,
        (start_child info (sys .fork (fork_world pm info w)).2).2) := by
  simp only [fork_world] at hfork ⊢
  simp only [pm_start_process, hnew, Option.isSome_none, Bool.false_eq_true, if_false, hmem,
    hgrp, ne_eq, not_true_eq_false, hfork, lt_self_iff_false, if_true]

/-- C25, amended: the argument vector the child passes to `execvp` is the sequence, in
order, of the maximal non-empty runs of characters other than the space character in the
command (cut to the 4095 characters of `cmd_copy`), truncated to its first 63 tokens:
only the space separates tokens, consecutive spaces yield no empty token, and tabs, line
ends and quote characters are ordinary characters of a token. So `argc` is at most 63
and the terminator is written inside the 64 slots of `args`. -/
theorem space_separated_argv (info : process_info_t) (w : World) :
    parse_command 63 (info.command.data.take (MAX_PATH_LENGTH - 1)) =
      (token_runs (fun c => c == ' ')
        (info.command.data.take (MAX_PATH_LENGTH - 1))).take 63 ∧
    (parse_command 63 (info.command.data.take (MAX_PATH_LENGTH - 1))).length ≤ 63 ∧
    ((setup_process_environment info w).1 = NW_SUCCESS →
      execs_of (start_child info w).2.trace = execs_of w.trace ++
        [(((token_runs (fun c => c == ' ')
              (info.command.data.take (MAX_PATH_LENGTH - 1))).take 63).head?,
          (token_runs (fun c => c == ' ')
            (info.command.data.take (MAX_PATH_LENGTH - 1))).take 63)]) := by
  have hp : (fun c : Char => [' '].contains c) = (fun c => c == ' ') := by
    funext c
    simp only [List.contains_cons, List.contains_nil, Bool.or_false]
  have h1 := parse_command_eq 63 (info.command.data.take (MAX_PATH_LENGTH - 1))
  rw [hp] at h1
  refine ⟨h1, ?_, ?_⟩
  · rw [h1]
    exact List.length_take_le _ _
  · intro hok
    have hs := run_steps_execs (setup_steps info) w (setup_steps_no_exec info)
    rw [← (setup_eq_run_steps info w).1] at hs
    rw [← h1, ← hs]
    simp only [start_child, hok, ne_eq, not_true_eq_false, if_false]
    split_ifs <;> simp [sys_trace, execs_of_append, execs_of]

theorem space_separated_argv_witness :
    parse_command 63 ("ls\t-l  /tmp".data.take (MAX_PATH_LENGTH - 1)) = ["ls\t-l", "/tmp"] ∧
    execs_of (start_child tabbed_info calm_world).2.trace =
      [(some "ls\t-l", ["ls\t-l", "/tmp"])] := by
  obtain ⟨h1, -, -⟩ := space_separated_argv { sample_info with command := "ls\t-l  /tmp" }
    calm_world
  obtain ⟨-, -, h3⟩ := space_separated_argv tabbed_info calm_world
  refine ⟨?_, ?_⟩
  · rw [h1]
    decide
  · rw [h3 (by decide)]
    decide

/-- C26: the child's setup performs, in this order, `chdir` iff a working directory is
given, `setgid` iff the gid is not 0, then `setuid` iff the uid is not 0 (so `setgid`
always comes before `setuid`), each step only if no earlier one failed; it returns
`NW_SUCCESS` iff no step failed. When a step fails the child of `pm_start_process`
performs no further call and exits with `EXIT_FAILURE`, which is not 0: no `execvp`
is made. -/
theorem child_setup_order (info : process_info_t) (w : World) :
    (setup_process_environment info w).2 = (run_steps (setup_steps info) w).2 ∧
    ((setup_process_environment info w).1 = NW_SUCCESS ↔
      (run_steps (setup_steps info) w).1 = true) ∧
    ((run_steps (setup_steps info) w).1 = false →
      start_child info w = (.child_exit EXIT_FAILURE, (run_steps (setup_steps info) w).2) ∧
      execs_of (start_child info w).2.trace = execs_of w.trace) ∧
    EXIT_FAILURE ≠ 0 ∧
    (∀ pm : process_manager, find_process_entry pm info.id = none →
      (sys .calloc w).1.ret ≠ 0 →
      (start_create_cgroup pm info (sys .calloc w).2).1 = NW_SUCCESS →
      (sys .fork (fork_world pm info w)).1.ret = 0 →
      (run_steps (setup_steps info) (sys .fork (fork_world pm info w)).2).1 = false →
      pm_start_process (some pm) (some info) w =
        (.child_exit EXIT_FAILURE, some pm,
          (run_steps (setup_steps info) (sys .fork (fork_world pm info w)).2).2)) := by
  have hchild : ∀ w0 : World, (run_steps (setup_steps info) w0).1 = false →
      start_child info w0 =
        (.child_exit EXIT_FAILURE, (run_steps (setup_steps info) w0).2) := by
    intro w0 hf
    obtain ⟨e1, e2⟩ := setup_eq_run_steps info w0
    have hne : (setup_process_environment info w0).1 ≠ NW_SUCCESS := by
      intro hs
      rw [e2.1 hs] at hf
      exact Bool.noConfusion hf
    simp only [start_child, hne, ne_eq, not_false_eq_true, if_true, e1]
  refine ⟨(setup_eq_run_steps info w).1, (setup_eq_run_steps info w).2, fun hf => ?_,
    by decide, fun pm hnew hmem hgrp hfork hf => ?_⟩
  · refine ⟨hchild w hf, ?_⟩
    rw [hchild w hf]
    exact run_steps_execs _ _ (setup_steps_no_exec info)
  · rw [start_eq_child pm info w hnew hmem hgrp hfork, hchild _ hf]

theorem child_setup_order_witness :
    setup_steps identity_info = [.chdir "/srv", .setgid 1000, .setuid 1001] ∧
    (pm_start_process (some (bare_pm [])) (some identity_info) ⟨child_env, []⟩).1 =
      .child_exit EXIT_FAILURE ∧
    calls_of (pm_start_process (some (bare_pm [])) (some identity_info)
        ⟨child_env, []⟩).2.2.trace =
      [.calloc, .fork, .chdir "/srv", .setgid 1000] := by
  obtain ⟨-, -, -, -, h5⟩ := child_setup_order identity_info ⟨child_env, []⟩
  have h := h5 (bare_pm []) (by decide) (by decide) (by decide) (by decide) (by decide)
  refine ⟨by decide, ?_, ?_⟩
  · rw [h]
  · rw [h]
    decide

/-! ## Lemmas on records that are not Running -/

theorem settled_step_refl (a : process_entry) : settled_step a a :=
  ⟨rfl, rfl, Or.inl rfl⟩

theorem settled_step_trans (a b c : process_entry) (h1 : settled_step a b)
    (h2 : settled_step b c) : settled_step a c := by
  obtain ⟨i1, p1, s1⟩ := h1
  obtain ⟨i2, p2, s2⟩ := h2
  refine ⟨i2.trans i1, p2.trans p1, ?_⟩
  rcases s1 with s1 | s1
  · rcases s2 with s2 | s2
    · exact Or.inl (s2.trans s1)
    · exact Or.inr (s1 ▸ s2)
  · exact Or.inr s1

theorem settled_step_record_step (a b : process_entry) (h : settled_step a b) :
    record_step a b := by
  obtain ⟨i1, p1, s1⟩ := h
  refine ⟨i1, p1, ?_⟩
  by_cases hb : b.info.state = a.info.state
  · exact Or.inl hb
  · rcases s1 with s1 | s1
    · exact absurd s1 hb
    · exact Or.inr (fun hr => hb (hr.trans s1.symm))

theorem state_step_settled_step (a b : process_entry) (h : state_step a b) :
    settled_step a b := by
  obtain ⟨h1, h2⟩ := h
  refine ⟨by rw [h1], by rw [h1], ?_⟩
  rcases h2 with h2 | h2
  · exact Or.inl h2
  · right
    cases hs : a.info.state <;> simp [hs, observed_edge] at h2 ⊢

theorem forall2_settled_step_refl (l : List process_entry) :
    List.Forall₂ settled_step l l := by
  induction l with
  | nil => exact List.Forall₂.nil
  | cons a t ih => exact List.Forall₂.cons (settled_step_refl a) ih

theorem forall2_settled_step_trans (l1 l2 l3 : List process_entry)
    (h1 : List.Forall₂ settled_step l1 l2) (h2 : List.Forall₂ settled_step l2 l3) :
    List.Forall₂ settled_step l1 l3 := by
  induction h1 generalizing l3 with
  | nil => cases h2; exact List.Forall₂.nil
  | cons hab _ ih =>
    cases h2 with
    | cons hbc ht => exact List.Forall₂.cons (settled_step_trans _ _ _ hab hbc) (ih _ ht)

theorem forall2_settled_step_set (l : List process_entry) (i : Nat) (e : process_entry)
    (h : settled_step (l.getD i default) e) : List.Forall₂ settled_step l (l.set i e) := by
  induction l generalizing i with
  | nil => exact List.Forall₂.nil
  | cons a t ih =>
    cases i with
    | zero =>
      rw [List.getD_cons_zero] at h
      exact List.Forall₂.cons h (forall2_settled_step_refl t)
    | succ j =>
      rw [List.getD_cons_succ] at h
      exact List.Forall₂.cons (settled_step_refl a) (ih j h)

theorem forall2_settled_record (l l1 : List process_entry)
    (h : List.Forall₂ settled_step l l1) : List.Forall₂ record_step l l1 := by
  induction h with
  | nil => exact List.Forall₂.nil
  | cons hab _ ih => exact List.Forall₂.cons (settled_step_record_step _ _ hab) ih

theorem forall2_settled_getD (l l1 : List process_entry)
    (h : List.Forall₂ settled_step l l1) (i : Nat) (hi : i < l.length) :
    settled_step (l.getD i default) (l1.getD i default) := by
  induction h generalizing i with
  | nil => simp at hi
  | cons hab _ ih =>
    cases i with
    | zero => simpa using hab
    | succ j =>
      rw [List.getD_cons_succ, List.getD_cons_succ]
      exact ih j (by simpa using hi)

theorem mem_running_pids (l : List process_entry) (p : Int) :
    p ∈ running_pids l ↔ ∃ e ∈ l, e.info.state = PROCESS_STATE_RUNNING ∧ e.info.pid = p := by
  simp only [running_pids, List.mem_map, List.mem_filter, beq_iff_eq]
  constructor
  · rintro ⟨e, ⟨h1, h2⟩, h3⟩
    exact ⟨e, h1, h2, h3⟩
  · rintro ⟨e, h1, h2, h3⟩
    exact ⟨e, ⟨h1, h2⟩, h3⟩

theorem running_pids_subset (l l1 : List process_entry)
    (h : List.Forall₂ record_step l l1) (p : Int) (hp : p ∈ running_pids l1) :
    p ∈ running_pids l := by
  rw [mem_running_pids] at hp ⊢
  obtain ⟨b, hb, hbs, hbp⟩ := hp
  obtain ⟨a, ha, hid, hpid, hst⟩ := forall2_record_step_mem l l1 h b hb
  refine ⟨a, ha, ?_, by rw [← hpid]; exact hbp⟩
  rcases hst with hst | hst
  · rw [← hst]; exact hbs
  · exact absurd hbs hst

/-- What acts on the Running records of a later registry acts on Running records of the
earlier one. -/
theorem on_running_mono (cg : Option cgroup_manager) (l l1 : List process_entry)
    (h : List.Forall₂ record_step l l1) (c : Call) (hc : on_running cg l1 c = true) :
    on_running cg l c = true := by
  cases c with
  | kill pid sig =>
    simp only [on_running, decide_eq_true_eq] at hc ⊢
    exact running_pids_subset l l1 h pid hc
  | waitpid pid options =>
    simp only [on_running, decide_eq_true_eq] at hc ⊢
    exact running_pids_subset l l1 h pid hc
  | rmdir path =>
    cases cg with
    | none => exact hc
    | some cg =>
      simp only [on_running, decide_eq_true_eq] at hc ⊢
      exact (running_paths_sublist cg l l1 h).subset hc
  | _ => rfl

theorem file_call_on_running (cg : Option cgroup_manager) (l : List process_entry) (c : Call)
    (h : file_call c = true) : on_running cg l c = true := by
  cases c <;> first | rfl | exact Bool.noConfusion h

theorem entry_at_mem (pm : process_manager) (id : String) (i : Nat)
    (hf : find_process_entry pm id = some i) : entry_at pm i ∈ pm.processes := by
  obtain ⟨hi, -⟩ := find_entry_loop_some _ _ _ hf
  simp only [entry_at, List.getD_eq_getElem?_getD, List.getElem?_eq_getElem hi,
    Option.getD_some]
  exact List.getElem_mem hi

/-- The calls of `pm_stop_process` act on the record it found, which is Running. -/
theorem stop_on_running (pm : process_manager) (id : Option String) (w : World) :
    extends_by (on_running pm.cgroup_mgr pm.processes) w
      (pm_stop_process (some pm) id w).2.2 := by
  cases id with
  | none => exact extends_by_refl _ _
  | some s =>
    cases hf : find_process_entry pm s with
    | none =>
      have : pm_stop_process (some pm) (some s) w = (NW_ERROR_NOT_FOUND, some pm, w) := by
        simp [pm_stop_process, hf]
      rw [this]
      exact extends_by_refl _ _
    | some i =>
      by_cases hs : (entry_at pm i).info.state = PROCESS_STATE_RUNNING
      · have hk : ∀ sig, on_running pm.cgroup_mgr pm.processes
            (.kill (entry_at pm i).info.pid sig) = true := by
          intro sig
          simp only [on_running, decide_eq_true_eq, mem_running_pids]
          exact ⟨_, entry_at_mem pm s i hf, hs, rfl⟩
        have h1 := extends_by_sys (on_running pm.cgroup_mgr pm.processes)
          (.kill (entry_at pm i).info.pid SIGTERM) w (hk _)
        rw [stop_running_eq pm s w i hf hs]
        split_ifs
        · exact h1
        · exact extends_by_trans _ _ _ _ (extends_by_trans _ _ _ _ (extends_by_trans _ _ _ _
            (extends_by_trans _ _ _ _ h1 (extends_by_sys _ _ _ (by rfl)))
            (extends_by_sys _ _ _ (hk _))) (extends_by_sys _ _ _ (hk _)))
            (update_process_state_extends _ (fun _ _ _ _ _ => rfl) _ _ _ _)
        · exact extends_by_trans _ _ _ _ (extends_by_trans _ _ _ _
            (extends_by_trans _ _ _ _ h1 (extends_by_sys _ _ _ (by rfl)))
            (extends_by_sys _ _ _ (hk _)))
            (update_process_state_extends _ (fun _ _ _ _ _ => rfl) _ _ _ _)
      · rw [stop_idle pm s w i hf hs]
        exact extends_by_refl _ _

/-- The registry after `pm_stop_process`: a record that was not Running is as before. -/
theorem stop_settled (pm : process_manager) (id : Option String) (w : World) :
    ∃ l, (pm_stop_process (some pm) id w).2.1 = some { pm with processes := l } ∧
      List.Forall₂ settled_step pm.processes l := by
  cases id with
  | none => exact ⟨pm.processes, rfl, forall2_settled_step_refl _⟩
  | some s =>
    cases hf : find_process_entry pm s with
    | none =>
      refine ⟨pm.processes, ?_, forall2_settled_step_refl _⟩
      simp [pm_stop_process, hf]
    | some i =>
      by_cases hs : (entry_at pm i).info.state = PROCESS_STATE_RUNNING
      · rcases stop_running_registry pm s w i hf hs with ⟨_, h⟩ | ⟨_, h⟩
        · exact ⟨pm.processes, h, forall2_settled_step_refl _⟩
        · exact ⟨_, h, forall2_settled_step_set _ _ _ ⟨rfl, rfl, Or.inr hs⟩⟩
      · refine ⟨pm.processes, ?_, forall2_settled_step_refl _⟩
        rw [stop_idle pm s w i hf hs]

/-- The registry after `pm_update_limits`: every state is as before. -/
theorem update_settled (pm : process_manager) (id : Option String)
    (L : Option resource_limits_t) (w : World) :
    ∃ l, (pm_update_limits (some pm) id L w).2.1 = some { pm with processes := l } ∧
      List.Forall₂ settled_step pm.processes l := by
  cases id with
  | none => exact ⟨pm.processes, rfl, forall2_settled_step_refl _⟩
  | some s =>
    cases L with
    | none => exact ⟨pm.processes, rfl, forall2_settled_step_refl _⟩
    | some L =>
      cases hf : find_process_entry pm s with
      | none =>
        refine ⟨pm.processes, ?_, forall2_settled_step_refl _⟩
        simp [pm_update_limits, hf]
      | some i =>
        generalize hr : pm_update_limits (some pm) (some s) (some L) w = r
        simp only [pm_update_limits, hf] at hr
        split_ifs at hr with h1
        · subst hr; exact ⟨pm.processes, rfl, forall2_settled_step_refl _⟩
        · subst hr
          exact ⟨_, rfl, forall2_settled_step_set _ _ _ ⟨rfl, rfl, Or.inl rfl⟩⟩

/-- The calls of `pm_update_limits` are file calls. -/
theorem update_limits_files (pm : process_manager) (id : Option String)
    (L : Option resource_limits_t) (w : World) :
    extends_by file_call w (pm_update_limits (some pm) id L w).2.2 := by
  cases id with
  | none => exact extends_by_refl _ _
  | some s =>
    cases L with
    | none => exact extends_by_refl _ _
    | some L =>
      have key : extends_by file_call w
          (match pm.cgroup_mgr with
            | some cg => cg_apply_limits (some cg) (some s) (some L) w
            | none => (NW_SUCCESS, w)).2 := by
        split
        · exact cg_apply_limits_extends _ _ _ _
        · exact extends_by_refl _ _
      simp only [pm_update_limits]
      split
      · exact extends_by_refl _ _
      · split_ifs
        · exact key
        · exact key

theorem signal_running_on (cg : Option cgroup_manager) (sig : Int)
    (t l : List process_entry) (ht : ∀ e ∈ t, e ∈ l) (w : World) :
    extends_by (on_running cg l) w (signal_running sig t w) := by
  induction t generalizing w with
  | nil => exact extends_by_refl _ _
  | cons e t ih =>
    have ht1 : ∀ x ∈ t, x ∈ l := fun x hx => ht x (List.mem_cons_of_mem _ hx)
    simp only [signal_running]
    split_ifs with hs
    · refine extends_by_trans _ _ _ _ (extends_by_sys _ _ _ ?_) (ih ht1 _)
      simp only [on_running, decide_eq_true_eq, mem_running_pids]
      exact ⟨e, ht e (List.mem_cons_self _ _), hs, rfl⟩
    · exact ih ht1 _

theorem cg_remove_group_on (P : Call → Bool) (cg : cgroup_manager) (g : String) (w : World)
    (h1 : ∀ path, P (.stat path) = true) (h2 : P (.rmdir (group_path cg g)) = true) :
    extends_by P w (cg_remove_group (some cg) (some g) w).2 := by
  simp only [cg_remove_group, path_exists]
  split_ifs
  · exact extends_by_sys _ _ _ (h1 _)
  · exact extends_by_trans _ _ _ _ (extends_by_sys _ _ _ (h1 _)) (extends_by_sys _ _ _ h2)
  · exact extends_by_trans _ _ _ _ (extends_by_sys _ _ _ (h1 _)) (extends_by_sys _ _ _ h2)

/-- The loop body of the reaper acts on its record, and only when that is Running. -/
theorem check_entry_on (pm : process_manager) (e : process_entry) (l : List process_entry)
    (he : e ∈ l) (w : World) :
    extends_by (on_running pm.cgroup_mgr l) w (check_entry pm e w).2 := by
  by_cases hs : e.info.state = PROCESS_STATE_RUNNING
  · have hwait : extends_by (on_running pm.cgroup_mgr l) w
        (sys (.waitpid e.info.pid WNOHANG) w).2 := by
      refine extends_by_sys _ _ _ ?_
      simp only [on_running, decide_eq_true_eq, mem_running_pids]
      exact ⟨e, he, hs, rfl⟩
    have hup : ∀ (st : process_state_t) (w1 : World),
        extends_by (on_running pm.cgroup_mgr l) w1 (update_process_state pm e st w1).2 :=
      fun st w1 => update_process_state_extends _ (fun _ _ _ _ _ => rfl) _ _ _ _
    have hrm : ∀ (cg : cgroup_manager) (x : process_entry) (w1 : World),
        pm.cgroup_mgr = some cg → x.info.id = e.info.id →
        extends_by (on_running pm.cgroup_mgr l) w1
          (cg_remove_group (some cg) (some x.info.id) w1).2 := by
      intro cg x w1 hcg hx
      refine cg_remove_group_on _ cg _ w1 (fun _ => rfl) ?_
      rw [hcg, hx]
      simp only [on_running, decide_eq_true_eq]
      exact mem_running_paths cg l e he hs
    simp only [check_entry, hs, if_true]
    split_ifs with h1 h2 h3 h4
    · split
      · rename_i cg hcg
        exact extends_by_trans _ _ _ _ (extends_by_trans _ _ _ _ hwait (hup _ _))
          (hrm cg _ _ hcg (by rw [update_process_state_fst]))
      · exact extends_by_trans _ _ _ _ hwait (hup _ _)
    · split
      · rename_i cg hcg
        exact extends_by_trans _ _ _ _ (extends_by_trans _ _ _ _ hwait (hup _ _))
          (hrm cg _ _ hcg (by rw [update_process_state_fst]))
      · exact extends_by_trans _ _ _ _ hwait (hup _ _)
    · split
      · rename_i cg hcg
        exact extends_by_trans _ _ _ _ hwait (hrm cg _ _ hcg rfl)
      · exact hwait
    · exact extends_by_trans _ _ _ _ hwait (hup _ _)
    · exact hwait
  · rw [check_entry_idle pm e w hs]
    exact extends_by_refl _ _

theorem check_loop_on (pm : process_manager) (t l : List process_entry)
    (ht : ∀ e ∈ t, e ∈ l) (w : World) :
    extends_by (on_running pm.cgroup_mgr l) w (check_loop pm t w).2 := by
  induction t generalizing w with
  | nil => exact extends_by_refl _ _
  | cons e t ih =>
    simp only [check_loop]
    exact extends_by_trans _ _ _ _ (check_entry_on pm e l (ht e (List.mem_cons_self _ _)) w)
      (ih (fun x hx => ht x (List.mem_cons_of_mem _ hx)) _)

theorem get_world (pm : Option process_manager) (id : Option String)
    (info : Option process_info_t) (w : World) : (pm_get_process pm id info w).2.2 = w := by
  cases pm <;> cases id <;> cases info <;> simp only [pm_get_process]
  split <;> rfl

theorem list_world (P : Call → Bool) (hP : ∀ n, P (.malloc n) = true)
    (pm : Option process_manager) (list : Option (Option (List process_info_t)))
    (count : Option Nat) (w : World) :
    extends_by P w (pm_list_processes pm list count w).2.2.2 := by
  cases pm <;> cases list <;> cases count <;> simp only [pm_list_processes] <;>
    first
    | exact extends_by_refl _ _
    | (split_ifs
       · exact extends_by_refl _ _
       · exact extends_by_sys _ _ _ (hP _)
       · exact extends_by_sys _ _ _ (hP _))

/-- One step that is no start: it keeps the state of every record that is not Running,
and its calls act on Running records only. -/
theorem run_step_settled (c : pm_step) (hc : no_start c = true) (pm : process_manager)
    (w : World) :
    ∃ pm1, (run_step c (some pm, w)).1 = some pm1 ∧ pm1.cgroup_mgr = pm.cgroup_mgr ∧
      List.Forall₂ settled_step pm.processes pm1.processes ∧
      extends_by (on_running pm.cgroup_mgr pm.processes) w (run_step c (some pm, w)).2 := by
  cases c with
  | call c =>
    cases c with
    | start info => exact Bool.noConfusion hc
    | stop id =>
      obtain ⟨l, h1, hl⟩ := stop_settled pm id w
      exact ⟨_, h1, rfl, hl, stop_on_running pm id w⟩
    | update_limits id L =>
      obtain ⟨l, h1, hl⟩ := update_settled pm id L w
      exact ⟨_, h1, rfl, hl, extends_by_mono _ _ _ _ (file_call_on_running _ _)
        (update_limits_files pm id L w)⟩
    | stop_all =>
      refine ⟨pm, rfl, rfl, forall2_settled_step_refl _, ?_⟩
      exact extends_by_trans _ _ _ _ (extends_by_trans _ _ _ _
        (signal_running_on _ _ _ _ (fun _ h => h) _) (extends_by_sys _ _ _ (by rfl)))
        (signal_running_on _ _ _ _ (fun _ h => h) _)
    | check =>
      refine ⟨_, rfl, rfl, ?_, check_loop_on pm pm.processes pm.processes (fun _ h => h) w⟩
      have := check_loop_state_step pm pm.processes w
      exact List.Forall₂.imp (fun a b h => state_step_settled_step a b h) this
  | get id info =>
    refine ⟨pm, rfl, rfl, forall2_settled_step_refl _, ?_⟩
    show extends_by _ w (pm_get_process (some pm) id info w).2.2
    rw [get_world]
    exact extends_by_refl _ _
  | list list count =>
    exact ⟨pm, rfl, rfl, forall2_settled_step_refl _, list_world _ (fun _ => rfl) _ _ _ _⟩

theorem run_steps_settled (steps : List pm_step) (h : ∀ s ∈ steps, no_start s = true)
    (pm : process_manager) (w : World) :
    ∃ pm1, (run_steps_of steps (some pm, w)).1 = some pm1 ∧
      pm1.cgroup_mgr = pm.cgroup_mgr ∧
      List.Forall₂ settled_step pm.processes pm1.processes ∧
      extends_by (on_running pm.cgroup_mgr pm.processes) w
        (run_steps_of steps (some pm, w)).2 := by
  induction steps generalizing pm w with
  | nil => exact ⟨pm, rfl, rfl, forall2_settled_step_refl _, extends_by_refl _ _⟩
  | cons c cs ih =>
    obtain ⟨pm1, h1, h2, h3, h4⟩ := run_step_settled c (h c (List.mem_cons_self _ _)) pm w
    have hs : run_step c (some pm, w) = (some pm1, (run_step c (some pm, w)).2) := by
      rw [← h1]
    obtain ⟨pm2, k1, k2, k3, k4⟩ := ih (fun s hs => h s (List.mem_cons_of_mem _ hs)) pm1
      (run_step c (some pm, w)).2
    simp only [run_steps_of]
    rw [hs]
    refine ⟨pm2, k1, k2.trans h2, forall2_settled_step_trans _ _ _ h3 k3, ?_⟩
    rw [h2] at k4
    exact extends_by_trans _ _ _ _ h4
      (extends_by_mono _ _ _ _ (on_running_mono _ _ _ (forall2_settled_record _ _ h3)) k4)

/-- C27: along every sequence of `pm_stop_process`, `pm_stop_all_processes`,
`pm_check_processes`, `pm_update_limits`, `pm_get_process` and `pm_list_processes`
calls, a record whose state is not Running (Stopped, Failed or Terminated) keeps its
state, id and pid; and every `kill` and every wait of the sequence names the pid of a
record that is Running, every `rmdir` the group directory of a record that is Running:
none of them is made for a record in a terminal state. In `pm_check_processes` the loop
body leaves a record that is not Running, and the world, as they are. -/
theorem terminal_states_absorb (pm : process_manager) (w : World) (steps : List pm_step)
    (h : ∀ s ∈ steps, no_start s = true) :
    ∃ pm1, (run_steps_of steps (some pm, w)).1 = some pm1 ∧
      List.Forall₂ settled_step pm.processes pm1.processes ∧
      (∀ i, i < pm.processes.length →
        (pm.processes.getD i default).info.state ≠ PROCESS_STATE_RUNNING →
        (pm1.processes.getD i default).info.state =
          (pm.processes.getD i default).info.state) ∧
      extends_by (on_running pm.cgroup_mgr pm.processes) w
        (run_steps_of steps (some pm, w)).2 ∧
      (∀ (e : process_entry) (w0 : World), e.info.state ≠ PROCESS_STATE_RUNNING →
        check_entry pm e w0 = (e, w0)) := by
  obtain ⟨pm1, h1, -, h3, h4⟩ := run_steps_settled steps h pm w
  refine ⟨pm1, h1, h3, fun i hi hs => ?_, h4, fun e w0 he => check_entry_idle pm e w0 he⟩
  obtain ⟨-, -, hst⟩ := forall2_settled_getD _ _ h3 i hi
  rcases hst with hst | hst
  · exact hst
  · exact absurd hst hs

theorem terminal_states_absorb_witness :
    ∃ pm1, (run_steps_of
        [.call (.stop (some "t")), .call .stop_all, .call .check,
          .call (.update_limits (some "s") (some doubled_limits)),
          .get (some "t") (some sample_info), .list (some none) (some 0),
          .call (.stop (some "a")), .call .check]
        (some mixed_pm, ⟨reaped_env, []⟩)).1 = some pm1 ∧
      (pm1.processes.getD 0 default).info.state = PROCESS_STATE_TERMINATED ∧
      (pm1.processes.getD 2 default).info.state = PROCESS_STATE_STOPPED ∧
      signals_of (run_steps_of
        [.call (.stop (some "t")), .call .stop_all, .call .check,
          .call (.update_limits (some "s") (some doubled_limits)),
          .get (some "t") (some sample_info), .list (some none) (some 0),
          .call (.stop (some "a")), .call .check]
        (some mixed_pm, ⟨reaped_env, []⟩)).2.trace = [(4242, SIGTERM), (4242, SIGKILL)] ∧
      removals_of (run_steps_of
        [.call (.stop (some "t")), .call .stop_all, .call .check,
          .call (.update_limits (some "s") (some doubled_limits)),
          .get (some "t") (some sample_info), .list (some none) (some 0),
          .call (.stop (some "a")), .call .check]
        (some mixed_pm, ⟨reaped_env, []⟩)).2.trace = ["/sys/fs/cgroup/nexus_weaver/a"] := by
  obtain ⟨pm1, h1, -, h3, -, -⟩ := terminal_states_absorb mixed_pm ⟨reaped_env, []⟩
    [.call (.stop (some "t")), .call .stop_all, .call .check,
      .call (.update_limits (some "s") (some doubled_limits)),
      .get (some "t") (some sample_info), .list (some none) (some 0),
      .call (.stop (some "a")), .call .check] (by decide)
  exact ⟨pm1, h1, h3 0 (by decide) (by decide), h3 2 (by decide) (by decide), by decide,
    by decide⟩

/-! ## The list response of `handle_message` -/

set_option maxRecDepth 100000 in
/-- C28, code defect: with fifteen records whose names have 255 characters, the loop of
the list response is entered a fifteenth time with `response.length` 3938 (below 3996),
and the `snprintf` of that entry returns the length of the whole line, 280, although only
157 characters are stored: `response.length` becomes 4218, above the 4096 bytes of
`data`, and `send` is handed 4226 bytes of a `message_t` of 4104. -/
theorem list_response_exceeds_buffer :
    (∀ e ∈ crowded_pm.processes, e.info.name.length = 255) ∧
    crowded_pm.processes.length = 15 ∧
    (list_response_loop ((crowded_pm.processes.take 14).map (fun e => e.info)) 0 15
      ⟨MSG_LIST_PROCESSES, 18, "Process count: 15\n"⟩).length = 3938 ∧
    (handle_message_list (some crowded_pm) none 0 ⟨roomy_env, []⟩).1.type =
      MSG_LIST_PROCESSES ∧
    (handle_message_list (some crowded_pm) none 0 ⟨roomy_env, []⟩).1.length = 4218 ∧
    (list_line (crowded_pm.processes.getD 14 default).info).length = 280 ∧
    (snprintf (sizeof_data - 3938)
      (list_line (crowded_pm.processes.getD 14 default).info)).length = 157 ∧
    sizeof_data = 4096 ∧
    (handle_message_list (some crowded_pm) none 0 ⟨roomy_env, []⟩).2.1 = 4226 ∧
    sizeof_message_t = 4104 := by
  refine ⟨by decide, by decide, by decide, by decide, by decide, by decide, by decide,
    by decide, by decide, by decide⟩

end NexusWeaver
